import Mathlib

/-!
Branch predictors of `Lab2/brchPredict.cpp`.

A shallow embedding of the predictor framework (saturating counters, shift
registers, hash functions, the BHT, global-history, tournament and TAGE
predictors) together with theorems about it.

Machine integers are modelled by `Nat` and `Int` with explicit wrap-around:
`UINT8` values are naturals below `256`, `UINT128` values naturals below
`2 ^ 128`, and the C++ `int` is a 32-bit two's complement integer.
-/

namespace BrchPredict

/-! ## Machine integers -/

/-- Wrap-around of an integer to the 32-bit two's complement range of the C++ `int`. -/
def wrapInt (x : Int) : Int := (x + 2 ^ 31) % 2 ^ 32 - 2 ^ 31

/-- The `int` expression `1 << n`.  The program is a Pin tool and runs on
IA-32 / Intel 64 only, where a 32-bit shift takes its count modulo 32; for
`n < 31` this is the C++ value `2 ^ n`. -/
def shl1 (n : Nat) : Int := wrapInt (2 ^ (n % 32))

/-- Conversion of an `int` to `UINT8`. -/
def toUINT8 (x : Int) : Nat := (x % 256).toNat

/-- Conversion of an `int` to `UINT128` (sign extension, then the low 128 bits). -/
def toUINT128 (x : Int) : Nat := (x % ((2 ^ 128 : Nat) : Int)).toNat

/-- The mask `(1 << bits) - 1`, an `int`, converted to the unsigned type of the
value it is combined with.  The `int` is never negative (see `maskInt_nonneg`),
so the conversion keeps its value. -/
def maskInt (bits : Nat) : Int := wrapInt (shl1 bits - 1)

/-- The macro `truncate(val, bits)`, i.e. `((val) & ((1 << (bits)) - 1))`. -/
def truncate (val : Nat) (bits : Nat) : Nat := val &&& (maskInt bits).toNat

/-! ## Saturating counter -/

/-- The class `SaturatingCnt`: `m_val` and `m_init_val` are `UINT8`. -/
structure SaturatingCnt where
  m_wid : Nat
  m_val : Nat
  m_init_val : Nat
deriving DecidableEq, Repr

namespace SaturatingCnt

/-- Constructor `SaturatingCnt(width)`: `m_init_val((1 << width) / 2)`, stored in a `UINT8`. -/
def new (width : Nat) : SaturatingCnt :=
  { m_wid := width
    m_val := toUINT8 (Int.tdiv (shl1 width) 2)
    m_init_val := toUINT8 (Int.tdiv (shl1 width) 2) }

/-- Method `increase`: `if (m_val < (1 << m_wid) - 1) m_val++;` with `m_val` a `UINT8`. -/
def increase (c : SaturatingCnt) : SaturatingCnt :=
  if (c.m_val : Int) < wrapInt (shl1 c.m_wid - 1) then { c with m_val := (c.m_val + 1) % 256 } else c

/-- Method `decrease`: `if (m_val > 0) m_val--;`. -/
def decrease (c : SaturatingCnt) : SaturatingCnt :=
  if c.m_val > 0 then { c with m_val := c.m_val - 1 } else c

/-- Method `reset`: `m_val = m_init_val;`. -/
def reset (c : SaturatingCnt) : SaturatingCnt := { c with m_val := c.m_init_val }

/-- Method `getVal`. -/
def getVal (c : SaturatingCnt) : Nat := c.m_val

/-- Method `getWidth`. -/
def getWidth (c : SaturatingCnt) : Nat := c.m_wid

/-- Method `isTaken`: `m_val > (1 << m_wid)/2 - 1`, compared as `int`. -/
def isTaken (c : SaturatingCnt) : Bool :=
  decide ((c.m_val : Int) > wrapInt (Int.tdiv (shl1 c.m_wid) 2 - 1))

end SaturatingCnt

/-- The three mutating methods of a `SaturatingCnt`, as data, to speak about call sequences. -/
inductive CntOp where
  | increase
  | decrease
  | reset
deriving DecidableEq, Repr

/-- One call of a mutating method. -/
def CntOp.apply : CntOp → SaturatingCnt → SaturatingCnt
  | .increase, c => c.increase
  | .decrease, c => c.decrease
  | .reset, c => c.reset

/-- A finite sequence of calls, performed left to right. -/
def SaturatingCnt.run (c : SaturatingCnt) (ops : List CntOp) : SaturatingCnt :=
  ops.foldl (fun c op => op.apply c) c

/-! ## Shift register -/

/-- The class `ShiftReg`: `m_val` is a `UINT128`. -/
structure ShiftReg where
  m_wid : Nat
  m_val : Nat
deriving DecidableEq, Repr

namespace ShiftReg

/-- Constructor `ShiftReg(width)`. -/
def new (width : Nat) : ShiftReg := { m_wid := width, m_val := 0 }

/-- Method `shiftIn`: returns the tested bit and the register after the shift.
`m_wid - 1` is a `size_t` subtraction; both masks are `int` expressions. -/
def shiftIn (r : ShiftReg) (b : Bool) : Bool × ShiftReg :=
  let ret := (r.m_val &&& toUINT128 (shl1 ((r.m_wid + 2 ^ 64 - 1) % 2 ^ 64))) != 0
  let v1 := (r.m_val * 2) % 2 ^ 128
  let v2 := v1 ||| (if b then 1 else 0)
  let v3 := v2 &&& toUINT128 (maskInt r.m_wid)
  (ret, { r with m_val := v3 })

/-- Method `getVal`. -/
def getVal (r : ShiftReg) : Nat := r.m_val

end ShiftReg

/-! ## Hash functions (`UINT128` arguments and results) -/

/-- Bitwise complement of a `UINT128`. -/
def not128 (a : Nat) : Nat := 2 ^ 128 - 1 - a

/-- Hash `f_xor`: `a ^ b`. -/
def f_xor (a b : Nat) : Nat := a ^^^ b

/-- Hash `f_xor1`: `~a ^ ~b`. -/
def f_xor1 (a b : Nat) : Nat := not128 a ^^^ not128 b

/-- Hash `f_xnor`: `~(a ^ ~b)`. -/
def f_xnor (a b : Nat) : Nat := not128 (a ^^^ not128 b)

/-! ## Tables of counters -/

/-- In-place use of `m_scnt[i]`: the entry at `i` is replaced by `f` of itself.
An index outside the table is outside the program's contract and changes nothing. -/
def modifyAt {α : Type} (l : List α) (i : Nat) (f : α → α) : List α :=
  match l[i]? with
  | some c => l.set i (f c)
  | none => l

/-! ## BHT predictor -/

/-- The class `BHTPredictor`. -/
structure BHTPredictor where
  m_entries_log : Nat
  m_scnt : List SaturatingCnt
deriving DecidableEq, Repr

namespace BHTPredictor

/-- Constructor `BHTPredictor(entry_num_log, scnt_width)`. -/
def new (entry_num_log scnt_width : Nat) : BHTPredictor :=
  { m_entries_log := entry_num_log
    m_scnt := List.replicate (shl1 entry_num_log).toNat (SaturatingCnt.new scnt_width) }

/-- Method `predict`: `m_scnt[truncate(addr, m_entries_log)].isTaken()`. -/
def predict (p : BHTPredictor) (addr : Nat) : Bool :=
  match p.m_scnt[truncate addr p.m_entries_log]? with
  | some c => c.isTaken
  | none => false

/-- The body of `update` as it acts on the counter `m_scnt[tag]`. -/
def updateCnt (takenActually : Bool) (c : SaturatingCnt) : SaturatingCnt :=
  if c.getWidth = 2 then
    if takenActually then
      let c1 := if c.getVal = 1 then c.increase else c
      c1.increase
    else
      let c1 := if c.getVal = 2 then c.decrease else c
      c1.decrease
  else if c.getWidth = 3 then
    match c.getVal with
    | 0 => if takenActually then c.increase else c
    | 3 => if takenActually then c.reset.increase.increase else c.decrease
    | 7 => if !takenActually then c.decrease else c
    | 4 => if !takenActually then c.decrease.decrease.decrease.decrease else c.increase
    | _ => if takenActually then c.increase else c.decrease
  else c

/-- Method `update`: `UINT64 tag = truncate(addr, m_entries_log)`, then the
width-specific transition on `m_scnt[tag]`. -/
def update (p : BHTPredictor) (takenActually _takenPredicted : Bool) (addr : Nat) : BHTPredictor :=
  let tag := truncate addr p.m_entries_log % 2 ^ 64
  { p with m_scnt := modifyAt p.m_scnt tag (updateCnt takenActually) }

end BHTPredictor

/-! ## Global-history predictor -/

/-- The class `GlobalHistoryPredictor<hash>`; the template argument `hash` is
passed to the methods that use it. -/
structure GlobalHistoryPredictor where
  m_ghr : ShiftReg
  m_scnt : List SaturatingCnt
  m_entries_log : Nat
deriving DecidableEq, Repr

namespace GlobalHistoryPredictor

/-- Constructor `GlobalHistoryPredictor(ghr_width, entry_num_log, scnt_width)`. -/
def new (ghr_width entry_num_log scnt_width : Nat) : GlobalHistoryPredictor :=
  { m_ghr := ShiftReg.new ghr_width
    m_scnt := List.replicate (shl1 entry_num_log).toNat (SaturatingCnt.new scnt_width)
    m_entries_log := entry_num_log }

/-- Method `get_tag`: `truncate((*hash)(addr, m_ghr->getVal()), m_entries_log)`. -/
def get_tag (hash : Nat → Nat → Nat) (p : GlobalHistoryPredictor) (addr : Nat) : Nat :=
  truncate (hash addr p.m_ghr.getVal) p.m_entries_log

/-- Method `get_ghr`. -/
def get_ghr (p : GlobalHistoryPredictor) : Nat := p.m_ghr.getVal

/-- Method `reset_ctr`: `m_scnt[get_tag(addr)].reset()`. -/
def reset_ctr (hash : Nat → Nat → Nat) (p : GlobalHistoryPredictor) (addr : Nat) :
    GlobalHistoryPredictor :=
  { p with m_scnt := modifyAt p.m_scnt (get_tag hash p addr) SaturatingCnt.reset }

/-- Method `predict`. -/
def predict (hash : Nat → Nat → Nat) (p : GlobalHistoryPredictor) (addr : Nat) : Bool :=
  match p.m_scnt[truncate (hash addr p.m_ghr.getVal) p.m_entries_log]? with
  | some c => c.isTaken
  | none => false

/-- The body of `update` as it acts on the counter `m_scnt[tag]` and on the
history register `m_ghr`, branch by branch. -/
def updateCnt (takenActually : Bool) (c : SaturatingCnt) (g : ShiftReg) :
    SaturatingCnt × ShiftReg :=
  if c.getWidth = 2 then
    if takenActually then
      let c1 := if c.getVal = 1 then c.increase else c
      (c1.increase, (g.shiftIn true).2)
    else
      let c1 := if c.getVal = 2 then c.decrease else c
      (c1.decrease, (g.shiftIn false).2)
  else if c.getWidth = 3 then
    match c.getVal with
    | 0 =>
      if takenActually then (c.increase, (g.shiftIn true).2)
      else (c, (g.shiftIn false).2)
    | 3 =>
      if takenActually then (c.reset.increase.increase, (g.shiftIn true).2)
      else (c.decrease, (g.shiftIn false).2)
    | 7 =>
      if !takenActually then (c.decrease, (g.shiftIn false).2)
      else (c, (g.shiftIn true).2)
    | 4 =>
      if !takenActually then (c.decrease.decrease.decrease.decrease, (g.shiftIn false).2)
      else (c.increase, (g.shiftIn true).2)
    | _ =>
      if takenActually then (c.increase, (g.shiftIn true).2)
      else (c.decrease, (g.shiftIn false).2)
  else (c, g)

/-- Method `update`: `UINT64 tag = truncate((*hash)(addr, m_ghr->getVal()), m_entries_log)`,
then the transition on `m_scnt[tag]` and `m_ghr`. -/
def update (hash : Nat → Nat → Nat) (p : GlobalHistoryPredictor)
    (takenActually _takenPredicted : Bool) (addr : Nat) : GlobalHistoryPredictor :=
  let tag := truncate (hash addr p.m_ghr.getVal) p.m_entries_log % 2 ^ 64
  match p.m_scnt[tag]? with
  | some c =>
    let r := updateCnt takenActually c p.m_ghr
    { p with m_scnt := p.m_scnt.set tag r.1, m_ghr := r.2 }
  | none => p

end GlobalHistoryPredictor

/-! ## The predictor interface and the tournament predictor -/

/-- The virtual interface of the base class `BranchPredictor` over a state type:
`predict` may change the object (TAGE caches its provider), `update` returns the
object after the call. -/
structure BranchPredictor (σ : Type) where
  predict : σ → Nat → Bool × σ
  update : σ → Bool → Bool → Nat → σ

/-- The base class itself: `predict` returns `false`, `update` does nothing. -/
def BranchPredictor.base : BranchPredictor Unit :=
  { predict := fun s _ => (false, s)
    update := fun s _ _ _ => s }

/-- The `BHTPredictor` overrides. -/
def BHTPredictor.asBP : BranchPredictor BHTPredictor :=
  { predict := fun p addr => (p.predict addr, p)
    update := fun p a b addr => p.update a b addr }

/-- The `GlobalHistoryPredictor<hash>` overrides. -/
def GlobalHistoryPredictor.asBP (hash : Nat → Nat → Nat) :
    BranchPredictor GlobalHistoryPredictor :=
  { predict := fun p addr => (p.predict hash addr, p)
    update := fun p a b addr => p.update hash a b addr }

/-- The class `TournamentPredictor`: `m_BPs[0]`, `m_BPs[1]` and the counter `m_gshr`. -/
structure TournamentPredictor (σ0 σ1 : Type) where
  m_BPs0 : σ0
  m_BPs1 : σ1
  m_gshr : SaturatingCnt

namespace TournamentPredictor

variable {σ0 σ1 : Type}

/-- Constructor `TournamentPredictor(BP0, BP1, gshr_width)`. -/
def new (BP0 : σ0) (BP1 : σ1) (gshr_width : Nat) : TournamentPredictor σ0 σ1 :=
  { m_BPs0 := BP0, m_BPs1 := BP1, m_gshr := SaturatingCnt.new gshr_width }

/-- Method `predict`: `m_BPs[!!(m_gshr->getVal() & 2)]->predict(addr)`. -/
def predict (B0 : BranchPredictor σ0) (B1 : BranchPredictor σ1)
    (t : TournamentPredictor σ0 σ1) (addr : Nat) : Bool × TournamentPredictor σ0 σ1 :=
  if t.m_gshr.getVal &&& 2 ≠ 0 then
    let r := B1.predict t.m_BPs1 addr
    (r.1, { t with m_BPs1 := r.2 })
  else
    let r := B0.predict t.m_BPs0 addr
    (r.1, { t with m_BPs0 := r.2 })

/-- The meta-counter part of `update`, from `result0` and `result1`. -/
def updateGshr (result0 result1 : Bool) (g : SaturatingCnt) : SaturatingCnt :=
  if !result0 && result1 then
    let g1 := if g.getVal = 1 then g.increase else g
    g1.increase
  else if result0 && !result1 then
    let g1 := if g.getVal = 2 then g.decrease else g
    g1.decrease
  else g

/-- Method `update`. -/
def update (B0 : BranchPredictor σ0) (B1 : BranchPredictor σ1)
    (t : TournamentPredictor σ0 σ1) (takenActually takenPredicted : Bool) (addr : Nat) :
    TournamentPredictor σ0 σ1 :=
  let r0 := B0.predict t.m_BPs0 addr
  let r1 := B1.predict t.m_BPs1 addr
  let result0 := (r0.1 == takenActually)
  let result1 := (r1.1 == takenActually)
  { m_gshr := updateGshr result0 result1 t.m_gshr
    m_BPs0 := B0.update r0.2 takenActually takenPredicted addr
    m_BPs1 := B1.update r1.2 takenActually takenPredicted addr }

/-- The `TournamentPredictor` overrides. -/
def asBP (B0 : BranchPredictor σ0) (B1 : BranchPredictor σ1) :
    BranchPredictor (TournamentPredictor σ0 σ1) :=
  { predict := fun t addr => predict B0 B1 t addr
    update := fun t a b addr => update B0 B1 t a b addr }

end TournamentPredictor

/-! ## TAGE predictor -/

/-- An element of the array `m_T` of `BranchPredictor*`: the constructor stores a
`BHTPredictor` at index `0` and a `GlobalHistoryPredictor<hash1>` at every other index. -/
inductive SubPredictor where
  | bht (p : BHTPredictor)
  | ghp (p : GlobalHistoryPredictor)
deriving DecidableEq, Repr

namespace SubPredictor

/-- Virtual call `m_T[i]->predict(addr)`. -/
def predict (hash1 : Nat → Nat → Nat) : SubPredictor → Nat → Bool
  | .bht p, addr => p.predict addr
  | .ghp p, addr => p.predict hash1 addr

/-- Virtual call `m_T[i]->update(takenActually, takenPredicted, addr)`. -/
def update (hash1 : Nat → Nat → Nat) : SubPredictor → Bool → Bool → Nat → SubPredictor
  | .bht p, a, b, addr => .bht (p.update a b addr)
  | .ghp p, a, b, addr => .ghp (p.update hash1 a b addr)

/-- The call `((GlobalHistoryPredictor<hash1>*)m_T[i])->get_ghr()`; the program
only performs the cast on the tables of index at least `1`. -/
def get_ghr : SubPredictor → Nat
  | .ghp p => p.get_ghr
  | .bht _ => 0

/-- The call `((GlobalHistoryPredictor<hash1>*)m_T[i])->get_tag(addr)`. -/
def get_tag (hash1 : Nat → Nat → Nat) : SubPredictor → Nat → Nat
  | .ghp p, addr => p.get_tag hash1 addr
  | .bht _, _ => 0

/-- The call `((GlobalHistoryPredictor<hash1>*)m_T[i])->reset_ctr(addr)`. -/
def reset_ctr (hash1 : Nat → Nat → Nat) : SubPredictor → Nat → SubPredictor
  | .ghp p, addr => .ghp (p.reset_ctr hash1 addr)
  | .bht p, _ => .bht p

end SubPredictor

/-- The class `TAGEPredictor<hash1, hash2>`.  The rows of `m_useful` hold `UINT8`
entries; row `0` is never allocated by the constructor and never used. -/
structure TAGEPredictor where
  m_tnum : Nat
  m_entries_log : Nat
  m_T : List SubPredictor
  m_T_pred : List Bool
  m_useful : List (List Nat)
  provider_indx : Nat
  altpred_indx : Nat
  m_rst_period : Nat
  m_rst_cnt : Nat
deriving DecidableEq, Repr

namespace TAGEPredictor

/-- Constructor.  The history widths `T1ghr_len`, `T1ghr_len * alpha`, ... of the
tables `1 .. tnum - 1` are computed in floating point by the source and are passed
here as the list `ghr_sizes`, so that `tnum = ghr_sizes.length + 1`.  The members the
constructor leaves uninitialised (`provider_indx`, `altpred_indx`, the entries of
`m_T_pred`, the row `m_useful[0]`) start at `0`, `false` and the empty row; `predict`
writes each of them that `update` reads, and `update` is only meaningful after a
`predict`. -/
def new (T0_entry_num_log : Nat) (ghr_sizes : List Nat) (Tn_entry_num_log scnt_width
    rst_period : Nat) : TAGEPredictor :=
  { m_tnum := ghr_sizes.length + 1
    m_entries_log := Tn_entry_num_log
    m_T := SubPredictor.bht (BHTPredictor.new T0_entry_num_log 2) ::
      ghr_sizes.map (fun g => SubPredictor.ghp (GlobalHistoryPredictor.new g Tn_entry_num_log scnt_width))
    m_T_pred := List.replicate (ghr_sizes.length + 1) false
    m_useful := [] :: ghr_sizes.map (fun _ => List.replicate (shl1 Tn_entry_num_log).toNat 0)
    provider_indx := 0
    altpred_indx := 0
    m_rst_period := rst_period
    m_rst_cnt := 0 }

/-- The expression `((GlobalHistoryPredictor<hash1>*)m_T[i])->get_ghr()`. -/
def ghrAt (s : TAGEPredictor) (i : Nat) : Nat :=
  match s.m_T[i]? with
  | some T => T.get_ghr
  | none => 0

/-- The entry `m_useful[i][tag]`. -/
def usefulAt (s : TAGEPredictor) (i tag : Nat) : Nat :=
  (s.m_useful.getD i []).getD tag 0

/-- The statement `m_useful[i][tag]++` on a `UINT8`. -/
def incUseful (s : TAGEPredictor) (i tag : Nat) : TAGEPredictor :=
  { s with m_useful := modifyAt s.m_useful i (fun row => modifyAt row tag (fun u => (u + 1) % 256)) }

/-- The statement `m_useful[i][tag]--` on a `UINT8`. -/
def decUseful (s : TAGEPredictor) (i tag : Nat) : TAGEPredictor :=
  { s with m_useful := modifyAt s.m_useful i (fun row => modifyAt row tag (fun u => (u + 255) % 256)) }

/-- One iteration of the loop of `predict`, for the table `i`. -/
def predictStep (hash1 hash2 : Nat → Nat → Nat) (addr : Nat) (s : TAGEPredictor) (i : Nat) :
    TAGEPredictor :=
  match s.m_T[i]? with
  | some T =>
    let tag2 := truncate (hash2 addr T.get_ghr) s.m_entries_log
    let s1 := { s with m_T_pred := s.m_T_pred.set i (T.predict hash1 addr) }
    if tag2 = T.get_tag hash1 addr then
      { s1 with altpred_indx := s1.provider_indx, provider_indx := i }
    else s1
  | none => s

/-- Method `predict`: the returned bit and the object with the cached
predictions, `provider_indx` and `altpred_indx`. -/
def predict (hash1 hash2 : Nat → Nat → Nat) (s : TAGEPredictor) (addr : Nat) :
    Bool × TAGEPredictor :=
  let s0 := { s with provider_indx := 0 }
  let s1 :=
    match s0.m_T[0]? with
    | some T => { s0 with m_T_pred := s0.m_T_pred.set 0 (T.predict hash1 addr) }
    | none => s0
  let s2 := (List.range' 1 (s.m_tnum - 1)).foldl (predictStep hash1 hash2 addr) s1
  (s2.m_T_pred.getD s2.provider_indx false, s2)

/-- First part of `update`: `m_rst_cnt++` and the call
`m_T[provider_indx]->update(takenActually, takenPredicted, addr)`. -/
def updateProvider (hash1 : Nat → Nat → Nat) (s : TAGEPredictor)
    (takenActually takenPredicted : Bool) (addr : Nat) : TAGEPredictor :=
  { s with
    m_rst_cnt := (s.m_rst_cnt + 1) % 2 ^ 64
    m_T := modifyAt s.m_T s.provider_indx
      (fun T => T.update hash1 takenActually takenPredicted addr) }

/-- Second part of `update`: the usefulness entry of the provider. -/
def updateUseful (hash1 : Nat → Nat → Nat) (s : TAGEPredictor)
    (takenActually takenPredicted : Bool) (addr : Nat) : TAGEPredictor :=
  if s.provider_indx ≠ 0 then
    match s.m_T[s.provider_indx]?, s.m_T_pred[s.altpred_indx]? with
    | some T, some alt =>
      let tag := T.get_tag hash1 addr % 2 ^ 64
      if takenActually then
        if takenPredicted then
          if !alt then s.incUseful s.provider_indx tag else s
        else
          if alt then s.decUseful s.provider_indx tag else s
      else
        if takenPredicted then
          if !alt then s.decUseful s.provider_indx tag else s
        else
          if alt then s.incUseful s.provider_indx tag else s
    | _, _ => s
  else s

/-- The inner loop `for (int j = 0; j < (1 << m_entries_log); j++) m_useful[i][j] = 0`. -/
def clearRow (n : Nat) (row : List Nat) : List Nat :=
  (List.range n).foldl (fun r j => r.set j 0) row

/-- Third part of `update`: the periodic clearing of the usefulness rows. -/
def periodicReset (s : TAGEPredictor) : TAGEPredictor :=
  if s.m_rst_cnt = s.m_rst_period then
    { s with
      m_useful := (List.range' 1 (s.m_tnum - 1)).foldl
        (fun u i => modifyAt u i (clearRow (shl1 s.m_entries_log).toNat)) s.m_useful
      m_rst_cnt := 0 }
  else s

/-- The first loop of the misprediction part, from table `i` with `n` tables
left: the object after the loop and `updateFlag`. -/
def allocLoop (hash1 : Nat → Nat → Nat) (addr : Nat) (s : TAGEPredictor) :
    Nat → Nat → TAGEPredictor × Bool
  | _, 0 => (s, false)
  | i, n + 1 =>
    let tag := truncate (hash1 addr (s.ghrAt i)) s.m_entries_log % 2 ^ 64
    if s.usefulAt i tag = 0 then
      ({ s with m_T := modifyAt s.m_T i (fun T => T.reset_ctr hash1 addr) }, true)
    else allocLoop hash1 addr s (i + 1) n

/-- One iteration of the second loop of the misprediction part. -/
def ageStep (hash1 : Nat → Nat → Nat) (addr : Nat) (s : TAGEPredictor) (i : Nat) :
    TAGEPredictor :=
  let tag := truncate (hash1 addr (s.ghrAt i)) s.m_entries_log % 2 ^ 64
  s.decUseful i tag

/-- Fourth part of `update`: allocation or ageing after a misprediction. -/
def updateAlloc (hash1 : Nat → Nat → Nat) (s : TAGEPredictor)
    (takenActually takenPredicted : Bool) (addr : Nat) : TAGEPredictor :=
  if (takenActually && !takenPredicted) || (!takenActually && takenPredicted) then
    let r := allocLoop hash1 addr s (s.provider_indx + 1) (s.m_tnum - (s.provider_indx + 1))
    if !r.2 then
      (List.range' (s.provider_indx + 1) (s.m_tnum - (s.provider_indx + 1))).foldl
        (ageStep hash1 addr) r.1
    else r.1
  else s

/-- Method `update`: the four parts in the order of the source. -/
def update (hash1 : Nat → Nat → Nat) (s : TAGEPredictor)
    (takenActually takenPredicted : Bool) (addr : Nat) : TAGEPredictor :=
  updateAlloc hash1
    (periodicReset
      (updateUseful hash1 (updateProvider hash1 s takenActually takenPredicted addr)
        takenActually takenPredicted addr))
    takenActually takenPredicted addr

/-- The `TAGEPredictor<hash1, hash2>` overrides. -/
def asBP (hash1 hash2 : Nat → Nat → Nat) : BranchPredictor TAGEPredictor :=
  { predict := fun s addr => predict hash1 hash2 s addr
    update := fun s a b addr => update hash1 s a b addr }

end TAGEPredictor

/-! ## Well-formed predictors and the tables of the specification -/

/-- A counter as the constructor of width `w` makes it and the methods keep it:
width `w`, reset point `2 ^ (w - 1)`, value below `2 ^ w`. -/
def SaturatingCnt.WF (w : Nat) (c : SaturatingCnt) : Prop :=
  c.m_wid = w ∧ c.m_init_val = 2 ^ (w - 1) ∧ c.m_val < 2 ^ w

instance (w : Nat) (c : SaturatingCnt) : Decidable (c.WF w) := by
  unfold SaturatingCnt.WF; infer_instance

/-- What every method of a counter of width `w` keeps true: the width, the `UINT8`
range of both members, and for `w < 8` the range `2 ^ w`. -/
def SaturatingCnt.Bounded (w : Nat) (c : SaturatingCnt) : Prop :=
  c.m_wid = w ∧ c.m_val < 256 ∧ c.m_init_val < 256 ∧
    (w < 8 → c.m_val < 2 ^ w ∧ c.m_init_val < 2 ^ w)

/-- A BHT as its constructor makes it for counter width `w`: a table of
`2 ^ m_entries_log` counters of width `w`, small enough to be indexed by an `int`. -/
def BHTPredictor.WF (w : Nat) (p : BHTPredictor) : Prop :=
  p.m_entries_log < 31 ∧ p.m_scnt.length = 2 ^ p.m_entries_log ∧ ∀ c ∈ p.m_scnt, c.WF w

instance (w : Nat) (p : BHTPredictor) : Decidable (p.WF w) := by
  unfold BHTPredictor.WF; infer_instance

/-- A global-history predictor as its constructor makes it for counter width `w`. -/
def GlobalHistoryPredictor.WF (w : Nat) (p : GlobalHistoryPredictor) : Prop :=
  p.m_entries_log < 31 ∧ p.m_scnt.length = 2 ^ p.m_entries_log ∧ ∀ c ∈ p.m_scnt, c.WF w

instance (w : Nat) (p : GlobalHistoryPredictor) : Decidable (p.WF w) := by
  unfold GlobalHistoryPredictor.WF; infer_instance

/-- The tag-hit test of `predict` for the table `i`:
`truncate((*hash2)(addr, T->get_ghr()), m_entries_log) == T->get_tag(addr)`. -/
def TAGEPredictor.hit (hash1 hash2 : Nat → Nat → Nat) (s : TAGEPredictor) (addr i : Nat) : Bool :=
  match s.m_T[i]? with
  | some T => decide (truncate (hash2 addr T.get_ghr) s.m_entries_log = T.get_tag hash1 addr)
  | none => false

/-- What the loop of `predict` has established once the tables `1 .. n` are done,
for the object `x` reached from `s`: the tables are unchanged, the predictions of
the tables `0 .. n` are cached, `provider_indx` is the largest hitting index in
`1 .. n` or `0`, and `altpred_indx` is the next hitting index below it or `0`. -/
def TAGEPredictor.ScanInv (hash1 hash2 : Nat → Nat → Nat) (s : TAGEPredictor) (addr n : Nat)
    (x : TAGEPredictor) : Prop :=
  x.m_T = s.m_T ∧ x.m_entries_log = s.m_entries_log ∧ x.m_tnum = s.m_tnum ∧
  x.m_T_pred.length = s.m_T_pred.length ∧
  (∀ j T, j ≤ n → s.m_T[j]? = some T → x.m_T_pred[j]? = some (T.predict hash1 addr)) ∧
  ((x.provider_indx = 0 ∧ ∀ i, 1 ≤ i → i ≤ n → s.hit hash1 hash2 addr i = false) ∨
    (1 ≤ x.provider_indx ∧ x.provider_indx ≤ n ∧ s.hit hash1 hash2 addr x.provider_indx = true ∧
      (∀ j, x.provider_indx < j → j ≤ n → s.hit hash1 hash2 addr j = false) ∧
      ((x.altpred_indx = 0 ∧ ∀ j, 1 ≤ j → j < x.provider_indx → s.hit hash1 hash2 addr j = false) ∨
        (1 ≤ x.altpred_indx ∧ x.altpred_indx < x.provider_indx ∧
          s.hit hash1 hash2 addr x.altpred_indx = true ∧
          ∀ j, x.altpred_indx < j → j < x.provider_indx → s.hit hash1 hash2 addr j = false))))

/-- The index `truncate((*hash1)(addr, T[i]->get_ghr()), m_entries_log)` at which
`update` reads and writes the usefulness row of the table `i`. -/
def TAGEPredictor.tagAt (hash1 : Nat → Nat → Nat) (s : TAGEPredictor) (addr i : Nat) : Nat :=
  truncate (hash1 addr (s.ghrAt i)) s.m_entries_log

/-- A tagged table as the TAGE constructor makes it: a global-history predictor
with the `entriesLog` of the TAGE predictor and a full counter table. -/
def TAGEPredictor.tableOk (s : TAGEPredictor) : SubPredictor → Bool
  | .ghp g => g.m_entries_log == s.m_entries_log && g.m_scnt.length == 2 ^ s.m_entries_log
  | .bht _ => false

/-- A TAGE predictor as its constructor makes it: `tnum` tables, of which those
after the first are tagged tables, `tnum` cached predictions, and a usefulness row
of `2 ^ entriesLog` `UINT8` entries for every tagged table. -/
def TAGEPredictor.WF (s : TAGEPredictor) : Prop :=
  1 ≤ s.m_tnum ∧ s.m_entries_log < 31 ∧ s.m_T.length = s.m_tnum ∧
  s.m_T_pred.length = s.m_tnum ∧ s.m_useful.length = s.m_tnum ∧
  (∀ T ∈ s.m_T.tail, s.tableOk T = true) ∧
  (∀ row ∈ s.m_useful.tail, row.length = 2 ^ s.m_entries_log ∧ ∀ u ∈ row, u < 256)

instance (s : TAGEPredictor) : Decidable s.WF := by
  unfold TAGEPredictor.WF; infer_instance

/-- A finite sequence of `shiftIn` calls, performed left to right. -/
def ShiftReg.run (r : ShiftReg) (bs : List Bool) : ShiftReg :=
  bs.foldl (fun r b => (r.shiftIn b).2) r

/-- The global predictor pointer `BP` and the four static `UINT64` counters of the
harness, all `0` at program start. -/
structure Harness (σ : Type) where
  BP : σ
  takenCorrect : Nat
  takenIncorrect : Nat
  notTakenCorrect : Nat
  notTakenIncorrect : Nat

/-- The harness at program start, with the predictor `bp` installed in `BP`. -/
def Harness.new {σ : Type} (bp : σ) : Harness σ :=
  { BP := bp, takenCorrect := 0, takenIncorrect := 0, notTakenCorrect := 0,
    notTakenIncorrect := 0 }

/-- The function `predictBranch(pc, direction)`. -/
def predictBranch {σ : Type} (B : BranchPredictor σ) (h : Harness σ) (pc : Nat)
    (direction : Bool) : Harness σ :=
  let r := B.predict h.BP pc
  let bp := B.update r.2 direction r.1 pc
  if r.1 then
    if direction then
      { h with BP := bp, takenCorrect := (h.takenCorrect + 1) % 2 ^ 64 }
    else
      { h with BP := bp, takenIncorrect := (h.takenIncorrect + 1) % 2 ^ 64 }
  else
    if direction then
      { h with BP := bp, notTakenIncorrect := (h.notTakenIncorrect + 1) % 2 ^ 64 }
    else
      { h with BP := bp, notTakenCorrect := (h.notTakenCorrect + 1) % 2 ^ 64 }

/-- A sequence of `predictBranch` calls, performed left to right. -/
def Harness.run {σ : Type} (B : BranchPredictor σ) (h : Harness σ) (evs : List (Nat × Bool)) :
    Harness σ :=
  evs.foldl (fun h e => predictBranch B h e.1 e.2) h

/-- The event sequence of `n` branches at the address `pc` whose outcomes alternate
taken, not taken, taken, ... -/
def alternating (n pc : Nat) : List (Nat × Bool) :=
  (List.range n).map (fun i => (pc, i % 2 == 0))

/-- A sequence of `TournamentPredictor::update` calls with arguments
`(takenActually, takenPredicted, addr)`, performed left to right. -/
def TournamentPredictor.runUpdates {σ0 σ1 : Type} (B0 : BranchPredictor σ0)
    (B1 : BranchPredictor σ1) (t : TournamentPredictor σ0 σ1) :
    List (Bool × Bool × Nat) → TournamentPredictor σ0 σ1
  | [] => t
  | e :: es =>
    TournamentPredictor.runUpdates B0 B1 (TournamentPredictor.update B0 B1 t e.1 e.2.1 e.2.2) es

/-- In every update of the sequence, at the object it is applied to, the own
prediction of sub-predictor 1 equals the outcome and that of sub-predictor 0 does not. -/
def TournamentPredictor.Favours1 {σ0 σ1 : Type} (B0 : BranchPredictor σ0)
    (B1 : BranchPredictor σ1) (t : TournamentPredictor σ0 σ1) :
    List (Bool × Bool × Nat) → Prop
  | [] => True
  | e :: es =>
    (B1.predict t.m_BPs1 e.2.2).1 = e.1 ∧ (B0.predict t.m_BPs0 e.2.2).1 ≠ e.1 ∧
      TournamentPredictor.Favours1 B0 B1 (TournamentPredictor.update B0 B1 t e.1 e.2.1 e.2.2) es

/-- A TAGE predictor driven by the harness protocol over the events
`(addr, takenActually)`: for each event `predict(addr)`, then
`update(takenActually, thatPrediction, addr)`; the predictions in order, and the object
after the last event. -/
def TAGEPredictor.drive (hash1 hash2 : Nat → Nat → Nat) (s : TAGEPredictor) :
    List (Nat × Bool) → List Bool × TAGEPredictor
  | [] => ([], s)
  | e :: es =>
    let r := s.predict hash1 hash2 e.1
    let rest := TAGEPredictor.drive hash1 hash2 (r.2.update hash1 e.2 r.1 e.1) es
    (r.1 :: rest.1, rest.2)

/-- A global-history predictor driven by the same protocol. -/
def GlobalHistoryPredictor.drive (hash : Nat → Nat → Nat) (p : GlobalHistoryPredictor) :
    List (Nat × Bool) → List Bool × GlobalHistoryPredictor
  | [] => ([], p)
  | e :: es =>
    let r := p.predict hash e.1
    let rest := GlobalHistoryPredictor.drive hash (p.update hash e.2 r e.1) es
    (r :: rest.1, rest.2)

/-- Every history register of the tables holds a `UINT128` value. -/
def TAGEPredictor.GhrOK (s : TAGEPredictor) : Prop :=
  ∀ T ∈ s.m_T, T.get_ghr < 2 ^ 128

instance (s : TAGEPredictor) : Decidable s.GhrOK := by
  unfold TAGEPredictor.GhrOK; infer_instance

/-- The first three parts of `update`, in the order of the source: the object on
which the misprediction part runs, so that `update` is `updateAlloc` of it. -/
def TAGEPredictor.updateHead (hash1 : Nat → Nat → Nat) (s : TAGEPredictor)
    (takenActually takenPredicted : Bool) (addr : Nat) : TAGEPredictor :=
  ((s.updateProvider hash1 takenActually takenPredicted addr).updateUseful hash1
    takenActually takenPredicted addr).periodicReset

/-- The values `m_scnt[0].getVal()`, `m_scnt[1].getVal()`, ... of a table. -/
def SubPredictor.counterVals : SubPredictor → List Nat
  | .bht p => p.m_scnt.map SaturatingCnt.getVal
  | .ghp p => p.m_scnt.map SaturatingCnt.getVal

/-- The width-2 transition table in the words of the specification:
taken `0->1, 1->3, 2->3, 3->3`; not taken `3->2, 2->0, 1->0, 0->0`. -/
def specTable2 : Bool → Nat → Nat
  | true, 0 => 1
  | true, 1 => 3
  | true, 2 => 3
  | true, 3 => 3
  | false, 3 => 2
  | false, 2 => 0
  | false, 1 => 0
  | false, 0 => 0
  | _, v => v

/-- The width-3 case table in the words of the specification, with initial value `4`. -/
def specTable3 : Bool → Nat → Nat
  | true, 0 => 1
  | false, 0 => 0
  | true, 3 => 4 + 2
  | false, 3 => 2
  | false, 7 => 6
  | true, 7 => 7
  | false, 4 => 0
  | true, 4 => 5
  | true, v => v + 1
  | false, v => v - 1

/-! ## Machine-integer lemmas -/

theorem shl1_eq (n : Nat) (h : n < 31) : shl1 n = 2 ^ n := by
  unfold shl1
  interval_cases n <;> decide

theorem maskInt_eq (n : Nat) : maskInt n = 2 ^ (n % 32) - 1 := by
  have h : n % 32 < 32 := Nat.mod_lt _ (by norm_num)
  have e : maskInt n = wrapInt (wrapInt (2 ^ (n % 32 % 32)) - 1) := by
    simp [maskInt, shl1]
  rw [e]
  generalize n % 32 = k at h
  interval_cases k <;> decide

theorem maskInt_nonneg (n : Nat) : 0 ≤ maskInt n := by
  rw [maskInt_eq]
  have : (0 : Int) < 2 ^ (n % 32) := by positivity
  omega

theorem maskInt_toNat (n : Nat) : (maskInt n).toNat = 2 ^ (n % 32) - 1 := by
  rw [maskInt_eq]
  have h : (1 : Nat) ≤ 2 ^ (n % 32) := Nat.one_le_two_pow
  have : ((2 : Int) ^ (n % 32) - 1) = ((2 ^ (n % 32) - 1 : Nat) : Int) := by
    push_cast [h]; rfl
  rw [this, Int.toNat_ofNat]

theorem truncate_eq_mod32 (val bits : Nat) : truncate val bits = val % 2 ^ (bits % 32) := by
  unfold truncate
  rw [maskInt_toNat, Nat.and_pow_two_sub_one_eq_mod]

theorem truncate_eq_mod (val bits : Nat) (h : bits < 32) : truncate val bits = val % 2 ^ bits := by
  rw [truncate_eq_mod32, Nat.mod_eq_of_lt h]

theorem truncate_lt (val bits : Nat) (h : bits < 32) : truncate val bits < 2 ^ bits := by
  rw [truncate_eq_mod val bits h]
  exact Nat.mod_lt _ (by positivity)

theorem truncate_lt_u64 (val bits : Nat) : truncate val bits < 2 ^ 64 := by
  rw [truncate_eq_mod32]
  have h : bits % 32 < 32 := Nat.mod_lt _ (by norm_num)
  have h1 : val % 2 ^ (bits % 32) < 2 ^ (bits % 32) := Nat.mod_lt _ (by positivity)
  have h2 : 2 ^ (bits % 32) ≤ 2 ^ 64 := Nat.pow_le_pow_right (by norm_num) (by omega)
  omega

/-! ## Saturating counter: bounds and initial value -/

theorem toUINT8_lt (x : Int) : toUINT8 x < 256 := by
  unfold toUINT8
  have h : x % 256 < 256 := Int.emod_lt_of_pos _ (by norm_num)
  have h0 : 0 ≤ x % 256 := Int.emod_nonneg _ (by norm_num)
  omega

theorem SaturatingCnt.new_small (w : Nat) (h1 : 1 ≤ w) (h8 : w ≤ 8) :
    SaturatingCnt.new w = { m_wid := w, m_val := 2 ^ (w - 1), m_init_val := 2 ^ (w - 1) } := by
  interval_cases w <;> decide

theorem SaturatingCnt.new_bounded (w : Nat) (h1 : 1 ≤ w) : (SaturatingCnt.new w).Bounded w := by
  refine ⟨rfl, toUINT8_lt _, toUINT8_lt _, fun h => ?_⟩
  rw [SaturatingCnt.new_small w h1 (by omega)]
  have : 2 ^ (w - 1) < 2 ^ w := Nat.pow_lt_pow_right (by norm_num) (by omega)
  exact ⟨this, this⟩

theorem SaturatingCnt.increase_bounded (w : Nat) (c : SaturatingCnt) (h : c.Bounded w) :
    c.increase.Bounded w := by
  obtain ⟨hw, hv, hi, hs⟩ := h
  unfold SaturatingCnt.increase
  split
  · rename_i hc
    refine ⟨hw, Nat.mod_lt _ (by norm_num), hi, fun h8 => ⟨?_, (hs h8).2⟩⟩
    have hm : wrapInt (shl1 c.m_wid - 1) = 2 ^ (w % 32) - 1 := by
      rw [← hw]; exact maskInt_eq c.m_wid
    rw [hm, Nat.mod_eq_of_lt (by omega : w < 32)] at hc
    have h2 : (2 : Nat) ^ w ≤ 2 ^ 7 := Nat.pow_le_pow_right (by norm_num) (by omega)
    have h3 : ((c.m_val + 1 : Nat) : Int) < ((2 ^ w : Nat) : Int) := by
      push_cast; omega
    have h4 : c.m_val + 1 < 2 ^ w := by exact_mod_cast h3
    show (c.m_val + 1) % 256 < 2 ^ w
    rw [Nat.mod_eq_of_lt (by omega)]
    exact h4
  · exact ⟨hw, hv, hi, hs⟩

theorem SaturatingCnt.decrease_bounded (w : Nat) (c : SaturatingCnt) (h : c.Bounded w) :
    c.decrease.Bounded w := by
  obtain ⟨hw, hv, hi, hs⟩ := h
  unfold SaturatingCnt.decrease
  split
  · refine ⟨hw, ?_, hi, fun h8 => ⟨?_, (hs h8).2⟩⟩
    · show c.m_val - 1 < 256
      omega
    · show c.m_val - 1 < 2 ^ w
      have := (hs h8).1
      omega
  · exact ⟨hw, hv, hi, hs⟩

theorem SaturatingCnt.reset_bounded (w : Nat) (c : SaturatingCnt) (h : c.Bounded w) :
    c.reset.Bounded w := by
  obtain ⟨hw, _, hi, hs⟩ := h
  exact ⟨hw, hi, hi, fun h8 => ⟨(hs h8).2, (hs h8).2⟩⟩

theorem SaturatingCnt.run_bounded (w : Nat) (ops : List CntOp) :
    ∀ c : SaturatingCnt, c.Bounded w → (c.run ops).Bounded w := by
  induction ops with
  | nil => intro c h; exact h
  | cons op ops ih =>
    intro c h
    show ((op.apply c).run ops).Bounded w
    apply ih
    cases op
    · exact SaturatingCnt.increase_bounded w c h
    · exact SaturatingCnt.decrease_bounded w c h
    · exact SaturatingCnt.reset_bounded w c h

/-- Claim C9: for every width `w` in `1..63` and every finite sequence of
`increase`, `decrease` and `reset` calls on a freshly constructed counter of
width `w`, the value `v` satisfies `0 ≤ v < 2 ^ w`; every prefix of a sequence is
a sequence, so this is the bound after every call. -/
theorem SaturatingCnt.run_val_lt (w : Nat) (h1 : 1 ≤ w) (h63 : w ≤ 63) (ops : List CntOp) :
    0 ≤ ((SaturatingCnt.new w).run ops).getVal ∧
      ((SaturatingCnt.new w).run ops).getVal < 2 ^ w := by
  refine ⟨Nat.zero_le _, ?_⟩
  obtain ⟨_, hv, _, hs⟩ := SaturatingCnt.run_bounded w ops _ (SaturatingCnt.new_bounded w h1)
  show ((SaturatingCnt.new w).run ops).m_val < 2 ^ w
  by_cases h8 : w < 8
  · exact (hs h8).1
  · have : (2 : Nat) ^ 8 ≤ 2 ^ w := Nat.pow_le_pow_right (by norm_num) (by omega)
    omega

theorem SaturatingCnt.run_val_lt_witness :
    0 ≤ ((SaturatingCnt.new 3).run [.increase, .increase, .increase, .increase, .decrease, .reset,
        .increase]).getVal ∧
      ((SaturatingCnt.new 3).run [.increase, .increase, .increase, .increase, .decrease, .reset,
        .increase]).getVal < 2 ^ 3 :=
  SaturatingCnt.run_val_lt 3 (by decide) (by decide) _

/-- Claim C10, at width 9: `m_val` and `m_init_val` are `UINT8`, so the fresh
counter, and the counter after `reset`, hold `(512 / 2) mod 256 = 0`, not `2 ^ 8 = 256`. -/
theorem SaturatingCnt.new_val_width9 :
    (SaturatingCnt.new 9).getVal = 0 ∧ (SaturatingCnt.new 9).reset.getVal = 0 ∧
      (SaturatingCnt.new 9).getVal ≠ 2 ^ (9 - 1) := by
  decide

/-- For the widths `1..8`, which fit the `UINT8` members, the fresh counter holds
`2 ^ (w - 1)`, and so does the counter reset after any sequence of calls. -/
theorem SaturatingCnt.new_val_upto8 (w : Nat) (h1 : 1 ≤ w) (h8 : w ≤ 8) (ops : List CntOp) :
    (SaturatingCnt.new w).getVal = 2 ^ (w - 1) ∧
      ((SaturatingCnt.new w).run ops).reset.getVal = 2 ^ (w - 1) := by
  have key : ∀ (ops : List CntOp) (c : SaturatingCnt), (c.run ops).m_init_val = c.m_init_val := by
    intro ops
    induction ops with
    | nil => intro c; rfl
    | cons op ops ih =>
      intro c
      show ((op.apply c).run ops).m_init_val = c.m_init_val
      rw [ih]
      cases op
      · show c.increase.m_init_val = _
        unfold SaturatingCnt.increase; split <;> rfl
      · show c.decrease.m_init_val = _
        unfold SaturatingCnt.decrease; split <;> rfl
      · rfl
  refine ⟨?_, ?_⟩
  · rw [SaturatingCnt.new_small w h1 h8]; rfl
  · show ((SaturatingCnt.new w).run ops).m_init_val = _
    rw [key, SaturatingCnt.new_small w h1 h8]

/-! ## Tables -/

theorem modifyAt_length {α : Type} (l : List α) (i : Nat) (f : α → α) :
    (modifyAt l i f).length = l.length := by
  unfold modifyAt
  split <;> simp

theorem modifyAt_getElem?_ne {α : Type} (l : List α) (i j : Nat) (f : α → α) (h : j ≠ i) :
    (modifyAt l i f)[j]? = l[j]? := by
  unfold modifyAt
  split
  · exact List.getElem?_set_ne (Ne.symm h)
  · rfl

theorem modifyAt_getElem?_eq {α : Type} (l : List α) (i : Nat) (f : α → α) (c : α)
    (h : l[i]? = some c) : (modifyAt l i f)[i]? = some (f c) := by
  unfold modifyAt
  have hi : i < l.length := by
    by_contra hn
    rw [List.getElem?_eq_none (by omega)] at h
    cases h
  rw [h]
  simp [List.getElem?_set, hi]

/-! ## BHT predictor -/

theorem BHTPredictor.updateCnt_width2 (takenActually : Bool) (c : SaturatingCnt) (h : c.WF 2) :
    BHTPredictor.updateCnt takenActually c = { c with m_val := specTable2 takenActually c.m_val } := by
  obtain ⟨w, v, iv⟩ := c
  obtain ⟨hw, hi, hv⟩ := h
  simp only at hw hi hv
  subst hw hi
  have hv4 : v < 4 := by simpa using hv
  interval_cases v <;> cases takenActually <;> decide

theorem BHTPredictor.updateCnt_width3 (takenActually : Bool) (c : SaturatingCnt) (h : c.WF 3) :
    BHTPredictor.updateCnt takenActually c = { c with m_val := specTable3 takenActually c.m_val } := by
  obtain ⟨w, v, iv⟩ := c
  obtain ⟨hw, hi, hv⟩ := h
  simp only at hw hi hv
  subst hw hi
  have hv8 : v < 8 := by simpa using hv
  interval_cases v <;> cases takenActually <;> decide

theorem BHTPredictor.bht_tag_eq (p : BHTPredictor) (addr : Nat) (h : p.m_entries_log < 31) :
    truncate addr p.m_entries_log % 2 ^ 64 = addr % 2 ^ p.m_entries_log := by
  rw [Nat.mod_eq_of_lt (truncate_lt_u64 _ _), truncate_eq_mod _ _ (by omega)]

theorem BHTPredictor.update_at (w : Nat) (p : BHTPredictor) (takenActually takenPredicted : Bool)
    (addr : Nat) (hwf : p.WF w) :
    (p.update takenActually takenPredicted addr).m_entries_log = p.m_entries_log ∧
    (p.update takenActually takenPredicted addr).m_scnt.length = p.m_scnt.length ∧
    (∀ j, j ≠ addr % 2 ^ p.m_entries_log →
      (p.update takenActually takenPredicted addr).m_scnt[j]? = p.m_scnt[j]?) ∧
    ∃ c, c.WF w ∧ p.m_scnt[addr % 2 ^ p.m_entries_log]? = some c ∧
      (p.update takenActually takenPredicted addr).m_scnt[addr % 2 ^ p.m_entries_log]? =
        some (BHTPredictor.updateCnt takenActually c) := by
  obtain ⟨he, hl, hc⟩ := hwf
  have hidx : addr % 2 ^ p.m_entries_log < p.m_scnt.length := by
    rw [hl]; exact Nat.mod_lt _ (by positivity)
  have hupd : p.update takenActually takenPredicted addr =
      { p with m_scnt := (modifyAt p.m_scnt (addr % 2 ^ p.m_entries_log)
          (BHTPredictor.updateCnt takenActually)) } := by
    unfold BHTPredictor.update
    simp only [BHTPredictor.bht_tag_eq p addr he]
  rw [hupd]
  refine ⟨rfl, modifyAt_length _ _ _, fun j hj => modifyAt_getElem?_ne _ _ _ _ hj, ?_⟩
  refine ⟨p.m_scnt[addr % 2 ^ p.m_entries_log], hc _ (List.getElem_mem _), ?_, ?_⟩
  · exact List.getElem?_eq_getElem hidx
  · exact modifyAt_getElem?_eq _ _ _ _ (List.getElem?_eq_getElem hidx)

/-- Claim C1: for a BHT with counter width 2, every address and every outcome,
`update` rewrites only the counter at index `addr mod 2 ^ entriesLog` (every other
entry, the table length and `entriesLog` are kept) and moves that counter by the table
taken `0->1, 1->3, 2->3, 3->3`, not taken `3->2, 2->0, 1->0, 0->0`. -/
theorem BHTPredictor.update_width2 (p : BHTPredictor) (takenActually takenPredicted : Bool)
    (addr : Nat) (hwf : p.WF 2) :
    (p.update takenActually takenPredicted addr).m_entries_log = p.m_entries_log ∧
    (p.update takenActually takenPredicted addr).m_scnt.length = p.m_scnt.length ∧
    (∀ j, j ≠ addr % 2 ^ p.m_entries_log →
      (p.update takenActually takenPredicted addr).m_scnt[j]? = p.m_scnt[j]?) ∧
    (∃ c, p.m_scnt[addr % 2 ^ p.m_entries_log]? = some c ∧
      (p.update takenActually takenPredicted addr).m_scnt[addr % 2 ^ p.m_entries_log]? =
        some { c with m_val := specTable2 takenActually c.m_val }) ∧
    specTable2 true 0 = 1 ∧ specTable2 true 1 = 3 ∧ specTable2 true 2 = 3 ∧
    specTable2 true 3 = 3 ∧ specTable2 false 3 = 2 ∧ specTable2 false 2 = 0 ∧
    specTable2 false 1 = 0 ∧ specTable2 false 0 = 0 := by
  obtain ⟨h1, h2, h3, c, hc, hget, hupd⟩ :=
    BHTPredictor.update_at 2 p takenActually takenPredicted addr hwf
  refine ⟨h1, h2, h3, ⟨c, hget, ?_⟩, rfl, rfl, rfl, rfl, rfl, rfl, rfl, rfl⟩
  rw [hupd, BHTPredictor.updateCnt_width2 takenActually c hc]

theorem BHTPredictor.update_width2_witness :
    (BHTPredictor.new 2 2).WF 2 ∧
    ∃ c, (BHTPredictor.new 2 2).m_scnt[5 % 2 ^ (BHTPredictor.new 2 2).m_entries_log]? = some c ∧
      ((BHTPredictor.new 2 2).update true false 5).m_scnt[
          5 % 2 ^ (BHTPredictor.new 2 2).m_entries_log]? =
        some { c with m_val := specTable2 true c.m_val } :=
  ⟨by decide, (BHTPredictor.update_width2 (BHTPredictor.new 2 2) true false 5 (by decide)).2.2.2.1⟩

/-- Claim C2: for a BHT with counter width 3, `update` applies the literal case
table to the indexed counter: from `000` taken gives `001` and not taken `000`; from
`011` taken gives `4 + 2 = 6` and not taken `010`; from `111` not taken gives `110`
and taken `111`; from `100` not taken gives `000` and taken `101`; from `001`,
`010`, `101`, `110` taken adds one and not taken subtracts one. -/
theorem BHTPredictor.update_width3 (p : BHTPredictor) (takenActually takenPredicted : Bool)
    (addr : Nat) (hwf : p.WF 3) :
    (∃ c, p.m_scnt[addr % 2 ^ p.m_entries_log]? = some c ∧
      (p.update takenActually takenPredicted addr).m_scnt[addr % 2 ^ p.m_entries_log]? =
        some { c with m_val := specTable3 takenActually c.m_val }) ∧
    (∀ j, j ≠ addr % 2 ^ p.m_entries_log →
      (p.update takenActually takenPredicted addr).m_scnt[j]? = p.m_scnt[j]?) ∧
    specTable3 true 0 = 1 ∧ specTable3 false 0 = 0 ∧
    specTable3 true 3 = 6 ∧ specTable3 false 3 = 2 ∧
    specTable3 false 7 = 6 ∧ specTable3 true 7 = 7 ∧
    specTable3 false 4 = 0 ∧ specTable3 true 4 = 5 ∧
    (∀ v, v = 1 ∨ v = 2 ∨ v = 5 ∨ v = 6 →
      specTable3 true v = v + 1 ∧ specTable3 false v = v - 1) := by
  obtain ⟨_, _, h3, c, hc, hget, hupd⟩ :=
    BHTPredictor.update_at 3 p takenActually takenPredicted addr hwf
  refine ⟨⟨c, hget, ?_⟩, h3, rfl, rfl, rfl, rfl, rfl, rfl, rfl, rfl, ?_⟩
  · rw [hupd, BHTPredictor.updateCnt_width3 takenActually c hc]
  · intro v hv
    rcases hv with h | h | h | h <;> subst h <;> exact ⟨rfl, rfl⟩

theorem BHTPredictor.update_width3_witness :
    (BHTPredictor.new 2 3).WF 3 ∧
    ∃ c, (BHTPredictor.new 2 3).m_scnt[6 % 2 ^ (BHTPredictor.new 2 3).m_entries_log]? = some c ∧
      ((BHTPredictor.new 2 3).update false true 6).m_scnt[
          6 % 2 ^ (BHTPredictor.new 2 3).m_entries_log]? =
        some { c with m_val := specTable3 false c.m_val } :=
  ⟨by decide, (BHTPredictor.update_width3 (BHTPredictor.new 2 3) false true 6 (by decide)).1⟩

/-! ## Global-history predictor -/

theorem ShiftReg.shiftIn_wid (g : ShiftReg) (b : Bool) : (g.shiftIn b).2.m_wid = g.m_wid := rfl

theorem ShiftReg.shiftIn_val (g : ShiftReg) (b : Bool) :
    (g.shiftIn b).2.m_val = (2 * g.m_val + (if b then 1 else 0)) % 2 ^ (g.m_wid % 32) := by
  have hm : toUINT128 (maskInt g.m_wid) = 2 ^ (g.m_wid % 32) - 1 := by
    rw [← maskInt_toNat]
    unfold toUINT128
    congr 1
    apply Int.emod_eq_of_lt (maskInt_nonneg _)
    rw [maskInt_eq]
    have h : g.m_wid % 32 < 32 := Nat.mod_lt _ (by norm_num)
    have h2 : (2 : Int) ^ (g.m_wid % 32) ≤ 2 ^ 128 :=
      pow_le_pow_right₀ (by norm_num) (by omega)
    push_cast
    omega
  have hb : (if b then 1 else 0) < 2 ^ 1 := by cases b <;> simp
  simp only [ShiftReg.shiftIn]
  rw [hm, Nat.and_pow_two_sub_one_eq_mod]
  have he : (g.m_val * 2) % 2 ^ 128 = 2 ^ 1 * (g.m_val % 2 ^ 127) := by omega
  rw [he, ← Nat.mul_add_lt_is_or hb]
  have hd : 2 ^ (g.m_wid % 32) ∣ 2 ^ 127 :=
    Nat.pow_dvd_pow 2 (by have := Nat.mod_lt g.m_wid (by norm_num : 32 > 0); omega)
  obtain ⟨k, hk⟩ := hd
  have h1 : 2 ^ 1 * (g.m_val % 2 ^ 127) + (if b then 1 else 0) =
      (2 * g.m_val + (if b then 1 else 0)) - 2 ^ (g.m_wid % 32) * (2 * k * (g.m_val / 2 ^ 127)) := by
    have := Nat.div_add_mod g.m_val (2 ^ 127)
    have e : 2 ^ (g.m_wid % 32) * (2 * k * (g.m_val / 2 ^ 127)) =
        2 * (2 ^ 127 * (g.m_val / 2 ^ 127)) := by
      rw [hk]; ring
    rw [e]
    omega
  have h2 : 2 ^ (g.m_wid % 32) * (2 * k * (g.m_val / 2 ^ 127)) ≤
      2 * g.m_val + (if b then 1 else 0) := by
    have := Nat.div_add_mod g.m_val (2 ^ 127)
    have e : 2 ^ (g.m_wid % 32) * (2 * k * (g.m_val / 2 ^ 127)) =
        2 * (2 ^ 127 * (g.m_val / 2 ^ 127)) := by
      rw [hk]; ring
    rw [e]
    omega
  rw [h1, Nat.sub_mul_mod h2]

theorem GlobalHistoryPredictor.updateCnt_eq (takenActually : Bool) (c : SaturatingCnt)
    (g : ShiftReg) (hw : c.m_wid = 2 ∨ c.m_wid = 3) :
    GlobalHistoryPredictor.updateCnt takenActually c g =
      (BHTPredictor.updateCnt takenActually c, (g.shiftIn takenActually).2) := by
  unfold GlobalHistoryPredictor.updateCnt BHTPredictor.updateCnt
  rcases hw with hw | hw
  · simp only [SaturatingCnt.getWidth, hw, if_true]
    cases takenActually <;> simp
  · simp only [SaturatingCnt.getWidth, hw]
    cases takenActually <;> simp <;> split <;> rfl

theorem GlobalHistoryPredictor.ghp_tag_eq (hash : Nat → Nat → Nat) (p : GlobalHistoryPredictor)
    (addr : Nat) :
    truncate (hash addr p.m_ghr.getVal) p.m_entries_log % 2 ^ 64 =
      truncate (hash addr p.get_ghr) p.m_entries_log :=
  Nat.mod_eq_of_lt (truncate_lt_u64 _ _)

/-- For counter width 2 or 3 `update` applies to the counter at index
`trunc(hash(addr, h), entriesLog)` the transition of `BHTPredictor.update`, keeps
every other counter, and leaves the history register as `shiftIn(takenActually)`
leaves it, which for a register of at most 31 bits is `(2 * h + takenActually) mod
2 ^ ghrWidth`. -/
theorem GlobalHistoryPredictor.update_refines_BHT (hash : Nat → Nat → Nat) (w : Nat)
    (p : GlobalHistoryPredictor) (takenActually takenPredicted : Bool) (addr : Nat)
    (hw : w = 2 ∨ w = 3) (hwf : p.WF w) :
    (∃ c, p.m_scnt[truncate (hash addr p.get_ghr) p.m_entries_log]? = some c ∧
      (p.update hash takenActually takenPredicted addr).m_scnt[
          truncate (hash addr p.get_ghr) p.m_entries_log]? =
        some (BHTPredictor.updateCnt takenActually c)) ∧
    (∀ j, j ≠ truncate (hash addr p.get_ghr) p.m_entries_log →
      (p.update hash takenActually takenPredicted addr).m_scnt[j]? = p.m_scnt[j]?) ∧
    (p.update hash takenActually takenPredicted addr).m_ghr = (p.m_ghr.shiftIn takenActually).2 ∧
    (p.m_ghr.m_wid < 32 →
      (p.update hash takenActually takenPredicted addr).get_ghr =
        (2 * p.get_ghr + (if takenActually then 1 else 0)) % 2 ^ p.m_ghr.m_wid) := by
  obtain ⟨he, hl, hc⟩ := hwf
  have hidx : truncate (hash addr p.get_ghr) p.m_entries_log < p.m_scnt.length := by
    rw [hl]; exact truncate_lt _ _ (by omega)
  have hget := List.getElem?_eq_getElem hidx
  have hcw := hc _ (List.getElem_mem hidx)
  have hupd : p.update hash takenActually takenPredicted addr =
      { p with
        m_scnt := (p.m_scnt.set (truncate (hash addr p.get_ghr) p.m_entries_log)
          (BHTPredictor.updateCnt takenActually
            p.m_scnt[truncate (hash addr p.get_ghr) p.m_entries_log]))
        m_ghr := (p.m_ghr.shiftIn takenActually).2 } := by
    unfold GlobalHistoryPredictor.update
    simp only [GlobalHistoryPredictor.ghp_tag_eq hash p addr, hget]
    rw [GlobalHistoryPredictor.updateCnt_eq _ _ _ (by rw [hcw.1]; exact hw)]
  rw [hupd]
  refine ⟨⟨_, hget, ?_⟩, fun j hj => ?_, rfl, fun hg => ?_⟩
  · simp [List.getElem?_set, hidx]
  · exact List.getElem?_set_ne (Ne.symm hj)
  · show ((p.m_ghr.shiftIn takenActually).2).m_val = _
    rw [ShiftReg.shiftIn_val, Nat.mod_eq_of_lt hg]
    rfl

/-- Claim C3, at a 32-bit history register: `shiftIn` masks with the `int`
expression `(1 << m_wid) - 1`, which is `0` for `m_wid = 32`, so after a taken update
of the fresh predictor the history is still `0`, while `(2 * 0 + 1) mod 2 ^ 32 = 1`. -/
theorem GlobalHistoryPredictor.update_ghr_width32 :
    (GlobalHistoryPredictor.new 32 2 2).WF 2 ∧
    (GlobalHistoryPredictor.new 32 2 2).get_ghr = 0 ∧
    ((GlobalHistoryPredictor.new 32 2 2).update f_xor true true 0).get_ghr = 0 ∧
    (2 * (GlobalHistoryPredictor.new 32 2 2).get_ghr + 1) % 2 ^ 32 = 1 := by
  decide

/-! ## Tournament predictor -/

theorem and_two_ne_zero_iff (v : Nat) : v &&& 2 ≠ 0 ↔ v / 2 % 2 = 1 := by
  have h := Nat.and_two_pow v 1
  have t := @Nat.testBit_to_div_mod 1 v
  simp only [pow_one] at h t
  rw [h, t]
  by_cases hv : v / 2 % 2 = 1 <;> simp [hv]

/-- Claim C4, at a 3-bit meta-counter: after two updates in which only
sub-predictor 0 is right the counter holds `2`, which is below `2 ^ (3 - 1)` and
not `isTaken`, yet `predict` returns the answer of sub-predictor 1. -/
theorem TournamentPredictor.predict_width3_selects_1 :
    (((TournamentPredictor.new (BHTPredictor.new 2 2) () 3).update BHTPredictor.asBP
        BranchPredictor.base true true 0).update BHTPredictor.asBP BranchPredictor.base
        true true 0).m_gshr = { m_wid := 3, m_val := 2, m_init_val := 4 } ∧
    SaturatingCnt.isTaken { m_wid := 3, m_val := 2, m_init_val := 4 } = false ∧
    ¬ (2 ≥ 2 ^ (3 - 1)) ∧
    (BHTPredictor.asBP.predict
      (((TournamentPredictor.new (BHTPredictor.new 2 2) () 3).update BHTPredictor.asBP
        BranchPredictor.base true true 0).update BHTPredictor.asBP BranchPredictor.base
        true true 0).m_BPs0 0).1 = true ∧
    (BranchPredictor.base.predict () 0).1 = false ∧
    (TournamentPredictor.predict BHTPredictor.asBP BranchPredictor.base
      (((TournamentPredictor.new (BHTPredictor.new 2 2) () 3).update BHTPredictor.asBP
        BranchPredictor.base true true 0).update BHTPredictor.asBP BranchPredictor.base
        true true 0) 0).1 = false := by
  decide

/-- Claim C4, amended: for every meta-counter width and value `predict` returns
sub-predictor 1's `predict(addr)` exactly when bit 1 of the meta-counter value is
set (`value & 2 != 0`) and sub-predictor 0's otherwise; for a 2-bit meta-counter
(value below 4) bit 1 is set exactly when the value is at least `2 ^ (2 - 1)`, which
is exactly `isTaken()`. -/
theorem TournamentPredictor.predict_selects {σ0 σ1 : Type} (B0 : BranchPredictor σ0)
    (B1 : BranchPredictor σ1) (t : TournamentPredictor σ0 σ1) (addr : Nat) :
    ((t.m_gshr.getVal / 2 % 2 = 1 →
        (TournamentPredictor.predict B0 B1 t addr).1 = (B1.predict t.m_BPs1 addr).1) ∧
      (t.m_gshr.getVal / 2 % 2 ≠ 1 →
        (TournamentPredictor.predict B0 B1 t addr).1 = (B0.predict t.m_BPs0 addr).1)) ∧
    (t.m_gshr.getWidth = 2 → t.m_gshr.getVal < 2 ^ 2 →
      ((t.m_gshr.getVal / 2 % 2 = 1 ↔ t.m_gshr.getVal ≥ 2 ^ (2 - 1)) ∧
        (t.m_gshr.getVal ≥ 2 ^ (2 - 1) ↔ t.m_gshr.isTaken = true))) := by
  refine ⟨⟨fun h => ?_, fun h => ?_⟩, fun hw hv => ?_⟩
  · unfold TournamentPredictor.predict
    rw [if_pos ((and_two_ne_zero_iff _).2 h)]
  · unfold TournamentPredictor.predict
    rw [if_neg (fun hc => h ((and_two_ne_zero_iff _).1 hc))]
  · revert hw hv
    generalize t.m_gshr = g
    intro hw hv
    obtain ⟨w, v, iv⟩ := g
    simp only [SaturatingCnt.getWidth, SaturatingCnt.getVal] at hw hv ⊢
    subst hw
    have hv4 : v < 4 := by simpa using hv
    have e : SaturatingCnt.isTaken { m_wid := 2, m_val := v, m_init_val := iv } =
        SaturatingCnt.isTaken { m_wid := 2, m_val := v, m_init_val := 0 } := rfl
    rw [e]
    interval_cases v <;> decide

theorem TournamentPredictor.predict_selects_witness :
    (TournamentPredictor.new (BHTPredictor.new 2 2) () 2).m_gshr.getVal / 2 % 2 = 1 ∧
    (TournamentPredictor.predict BHTPredictor.asBP BranchPredictor.base
      (TournamentPredictor.new (BHTPredictor.new 2 2) () 2) 0).1 =
      (BranchPredictor.base.predict () 0).1 :=
  ⟨by decide,
    (TournamentPredictor.predict_selects BHTPredictor.asBP BranchPredictor.base
      (TournamentPredictor.new (BHTPredictor.new 2 2) () 2) 0).1.1 (by decide)⟩

/-- Claim C5: with a 2-bit meta-counter, `update` takes `r0` and `r1` to be whether
the own `predict(addr)` of sub-predictor 0 and of sub-predictor 1, queried on the
states before any update, equals `takenActually`; with `r1` and not `r0` the
meta-counter moves up by `0->1, 1->3, 2->3, 3->3`, with `r0` and not `r1` down by
`3->2, 2->0, 1->0, 0->0`, and with `r0 = r1` it is unchanged. -/
theorem TournamentPredictor.update_gshr {σ0 σ1 : Type} (B0 : BranchPredictor σ0)
    (B1 : BranchPredictor σ1) (t : TournamentPredictor σ0 σ1)
    (takenActually takenPredicted : Bool) (addr : Nat) (hwf : t.m_gshr.WF 2) :
    (((B0.predict t.m_BPs0 addr).1 ≠ takenActually ∧ (B1.predict t.m_BPs1 addr).1 = takenActually) →
      (TournamentPredictor.update B0 B1 t takenActually takenPredicted addr).m_gshr =
        { t.m_gshr with m_val := specTable2 true t.m_gshr.m_val }) ∧
    (((B0.predict t.m_BPs0 addr).1 = takenActually ∧ (B1.predict t.m_BPs1 addr).1 ≠ takenActually) →
      (TournamentPredictor.update B0 B1 t takenActually takenPredicted addr).m_gshr =
        { t.m_gshr with m_val := specTable2 false t.m_gshr.m_val }) ∧
    ((((B0.predict t.m_BPs0 addr).1 = takenActually) ↔ ((B1.predict t.m_BPs1 addr).1 = takenActually)) →
      (TournamentPredictor.update B0 B1 t takenActually takenPredicted addr).m_gshr = t.m_gshr) := by
  have hup := BHTPredictor.updateCnt_width2 true t.m_gshr hwf
  have hdn := BHTPredictor.updateCnt_width2 false t.m_gshr hwf
  have hw : t.m_gshr.getWidth = 2 := hwf.1
  simp only [BHTPredictor.updateCnt, hw, if_true] at hup hdn
  simp only [Bool.false_eq_true, if_false] at hdn
  refine ⟨fun h => ?_, fun h => ?_, fun h => ?_⟩
  · show TournamentPredictor.updateGshr _ _ t.m_gshr = _
    have h0 : ((B0.predict t.m_BPs0 addr).1 == takenActually) = false := by simpa using h.1
    have h1 : ((B1.predict t.m_BPs1 addr).1 == takenActually) = true := by simpa using h.2
    rw [h0, h1, ← hup]
    simp [TournamentPredictor.updateGshr]
  · show TournamentPredictor.updateGshr _ _ t.m_gshr = _
    have h0 : ((B0.predict t.m_BPs0 addr).1 == takenActually) = true := by simpa using h.1
    have h1 : ((B1.predict t.m_BPs1 addr).1 == takenActually) = false := by simpa using h.2
    rw [h0, h1, ← hdn]
    simp [TournamentPredictor.updateGshr]
  · show TournamentPredictor.updateGshr _ _ t.m_gshr = _
    by_cases h0 : (B0.predict t.m_BPs0 addr).1 = takenActually
    · have h1 := h.1 h0
      simp [TournamentPredictor.updateGshr, h0, h1]
    · have h1 : ¬ (B1.predict t.m_BPs1 addr).1 = takenActually := fun hc => h0 (h.2 hc)
      simp [TournamentPredictor.updateGshr, h0, h1]

theorem TournamentPredictor.update_gshr_witness :
    (TournamentPredictor.new (BHTPredictor.new 2 2) () 2).m_gshr.WF 2 ∧
    ((BHTPredictor.asBP.predict (BHTPredictor.new 2 2) 0).1 = true ∧
      (BranchPredictor.base.predict () 0).1 ≠ true) ∧
    (TournamentPredictor.update BHTPredictor.asBP BranchPredictor.base
      (TournamentPredictor.new (BHTPredictor.new 2 2) () 2) true true 0).m_gshr =
      { (TournamentPredictor.new (BHTPredictor.new 2 2) () 2).m_gshr with
        m_val := specTable2 false (TournamentPredictor.new (BHTPredictor.new 2 2) () 2).m_gshr.m_val } :=
  ⟨by decide, by decide,
    (TournamentPredictor.update_gshr BHTPredictor.asBP BranchPredictor.base
      (TournamentPredictor.new (BHTPredictor.new 2 2) () 2) true true 0 (by decide)).2.1
      (by decide)⟩

/-! ## TAGE predictor: `predict` -/

theorem TAGEPredictor.scan_step (hash1 hash2 : Nat → Nat → Nat) (s : TAGEPredictor) (addr n : Nat)
    (x : TAGEPredictor) (hn : n + 1 < s.m_T.length) (hP : s.m_T_pred.length = s.m_T.length)
    (h : TAGEPredictor.ScanInv hash1 hash2 s addr n x) :
    TAGEPredictor.ScanInv hash1 hash2 s addr (n + 1)
      (TAGEPredictor.predictStep hash1 hash2 addr x (n + 1)) := by
  obtain ⟨hT, hE, hN, hL, hC, hPA⟩ := h
  have hget : s.m_T[n + 1]? = some s.m_T[n + 1] := List.getElem?_eq_getElem hn
  have hhit : s.hit hash1 hash2 addr (n + 1) =
      decide (truncate (hash2 addr s.m_T[n + 1].get_ghr) s.m_entries_log =
        s.m_T[n + 1].get_tag hash1 addr) := by
    unfold TAGEPredictor.hit
    rw [hget]
  have hcache : ∀ (l : List Bool), l = x.m_T_pred →
      ∀ j T, j ≤ n + 1 → s.m_T[j]? = some T →
        (l.set (n + 1) (s.m_T[n + 1].predict hash1 addr))[j]? = some (T.predict hash1 addr) := by
    intro l hl j T hj hjT
    subst hl
    by_cases hjn : j = n + 1
    · subst hjn
      rw [hget] at hjT
      cases hjT
      simp [List.getElem?_set, hL, hP, hn]
    · rw [List.getElem?_set_ne (Ne.symm hjn)]
      exact hC j T (by omega) hjT
  unfold TAGEPredictor.predictStep
  rw [hT, hget, hE]
  by_cases hh : truncate (hash2 addr s.m_T[n + 1].get_ghr) s.m_entries_log =
      s.m_T[n + 1].get_tag hash1 addr
  · have hhit1 : s.hit hash1 hash2 addr (n + 1) = true := by rw [hhit]; simpa using hh
    simp only [hh, if_true]
    refine ⟨rfl, rfl, hN, by simpa using hL, hcache _ rfl, Or.inr ⟨by simp, le_refl _, hhit1, ?_, ?_⟩⟩
    · intro j h1 h2
      simp only at h1
      omega
    · simp only
      rcases hPA with ⟨hp0, hno⟩ | ⟨hp1, hpn, hph, hpabove, _⟩
      · exact Or.inl ⟨hp0, fun j h1 h2 => hno j h1 (by omega)⟩
      · exact Or.inr ⟨hp1, by omega, hph, fun j h1 h2 => hpabove j h1 (by omega)⟩
  · have hhit0 : s.hit hash1 hash2 addr (n + 1) = false := by rw [hhit]; simpa using hh
    simp only [hh, if_false]
    refine ⟨rfl, rfl, hN, by simpa using hL, hcache _ rfl, ?_⟩
    rcases hPA with ⟨hp0, hno⟩ | ⟨hp1, hpn, hph, hpabove, halt⟩
    · refine Or.inl ⟨hp0, fun i h1 h2 => ?_⟩
      by_cases hi : i = n + 1
      · rw [hi]; exact hhit0
      · exact hno i h1 (by omega)
    · refine Or.inr ⟨hp1, by simp only; omega, hph, fun j h1 h2 => ?_, halt⟩
      by_cases hj : j = n + 1
      · rw [hj]; exact hhit0
      · exact hpabove j h1 (by omega)

theorem TAGEPredictor.scan_loop (hash1 hash2 : Nat → Nat → Nat) (s : TAGEPredictor) (addr : Nat)
    (x : TAGEPredictor) (hP : s.m_T_pred.length = s.m_T.length)
    (h0 : TAGEPredictor.ScanInv hash1 hash2 s addr 0 x) (n : Nat) (hn : n < s.m_T.length) :
    TAGEPredictor.ScanInv hash1 hash2 s addr n
      ((List.range' 1 n).foldl (TAGEPredictor.predictStep hash1 hash2 addr) x) := by
  induction n with
  | zero => exact h0
  | succ n ih =>
    rw [List.range'_concat, List.foldl_append]
    simp only [List.foldl_cons, List.foldl_nil]
    have e : 1 + 1 * n = n + 1 := by omega
    rw [e]
    exact TAGEPredictor.scan_step hash1 hash2 s addr n _ hn hP (ih (by omega))

/-- Claim C6: after `predict(addr)` the tables are as before; `provider_indx` is `0`
when no table of `1 .. tnum - 1` hits, and otherwise the largest hitting index;
in that case `altpred_indx` is the largest hitting index below the provider, or
`0` when no other table hits; and the returned bit is the prediction of
`T[provider_indx]` for `addr`.  A table `i` hits when
`trunc(hash2(addr, T[i].getGhr()), entriesLog) = T[i].getTag(addr)`. -/
theorem TAGEPredictor.predict_provider (hash1 hash2 : Nat → Nat → Nat) (s : TAGEPredictor)
    (addr : Nat) (hT : s.m_T.length = s.m_tnum) (hP : s.m_T_pred.length = s.m_tnum)
    (h1 : 1 ≤ s.m_tnum) :
    (s.predict hash1 hash2 addr).2.m_T = s.m_T ∧
    (((s.predict hash1 hash2 addr).2.provider_indx = 0 ∧
        ∀ i, 1 ≤ i → i < s.m_tnum → s.hit hash1 hash2 addr i = false) ∨
      (1 ≤ (s.predict hash1 hash2 addr).2.provider_indx ∧
        (s.predict hash1 hash2 addr).2.provider_indx < s.m_tnum ∧
        s.hit hash1 hash2 addr (s.predict hash1 hash2 addr).2.provider_indx = true ∧
        (∀ j, (s.predict hash1 hash2 addr).2.provider_indx < j → j < s.m_tnum →
          s.hit hash1 hash2 addr j = false) ∧
        (((s.predict hash1 hash2 addr).2.altpred_indx = 0 ∧
            ∀ j, 1 ≤ j → j < (s.predict hash1 hash2 addr).2.provider_indx →
              s.hit hash1 hash2 addr j = false) ∨
          (1 ≤ (s.predict hash1 hash2 addr).2.altpred_indx ∧
            (s.predict hash1 hash2 addr).2.altpred_indx <
              (s.predict hash1 hash2 addr).2.provider_indx ∧
            s.hit hash1 hash2 addr (s.predict hash1 hash2 addr).2.altpred_indx = true ∧
            ∀ j, (s.predict hash1 hash2 addr).2.altpred_indx < j →
              j < (s.predict hash1 hash2 addr).2.provider_indx →
              s.hit hash1 hash2 addr j = false)))) ∧
    ∃ T, s.m_T[(s.predict hash1 hash2 addr).2.provider_indx]? = some T ∧
      (s.predict hash1 hash2 addr).1 = T.predict hash1 addr := by
  have h0len : 0 < s.m_T.length := by omega
  have hget0 : s.m_T[0]? = some s.m_T[0] := List.getElem?_eq_getElem h0len
  have hinv0 : TAGEPredictor.ScanInv hash1 hash2 s addr 0
      { s with provider_indx := 0, m_T_pred := s.m_T_pred.set 0 (s.m_T[0].predict hash1 addr) } := by
    refine ⟨rfl, rfl, rfl, by simp, ?_, Or.inl ⟨rfl, fun i h1 h2 => by omega⟩⟩
    intro j T hj hjT
    have hj0 : j = 0 := by omega
    subst hj0
    rw [hget0] at hjT
    cases hjT
    have hne : s.m_tnum ≠ 0 := by omega
    simp [List.getElem?_set, hP, hne]
  have hinv := TAGEPredictor.scan_loop hash1 hash2 s addr _ (by omega) hinv0 (s.m_tnum - 1)
    (by omega)
  have hpred : s.predict hash1 hash2 addr =
      (((List.range' 1 (s.m_tnum - 1)).foldl (TAGEPredictor.predictStep hash1 hash2 addr)
          { s with provider_indx := 0,
                   m_T_pred := s.m_T_pred.set 0 (s.m_T[0].predict hash1 addr) }).m_T_pred.getD
        ((List.range' 1 (s.m_tnum - 1)).foldl (TAGEPredictor.predictStep hash1 hash2 addr)
          { s with provider_indx := 0,
                   m_T_pred := s.m_T_pred.set 0 (s.m_T[0].predict hash1 addr) }).provider_indx false,
        (List.range' 1 (s.m_tnum - 1)).foldl (TAGEPredictor.predictStep hash1 hash2 addr)
          { s with provider_indx := 0,
                   m_T_pred := s.m_T_pred.set 0 (s.m_T[0].predict hash1 addr) }) := by
    unfold TAGEPredictor.predict
    simp only [hget0]
  rw [hpred]
  generalize (List.range' 1 (s.m_tnum - 1)).foldl (TAGEPredictor.predictStep hash1 hash2 addr)
    { s with provider_indx := 0,
             m_T_pred := s.m_T_pred.set 0 (s.m_T[0].predict hash1 addr) } = x at hinv
  obtain ⟨hxT, _, _, hxL, hxC, hPA⟩ := hinv
  have hplt : x.provider_indx < s.m_T.length := by
    rcases hPA with ⟨hp0, _⟩ | ⟨_, hpn, _⟩ <;> omega
  refine ⟨hxT, ?_, ⟨s.m_T[x.provider_indx], List.getElem?_eq_getElem hplt, ?_⟩⟩
  · rcases hPA with ⟨hp0, hno⟩ | ⟨hp1, hpn, hph, hpabove, halt⟩
    · exact Or.inl ⟨hp0, fun i h1 h2 => hno i h1 (by omega)⟩
    · exact Or.inr ⟨hp1, by simp only; omega, hph, fun j h1 h2 => hpabove j h1 (by omega), halt⟩
  · have hc := hxC x.provider_indx s.m_T[x.provider_indx]
      (by rcases hPA with ⟨hp0, _⟩ | ⟨_, hpn, _⟩ <;> omega) (List.getElem?_eq_getElem hplt)
    simp only [List.getD_eq_getElem?_getD, hc, Option.getD_some]

theorem TAGEPredictor.predict_provider_witness :
    ((TAGEPredictor.new 2 [2, 4] 2 2 4).m_T.length = (TAGEPredictor.new 2 [2, 4] 2 2 4).m_tnum ∧
      (TAGEPredictor.new 2 [2, 4] 2 2 4).m_T_pred.length =
        (TAGEPredictor.new 2 [2, 4] 2 2 4).m_tnum ∧
      1 ≤ (TAGEPredictor.new 2 [2, 4] 2 2 4).m_tnum) ∧
    ∃ T, (TAGEPredictor.new 2 [2, 4] 2 2 4).m_T[
        ((TAGEPredictor.new 2 [2, 4] 2 2 4).predict f_xor f_xor1 5).2.provider_indx]? = some T ∧
      ((TAGEPredictor.new 2 [2, 4] 2 2 4).predict f_xor f_xor1 5).1 = T.predict f_xor 5 :=
  ⟨by decide,
    (TAGEPredictor.predict_provider f_xor f_xor1 (TAGEPredictor.new 2 [2, 4] 2 2 4) 5
      (by decide) (by decide) (by decide)).2.2⟩

/-! ## TAGE predictor: well-formed objects -/

theorem getElem?_mem_tail {α : Type} (l : List α) (i : Nat) (a : α) (h1 : 1 ≤ i)
    (h : l[i]? = some a) : a ∈ l.tail := by
  cases l with
  | nil => simp at h
  | cons x xs =>
    obtain ⟨k, rfl⟩ : ∃ k, i = k + 1 := ⟨i - 1, by omega⟩
    simp only [List.getElem?_cons_succ] at h
    exact List.getElem?_mem h

theorem TAGEPredictor.WF.table (s : TAGEPredictor) (h : s.WF) (i : Nat) (h1 : 1 ≤ i)
    (hi : i < s.m_tnum) :
    ∃ g, s.m_T[i]? = some (.ghp g) ∧ g.m_entries_log = s.m_entries_log ∧
      g.m_scnt.length = 2 ^ s.m_entries_log := by
  obtain ⟨_, _, hT, _, _, hok, _⟩ := h
  have hlt : i < s.m_T.length := by omega
  have hget := List.getElem?_eq_getElem hlt
  have hmem := getElem?_mem_tail _ _ _ h1 hget
  have := hok _ hmem
  cases hTi : s.m_T[i] with
  | bht b => rw [hTi] at this; simp [TAGEPredictor.tableOk] at this
  | ghp g =>
    rw [hTi] at this hget
    simp only [TAGEPredictor.tableOk, Bool.and_eq_true, beq_iff_eq] at this
    exact ⟨g, hget, this.1, this.2⟩

theorem TAGEPredictor.WF.row (s : TAGEPredictor) (h : s.WF) (i : Nat) (h1 : 1 ≤ i)
    (hi : i < s.m_tnum) :
    ∃ row, s.m_useful[i]? = some row ∧ row.length = 2 ^ s.m_entries_log ∧ ∀ u ∈ row, u < 256 := by
  obtain ⟨_, _, _, _, hU, _, hrow⟩ := h
  have hlt : i < s.m_useful.length := by omega
  have hget := List.getElem?_eq_getElem hlt
  exact ⟨_, hget, hrow _ (getElem?_mem_tail _ _ _ h1 hget)⟩

theorem TAGEPredictor.tagAt_lt (hash1 : Nat → Nat → Nat) (s : TAGEPredictor) (addr i : Nat)
    (h : s.m_entries_log < 31) : s.tagAt hash1 addr i < 2 ^ s.m_entries_log :=
  truncate_lt _ _ (by omega)

theorem TAGEPredictor.tagAt_mod (hash1 : Nat → Nat → Nat) (s : TAGEPredictor) (addr i : Nat) :
    truncate (hash1 addr (s.ghrAt i)) s.m_entries_log % 2 ^ 64 = s.tagAt hash1 addr i :=
  Nat.mod_eq_of_lt (truncate_lt_u64 _ _)

/-! ## TAGE predictor: the misprediction part of `update` -/

theorem TAGEPredictor.allocLoop_none (hash1 : Nat → Nat → Nat) (addr : Nat) (s : TAGEPredictor)
    (n : Nat) : ∀ i, (∀ j, i ≤ j → j < i + n → s.usefulAt j (s.tagAt hash1 addr j) ≠ 0) →
      TAGEPredictor.allocLoop hash1 addr s i n = (s, false) := by
  induction n with
  | zero => intro i _; rfl
  | succ n ih =>
    intro i h
    unfold TAGEPredictor.allocLoop
    simp only [TAGEPredictor.tagAt_mod]
    rw [if_neg (h i (le_refl _) (by omega))]
    exact ih (i + 1) (fun j h1 h2 => h j (by omega) (by omega))

theorem TAGEPredictor.allocLoop_first (hash1 : Nat → Nat → Nat) (addr : Nat) (s : TAGEPredictor)
    (i0 : Nat) (h0 : s.usefulAt i0 (s.tagAt hash1 addr i0) = 0) (n : Nat) :
    ∀ i, i ≤ i0 → i0 < i + n →
      (∀ j, i ≤ j → j < i0 → s.usefulAt j (s.tagAt hash1 addr j) ≠ 0) →
      TAGEPredictor.allocLoop hash1 addr s i n =
        ({ s with m_T := (modifyAt s.m_T i0 (fun T => T.reset_ctr hash1 addr)) }, true) := by
  induction n with
  | zero => intro i h1 h2; omega
  | succ n ih =>
    intro i h1 h2 h
    unfold TAGEPredictor.allocLoop
    simp only [TAGEPredictor.tagAt_mod]
    by_cases hi : i = i0
    · subst hi
      rw [if_pos h0]
    · rw [if_neg (h i (le_refl _) (by omega))]
      exact ih (i + 1) (by omega) (by omega) (fun j h1 h2 => h j (by omega) h2)

theorem modifyAt_getElem? {α : Type} (l : List α) (i j : Nat) (f : α → α) :
    (modifyAt l i f)[j]? = if j = i then (l[i]?).map f else l[j]? := by
  by_cases h : j = i
  · subst h
    rw [if_pos rfl]
    cases hj : l[j]? with
    | none => simp [modifyAt, hj]
    | some c => rw [modifyAt_getElem?_eq l j f c hj]; rfl
  · rw [if_neg h]
    exact modifyAt_getElem?_ne l i j f h

theorem TAGEPredictor.ghrAt_congr (s x : TAGEPredictor) (h : x.m_T = s.m_T) (i : Nat) :
    x.ghrAt i = s.ghrAt i := by
  unfold TAGEPredictor.ghrAt
  rw [h]

theorem TAGEPredictor.age_loop (hash1 : Nat → Nat → Nat) (addr : Nat) (s : TAGEPredictor)
    (p n : Nat) :
    ((List.range' (p + 1) n).foldl (TAGEPredictor.ageStep hash1 addr) s).m_T = s.m_T ∧
    ((List.range' (p + 1) n).foldl (TAGEPredictor.ageStep hash1 addr) s).m_entries_log =
      s.m_entries_log ∧
    ∀ i, ((List.range' (p + 1) n).foldl (TAGEPredictor.ageStep hash1 addr) s).m_useful[i]? =
      if p < i ∧ i ≤ p + n then
        (s.m_useful[i]?).map
          (fun row => modifyAt row (s.tagAt hash1 addr i) (fun u => (u + 255) % 256))
      else s.m_useful[i]? := by
  induction n with
  | zero =>
    refine ⟨rfl, rfl, fun i => ?_⟩
    rw [if_neg (by omega)]
    rfl
  | succ n ih =>
    rw [List.range'_concat, List.foldl_append]
    simp only [List.foldl_cons, List.foldl_nil]
    have e : p + 1 + 1 * n = p + n + 1 := by omega
    rw [e]
    generalize (List.range' (p + 1) n).foldl (TAGEPredictor.ageStep hash1 addr) s = x at ih
    obtain ⟨hT, hE, hU⟩ := ih
    refine ⟨hT, hE, fun i => ?_⟩
    have htag : truncate (hash1 addr (x.ghrAt (p + n + 1))) x.m_entries_log % 2 ^ 64 =
        s.tagAt hash1 addr (p + n + 1) := by
      rw [TAGEPredictor.ghrAt_congr s x hT, hE]
      exact TAGEPredictor.tagAt_mod hash1 s addr _
    show (modifyAt x.m_useful (p + n + 1) _)[i]? = _
    rw [modifyAt_getElem?, htag]
    by_cases hi : i = p + n + 1
    · subst hi
      rw [if_pos rfl, hU, if_neg (by omega), if_pos (by omega)]
    · rw [if_neg hi, hU]
      by_cases hr : p < i ∧ i ≤ p + n
      · rw [if_pos hr, if_pos (by omega)]
      · rw [if_neg hr, if_neg (by omega)]

theorem TAGEPredictor.mispredict_iff (a b : Bool) :
    ((a && !b) || (!a && b)) = true ↔ a ≠ b := by
  cases a <;> cases b <;> decide

/-- Claim C7: the misprediction part of `update`.  With `takenActually !=
takenPredicted`: if `i0` is the smallest table above the provider whose usefulness
entry at `trunc(hash1(addr, T[i0].getGhr()), entriesLog)` is `0`, then the only
change is in table `i0`, whose counter at that index is set to its initial value
(one `reset_ctr`), and no usefulness entry changes; if no table above the provider
has usefulness `0` there, no table changes (no counter is reset), the usefulness
entry at that index of every table above the provider is decremented by one, and
every other usefulness entry is kept.  With `takenActually = takenPredicted` the
object is unchanged. -/
theorem TAGEPredictor.updateAlloc_spec (hash1 : Nat → Nat → Nat) (s : TAGEPredictor)
    (takenActually takenPredicted : Bool) (addr : Nat) (hwf : s.WF) :
    (takenActually ≠ takenPredicted →
      ∀ i0, s.provider_indx < i0 → i0 < s.m_tnum →
        s.usefulAt i0 (s.tagAt hash1 addr i0) = 0 →
        (∀ j, s.provider_indx < j → j < i0 → s.usefulAt j (s.tagAt hash1 addr j) ≠ 0) →
        (s.updateAlloc hash1 takenActually takenPredicted addr).m_useful = s.m_useful ∧
        (∀ j, j ≠ i0 →
          (s.updateAlloc hash1 takenActually takenPredicted addr).m_T[j]? = s.m_T[j]?) ∧
        ∃ g c, s.m_T[i0]? = some (.ghp g) ∧ g.m_scnt[s.tagAt hash1 addr i0]? = some c ∧
          (s.updateAlloc hash1 takenActually takenPredicted addr).m_T[i0]? =
            some (.ghp { g with
              m_scnt := (g.m_scnt.set (s.tagAt hash1 addr i0) { c with m_val := c.m_init_val }) })) ∧
    (takenActually ≠ takenPredicted →
      (∀ i, s.provider_indx < i → i < s.m_tnum → s.usefulAt i (s.tagAt hash1 addr i) ≠ 0) →
      (s.updateAlloc hash1 takenActually takenPredicted addr).m_T = s.m_T ∧
      (∀ i, s.provider_indx < i → i < s.m_tnum →
        (s.updateAlloc hash1 takenActually takenPredicted addr).usefulAt i (s.tagAt hash1 addr i) =
          s.usefulAt i (s.tagAt hash1 addr i) - 1) ∧
      (∀ i k, ¬ (s.provider_indx < i ∧ i < s.m_tnum ∧ k = s.tagAt hash1 addr i) →
        (s.updateAlloc hash1 takenActually takenPredicted addr).usefulAt i k = s.usefulAt i k)) ∧
    (takenActually = takenPredicted →
      s.updateAlloc hash1 takenActually takenPredicted addr = s) := by
  refine ⟨fun hne i0 hp hi h0 hmin => ?_, fun hne hall => ?_, fun heq => ?_⟩
  · have hloop := TAGEPredictor.allocLoop_first hash1 addr s i0 h0
      (s.m_tnum - (s.provider_indx + 1)) (s.provider_indx + 1) (by omega) (by omega)
      (fun j h1 h2 => hmin j (by omega) h2)
    have hres : s.updateAlloc hash1 takenActually takenPredicted addr =
        { s with m_T := (modifyAt s.m_T i0 (fun T => T.reset_ctr hash1 addr)) } := by
      unfold TAGEPredictor.updateAlloc
      rw [if_pos ((TAGEPredictor.mispredict_iff _ _).2 hne), hloop]
      rfl
    rw [hres]
    obtain ⟨g, hg, hge, hgl⟩ := TAGEPredictor.WF.table s hwf i0 (by omega) hi
    have htag : g.get_tag hash1 addr = s.tagAt hash1 addr i0 := by
      unfold GlobalHistoryPredictor.get_tag TAGEPredictor.tagAt TAGEPredictor.ghrAt
      rw [hg, hge]
      rfl
    have hlt : s.tagAt hash1 addr i0 < g.m_scnt.length := by
      rw [hgl]; exact TAGEPredictor.tagAt_lt hash1 s addr i0 hwf.2.1
    refine ⟨rfl, fun j hj => modifyAt_getElem?_ne _ _ _ _ hj,
      g, g.m_scnt[s.tagAt hash1 addr i0], hg, List.getElem?_eq_getElem hlt, ?_⟩
    show (modifyAt s.m_T i0 _)[i0]? = _
    rw [modifyAt_getElem?_eq _ _ _ _ hg]
    show some (SubPredictor.ghp (g.reset_ctr hash1 addr)) = _
    unfold GlobalHistoryPredictor.reset_ctr
    rw [htag]
    unfold modifyAt
    rw [List.getElem?_eq_getElem hlt]
    rfl
  · have hloop := TAGEPredictor.allocLoop_none hash1 addr s
      (s.m_tnum - (s.provider_indx + 1)) (s.provider_indx + 1)
      (fun j h1 h2 => hall j (by omega) (by omega))
    have hres : s.updateAlloc hash1 takenActually takenPredicted addr =
        (List.range' (s.provider_indx + 1) (s.m_tnum - (s.provider_indx + 1))).foldl
          (TAGEPredictor.ageStep hash1 addr) s := by
      unfold TAGEPredictor.updateAlloc
      rw [if_pos ((TAGEPredictor.mispredict_iff _ _).2 hne), hloop]
      rfl
    rw [hres]
    obtain ⟨hT, _, hU⟩ := TAGEPredictor.age_loop hash1 addr s s.provider_indx
      (s.m_tnum - (s.provider_indx + 1))
    generalize (List.range' (s.provider_indx + 1) (s.m_tnum - (s.provider_indx + 1))).foldl
      (TAGEPredictor.ageStep hash1 addr) s = x at hT hU
    refine ⟨hT, fun i hp hi => ?_, fun i k hnot => ?_⟩
    · obtain ⟨row, hrow, hlen, hbound⟩ := TAGEPredictor.WF.row s hwf i (by omega) hi
      have hlt : s.tagAt hash1 addr i < row.length := by
        rw [hlen]; exact TAGEPredictor.tagAt_lt hash1 s addr i hwf.2.1
      have hnz := hall i hp hi
      have hu := hbound _ (List.getElem_mem hlt)
      unfold TAGEPredictor.usefulAt at hnz ⊢
      simp only [List.getD_eq_getElem?_getD, hU i, hrow, if_pos (show
        s.provider_indx < i ∧ i ≤ s.provider_indx + (s.m_tnum - (s.provider_indx + 1)) by omega),
        Option.map_some', Option.getD_some, modifyAt_getElem?,
        List.getElem?_eq_getElem hlt, if_true] at hnz ⊢
      omega
    · unfold TAGEPredictor.usefulAt
      simp only [List.getD_eq_getElem?_getD, hU i]
      by_cases hr : s.provider_indx < i ∧ i ≤ s.provider_indx + (s.m_tnum - (s.provider_indx + 1))
      · rw [if_pos hr]
        have hk : k ≠ s.tagAt hash1 addr i := fun hk => hnot ⟨hr.1, by omega, hk⟩
        cases hrow : s.m_useful[i]? with
        | none => rfl
        | some row =>
          simp only [Option.map_some', Option.getD_some, modifyAt_getElem?, if_neg hk]
      · rw [if_neg hr]
  · unfold TAGEPredictor.updateAlloc
    rw [if_neg (fun h => (TAGEPredictor.mispredict_iff _ _).1 h heq)]

/-- Three runs of `TAGEPredictor<f_xor, hash2>` with `hash2(a, b) = a & b`, tables of
history width 2 and 4, each taken up to the misprediction part of the `update` of its
last event.  After `(0, taken), (0, taken)` the event `(1, not taken)` hits no table
and is predicted taken: the counter of index 0 of table 1 is reset from 3 to 2 and
table 2 keeps its 3.  After `(0, not taken), (0, taken)` the event `(0, not taken)`
hits table 1 only and is predicted taken: the usefulness entry of index 1 of table 2
goes from 255 to 254 and no counter moves.  After `(0, taken), (0, taken)` the event
`(0, taken)` is predicted taken and nothing changes. -/
theorem TAGEPredictor.updateAlloc_spec_witness :
    ((((TAGEPredictor.drive f_xor (fun a b : Nat => a &&& b) (TAGEPredictor.new 1 [2, 4] 2 2 1000)
      [(0, true), (0, true)]).2.predict f_xor (fun a b : Nat => a &&& b) 1).2.updateHead
        f_xor false true 1).WF ∧
      (((TAGEPredictor.drive f_xor (fun a b : Nat => a &&& b) (TAGEPredictor.new 1 [2, 4] 2 2 1000)
      [(0, true), (0, true)]).2.predict f_xor (fun a b : Nat => a &&& b) 1).2.updateHead
        f_xor false true 1).provider_indx = 0 ∧
      (((TAGEPredictor.drive f_xor (fun a b : Nat => a &&& b) (TAGEPredictor.new 1 [2, 4] 2 2 1000)
      [(0, true), (0, true)]).2.predict f_xor (fun a b : Nat => a &&& b) 1).2.updateHead
        f_xor false true 1).usefulAt 1
        ((((TAGEPredictor.drive f_xor (fun a b : Nat => a &&& b) (TAGEPredictor.new 1 [2, 4] 2 2 1000)
      [(0, true), (0, true)]).2.predict f_xor (fun a b : Nat => a &&& b) 1).2.updateHead
        f_xor false true 1).tagAt f_xor 1 1) = 0 ∧
      (((TAGEPredictor.drive f_xor (fun a b : Nat => a &&& b) (TAGEPredictor.new 1 [2, 4] 2 2 1000)
      [(0, true), (0, true)]).2.predict f_xor (fun a b : Nat => a &&& b) 1).2.updateHead
        f_xor false true 1).m_T.map SubPredictor.counterVals =
        [[2, 0], [3, 2, 2, 2], [3, 2, 2, 2]] ∧
      ((((TAGEPredictor.drive f_xor (fun a b : Nat => a &&& b) (TAGEPredictor.new 1 [2, 4] 2 2 1000)
      [(0, true), (0, true)]).2.predict f_xor (fun a b : Nat => a &&& b) 1).2.updateHead
        f_xor false true 1).updateAlloc f_xor false true 1).m_T.map SubPredictor.counterVals =
        [[2, 0], [2, 2, 2, 2], [3, 2, 2, 2]] ∧
      ((((TAGEPredictor.drive f_xor (fun a b : Nat => a &&& b) (TAGEPredictor.new 1 [2, 4] 2 2 1000)
      [(0, true), (0, true)]).2.predict f_xor (fun a b : Nat => a &&& b) 1).2.updateHead
        f_xor false true 1).updateAlloc f_xor false true 1).m_useful =
        (((TAGEPredictor.drive f_xor (fun a b : Nat => a &&& b) (TAGEPredictor.new 1 [2, 4] 2 2 1000)
      [(0, true), (0, true)]).2.predict f_xor (fun a b : Nat => a &&& b) 1).2.updateHead
        f_xor false true 1).m_useful ∧
      ((((TAGEPredictor.drive f_xor (fun a b : Nat => a &&& b) (TAGEPredictor.new 1 [2, 4] 2 2 1000)
      [(0, true), (0, true)]).2.predict f_xor (fun a b : Nat => a &&& b) 1).2.updateHead
        f_xor false true 1).updateAlloc f_xor false true 1).m_T[2]? =
        (((TAGEPredictor.drive f_xor (fun a b : Nat => a &&& b) (TAGEPredictor.new 1 [2, 4] 2 2 1000)
      [(0, true), (0, true)]).2.predict f_xor (fun a b : Nat => a &&& b) 1).2.updateHead
        f_xor false true 1).m_T[2]?) ∧
    ((((TAGEPredictor.drive f_xor (fun a b : Nat => a &&& b) (TAGEPredictor.new 1 [2, 4] 2 2 1000)
      [(0, false), (0, true)]).2.predict f_xor (fun a b : Nat => a &&& b) 0).2.updateHead
        f_xor false true 0).WF ∧
      (((TAGEPredictor.drive f_xor (fun a b : Nat => a &&& b) (TAGEPredictor.new 1 [2, 4] 2 2 1000)
      [(0, false), (0, true)]).2.predict f_xor (fun a b : Nat => a &&& b) 0).2.updateHead
        f_xor false true 0).provider_indx = 1 ∧
      (((TAGEPredictor.drive f_xor (fun a b : Nat => a &&& b) (TAGEPredictor.new 1 [2, 4] 2 2 1000)
      [(0, false), (0, true)]).2.predict f_xor (fun a b : Nat => a &&& b) 0).2.updateHead
        f_xor false true 0).usefulAt 2
        ((((TAGEPredictor.drive f_xor (fun a b : Nat => a &&& b) (TAGEPredictor.new 1 [2, 4] 2 2 1000)
      [(0, false), (0, true)]).2.predict f_xor (fun a b : Nat => a &&& b) 0).2.updateHead
        f_xor false true 0).tagAt f_xor 0 2) = 255 ∧
      ((((TAGEPredictor.drive f_xor (fun a b : Nat => a &&& b) (TAGEPredictor.new 1 [2, 4] 2 2 1000)
      [(0, false), (0, true)]).2.predict f_xor (fun a b : Nat => a &&& b) 0).2.updateHead
        f_xor false true 0).updateAlloc f_xor false true 0).m_useful = [[], [0, 0, 0, 0], [0, 254, 0, 0]] ∧
      ((((TAGEPredictor.drive f_xor (fun a b : Nat => a &&& b) (TAGEPredictor.new 1 [2, 4] 2 2 1000)
      [(0, false), (0, true)]).2.predict f_xor (fun a b : Nat => a &&& b) 0).2.updateHead
        f_xor false true 0).updateAlloc f_xor false true 0).m_T =
        (((TAGEPredictor.drive f_xor (fun a b : Nat => a &&& b) (TAGEPredictor.new 1 [2, 4] 2 2 1000)
      [(0, false), (0, true)]).2.predict f_xor (fun a b : Nat => a &&& b) 0).2.updateHead
        f_xor false true 0).m_T ∧
      ((((TAGEPredictor.drive f_xor (fun a b : Nat => a &&& b) (TAGEPredictor.new 1 [2, 4] 2 2 1000)
      [(0, false), (0, true)]).2.predict f_xor (fun a b : Nat => a &&& b) 0).2.updateHead
        f_xor false true 0).updateAlloc f_xor false true 0).usefulAt 2
          ((((TAGEPredictor.drive f_xor (fun a b : Nat => a &&& b) (TAGEPredictor.new 1 [2, 4] 2 2 1000)
      [(0, false), (0, true)]).2.predict f_xor (fun a b : Nat => a &&& b) 0).2.updateHead
        f_xor false true 0).tagAt f_xor 0 2) =
        (((TAGEPredictor.drive f_xor (fun a b : Nat => a &&& b) (TAGEPredictor.new 1 [2, 4] 2 2 1000)
      [(0, false), (0, true)]).2.predict f_xor (fun a b : Nat => a &&& b) 0).2.updateHead
        f_xor false true 0).usefulAt 2
          ((((TAGEPredictor.drive f_xor (fun a b : Nat => a &&& b) (TAGEPredictor.new 1 [2, 4] 2 2 1000)
      [(0, false), (0, true)]).2.predict f_xor (fun a b : Nat => a &&& b) 0).2.updateHead
        f_xor false true 0).tagAt f_xor 0 2) - 1) ∧
    ((((TAGEPredictor.drive f_xor (fun a b : Nat => a &&& b) (TAGEPredictor.new 1 [2, 4] 2 2 1000)
      [(0, true), (0, true)]).2.predict f_xor (fun a b : Nat => a &&& b) 0).2.updateHead
        f_xor true true 0).WF ∧
      (((TAGEPredictor.drive f_xor (fun a b : Nat => a &&& b) (TAGEPredictor.new 1 [2, 4] 2 2 1000)
      [(0, true), (0, true)]).2.predict f_xor (fun a b : Nat => a &&& b) 0).2.updateHead
        f_xor true true 0).updateAlloc f_xor true true 0 =
        (((TAGEPredictor.drive f_xor (fun a b : Nat => a &&& b) (TAGEPredictor.new 1 [2, 4] 2 2 1000)
      [(0, true), (0, true)]).2.predict f_xor (fun a b : Nat => a &&& b) 0).2.updateHead
        f_xor true true 0)) := by
  have hA := (TAGEPredictor.updateAlloc_spec f_xor
    (((TAGEPredictor.drive f_xor (fun a b : Nat => a &&& b) (TAGEPredictor.new 1 [2, 4] 2 2 1000)
      [(0, true), (0, true)]).2.predict f_xor (fun a b : Nat => a &&& b) 1).2.updateHead
        f_xor false true 1) false true 1 (by decide)).1 (by decide) 1 (by decide) (by decide) (by decide)
    (fun j h1 h2 => absurd h2 (by
      have h3 : (((TAGEPredictor.drive f_xor (fun a b : Nat => a &&& b) (TAGEPredictor.new 1 [2, 4] 2 2 1000)
      [(0, true), (0, true)]).2.predict f_xor (fun a b : Nat => a &&& b) 1).2.updateHead
        f_xor false true 1).provider_indx = 0 := by decide
      omega))
  have hG := (TAGEPredictor.updateAlloc_spec f_xor
    (((TAGEPredictor.drive f_xor (fun a b : Nat => a &&& b) (TAGEPredictor.new 1 [2, 4] 2 2 1000)
      [(0, false), (0, true)]).2.predict f_xor (fun a b : Nat => a &&& b) 0).2.updateHead
        f_xor false true 0) false true 0 (by decide)).2.1 (by decide)
    (fun i h1 h2 => by
      have h3 : (((TAGEPredictor.drive f_xor (fun a b : Nat => a &&& b) (TAGEPredictor.new 1 [2, 4] 2 2 1000)
      [(0, false), (0, true)]).2.predict f_xor (fun a b : Nat => a &&& b) 0).2.updateHead
        f_xor false true 0).provider_indx = 1 := by decide
      have h4 : (((TAGEPredictor.drive f_xor (fun a b : Nat => a &&& b) (TAGEPredictor.new 1 [2, 4] 2 2 1000)
      [(0, false), (0, true)]).2.predict f_xor (fun a b : Nat => a &&& b) 0).2.updateHead
        f_xor false true 0).m_tnum = 3 := by decide
      have h5 : i = 2 := by omega
      subst h5
      decide)
  have hH := (TAGEPredictor.updateAlloc_spec f_xor
    (((TAGEPredictor.drive f_xor (fun a b : Nat => a &&& b) (TAGEPredictor.new 1 [2, 4] 2 2 1000)
      [(0, true), (0, true)]).2.predict f_xor (fun a b : Nat => a &&& b) 0).2.updateHead
        f_xor true true 0) true true 0 (by decide)).2.2 rfl
  exact ⟨⟨by decide, by decide, by decide, by decide, by decide, hA.1, hA.2.1 2 (by decide)⟩,
    ⟨by decide, by decide, by decide, by decide, hG.1, hG.2.1 2 (by decide) (by decide)⟩,
    ⟨by decide, hH⟩⟩

/-! ## TAGE predictor: the usefulness part of `update` -/

theorem TAGEPredictor.usefulAt_modify (s : TAGEPredictor) (i tag : Nat) (f : Nat → Nat)
    (row : List Nat) (hrow : s.m_useful[i]? = some row) (htag : tag < row.length) (j k : Nat) :
    TAGEPredictor.usefulAt
      { s with m_useful := (modifyAt s.m_useful i (fun r => modifyAt r tag f)) } j k =
      if j = i ∧ k = tag then f (s.usefulAt i tag) else s.usefulAt j k := by
  unfold TAGEPredictor.usefulAt
  simp only [List.getD_eq_getElem?_getD, modifyAt_getElem?]
  by_cases hj : j = i
  · subst hj
    simp only [if_true, hrow, Option.map_some', Option.getD_some, modifyAt_getElem?, true_and]
    by_cases hk : k = tag
    · subst hk
      simp [List.getElem?_eq_getElem htag]
    · simp [hk]
  · simp [hj]

/-- Claim C8: the usefulness part of `update`, with `alt` the cached prediction
`m_T_pred[altpred_indx]`.  With `providerIndex != 0` the entry of the provider's row
at the provider's tag is incremented (as a `UINT8`) when `takenPredicted =
takenActually` and `alt != takenPredicted`, decremented (as a `UINT8`) when
`takenPredicted != takenActually` and `alt != takenPredicted`, every other entry
being kept, and the object is unchanged when `alt = takenPredicted`; with
`providerIndex = 0` the object is unchanged. -/
theorem TAGEPredictor.updateUseful_spec (hash1 : Nat → Nat → Nat) (s : TAGEPredictor)
    (takenActually takenPredicted : Bool) (addr : Nat) (alt : Bool) (hwf : s.WF)
    (hp : s.provider_indx < s.m_tnum) (halt : s.m_T_pred[s.altpred_indx]? = some alt) :
    (s.provider_indx ≠ 0 →
      ∃ T, s.m_T[s.provider_indx]? = some T ∧
        (takenPredicted = takenActually → alt ≠ takenPredicted →
          ∀ i k, (s.updateUseful hash1 takenActually takenPredicted addr).usefulAt i k =
            if i = s.provider_indx ∧ k = T.get_tag hash1 addr then
              (s.usefulAt s.provider_indx (T.get_tag hash1 addr) + 1) % 256
            else s.usefulAt i k) ∧
        (takenPredicted ≠ takenActually → alt ≠ takenPredicted →
          ∀ i k, (s.updateUseful hash1 takenActually takenPredicted addr).usefulAt i k =
            if i = s.provider_indx ∧ k = T.get_tag hash1 addr then
              (s.usefulAt s.provider_indx (T.get_tag hash1 addr) + 255) % 256
            else s.usefulAt i k) ∧
        (alt = takenPredicted →
          s.updateUseful hash1 takenActually takenPredicted addr = s)) ∧
    (s.provider_indx = 0 → s.updateUseful hash1 takenActually takenPredicted addr = s) := by
  refine ⟨fun hp0 => ?_, fun hp0 => ?_⟩
  · obtain ⟨g, hg, hge, _⟩ := TAGEPredictor.WF.table s hwf s.provider_indx (by omega) hp
    obtain ⟨row, hrow, hlen, _⟩ := TAGEPredictor.WF.row s hwf s.provider_indx (by omega) hp
    have htag : SubPredictor.get_tag hash1 (.ghp g) addr < row.length := by
      rw [hlen]
      show truncate _ g.m_entries_log < _
      rw [hge]
      exact truncate_lt _ _ (by have := hwf.2.1; omega)
    have hmod : SubPredictor.get_tag hash1 (.ghp g) addr % 2 ^ 64 =
        SubPredictor.get_tag hash1 (.ghp g) addr :=
      Nat.mod_eq_of_lt (truncate_lt_u64 _ _)
    have hinc := TAGEPredictor.usefulAt_modify s s.provider_indx _ (fun u => (u + 1) % 256)
      row hrow htag
    have hdec := TAGEPredictor.usefulAt_modify s s.provider_indx _ (fun u => (u + 255) % 256)
      row hrow htag
    refine ⟨.ghp g, hg, fun h1 h2 i k => ?_, fun h1 h2 i k => ?_, fun h1 => ?_⟩
    · rw [← hinc i k]
      unfold TAGEPredictor.updateUseful
      simp only [if_pos hp0, hg, halt, hmod]
      subst h1
      cases takenPredicted <;> cases alt <;> simp_all [TAGEPredictor.incUseful]
    · rw [← hdec i k]
      unfold TAGEPredictor.updateUseful
      simp only [if_pos hp0, hg, halt, hmod]
      cases takenActually <;> cases takenPredicted <;> cases alt <;>
        simp_all [TAGEPredictor.decUseful]
    · unfold TAGEPredictor.updateUseful
      simp only [if_pos hp0, hg, halt, hmod]
      subst h1
      cases takenActually <;> cases alt <;> simp
  · unfold TAGEPredictor.updateUseful
    rw [if_neg (fun h => h hp0)]

theorem TAGEPredictor.updateUseful_spec_witness :
    ((TAGEPredictor.new 2 [2, 4] 2 2 4).predict f_xor f_xor1 5).2.WF ∧
    ∃ T, ((TAGEPredictor.new 2 [2, 4] 2 2 4).predict f_xor f_xor1 5).2.m_T[
        ((TAGEPredictor.new 2 [2, 4] 2 2 4).predict f_xor f_xor1 5).2.provider_indx]? = some T ∧
      ∀ i k, ((((TAGEPredictor.new 2 [2, 4] 2 2 4).predict f_xor f_xor1 5).2).updateUseful
          f_xor false false 5).usefulAt i k =
        if i = ((TAGEPredictor.new 2 [2, 4] 2 2 4).predict f_xor f_xor1 5).2.provider_indx ∧
            k = T.get_tag f_xor 5 then
          ((((TAGEPredictor.new 2 [2, 4] 2 2 4).predict f_xor f_xor1 5).2).usefulAt
            ((TAGEPredictor.new 2 [2, 4] 2 2 4).predict f_xor f_xor1 5).2.provider_indx
            (T.get_tag f_xor 5) + 1) % 256
        else (((TAGEPredictor.new 2 [2, 4] 2 2 4).predict f_xor f_xor1 5).2).usefulAt i k := by
  refine ⟨by decide, ?_⟩
  obtain ⟨T, hT, hinc, _, _⟩ :=
    (TAGEPredictor.updateUseful_spec f_xor
      ((TAGEPredictor.new 2 [2, 4] 2 2 4).predict f_xor f_xor1 5).2 false false 5 true
      (by decide) (by decide) (by decide)).1 (by decide)
  exact ⟨T, hT, hinc rfl (by decide)⟩

/-! ## Well-formed predictors are what the constructors build and `update` keeps -/

theorem shl1_toNat (n : Nat) (h : n < 31) : (shl1 n).toNat = 2 ^ n := by
  rw [shl1_eq n h]
  exact_mod_cast Int.toNat_ofNat (2 ^ n)

theorem SaturatingCnt.cnt_new_WF (w : Nat) (h1 : 1 ≤ w) (h8 : w ≤ 8) : (SaturatingCnt.new w).WF w := by
  rw [SaturatingCnt.new_small w h1 h8]
  exact ⟨rfl, rfl, Nat.pow_lt_pow_right (by norm_num) (by omega)⟩

theorem BHTPredictor.updateCnt_WF (w : Nat) (takenActually : Bool) (c : SaturatingCnt)
    (h : c.WF w) : (BHTPredictor.updateCnt takenActually c).WF w := by
  by_cases h2 : w = 2
  · subst h2
    rw [BHTPredictor.updateCnt_width2 takenActually c h]
    refine ⟨h.1, h.2.1, ?_⟩
    have hv : c.m_val < 4 := h.2.2
    show specTable2 takenActually c.m_val < 4
    generalize c.m_val = v at hv
    interval_cases v <;> cases takenActually <;> decide
  · by_cases h3 : w = 3
    · subst h3
      rw [BHTPredictor.updateCnt_width3 takenActually c h]
      refine ⟨h.1, h.2.1, ?_⟩
      have hv : c.m_val < 8 := h.2.2
      show specTable3 takenActually c.m_val < 8
      generalize c.m_val = v at hv
      interval_cases v <;> cases takenActually <;> decide
    · have hw := h.1
      unfold BHTPredictor.updateCnt
      rw [if_neg (by rw [SaturatingCnt.getWidth, hw]; exact h2),
        if_neg (by rw [SaturatingCnt.getWidth, hw]; exact h3)]
      exact h

theorem mem_set_cases {α : Type} (l : List α) (i : Nat) (a x : α) (h : x ∈ l.set i a) :
    x ∈ l ∨ x = a := by
  rcases List.mem_or_eq_of_mem_set h with h | h
  · exact Or.inl h
  · exact Or.inr h

theorem mem_modifyAt {α : Type} (l : List α) (i : Nat) (f : α → α) (x : α)
    (h : x ∈ modifyAt l i f) : x ∈ l ∨ ∃ c ∈ l, x = f c := by
  unfold modifyAt at h
  split at h
  · rename_i c hc
    rcases mem_set_cases _ _ _ _ h with h | h
    · exact Or.inl h
    · exact Or.inr ⟨c, List.getElem?_mem hc, h⟩
  · exact Or.inl h

theorem BHTPredictor.bht_new_WF (entry_num_log scnt_width : Nat) (he : entry_num_log < 31)
    (h1 : 1 ≤ scnt_width) (h8 : scnt_width ≤ 8) :
    (BHTPredictor.new entry_num_log scnt_width).WF scnt_width := by
  refine ⟨he, ?_, fun c hc => ?_⟩
  · show (List.replicate _ _).length = _
    rw [List.length_replicate, shl1_toNat _ he]
    rfl
  · rw [List.eq_of_mem_replicate hc]
    exact SaturatingCnt.cnt_new_WF scnt_width h1 h8

theorem BHTPredictor.bht_update_WF (w : Nat) (p : BHTPredictor) (takenActually takenPredicted : Bool)
    (addr : Nat) (h : p.WF w) : (p.update takenActually takenPredicted addr).WF w := by
  obtain ⟨he, hl, hc⟩ := h
  refine ⟨he, ?_, fun c hmem => ?_⟩
  · show (modifyAt _ _ _).length = _
    rw [modifyAt_length, hl]
    rfl
  · rcases mem_modifyAt _ _ _ _ hmem with h | ⟨c0, h0, rfl⟩
    · exact hc c h
    · exact BHTPredictor.updateCnt_WF w takenActually c0 (hc c0 h0)

theorem GlobalHistoryPredictor.ghp_new_WF (ghr_width entry_num_log scnt_width : Nat)
    (he : entry_num_log < 31) (h1 : 1 ≤ scnt_width) (h8 : scnt_width ≤ 8) :
    (GlobalHistoryPredictor.new ghr_width entry_num_log scnt_width).WF scnt_width := by
  refine ⟨he, ?_, fun c hc => ?_⟩
  · show (List.replicate _ _).length = _
    rw [List.length_replicate, shl1_toNat _ he]
    rfl
  · rw [List.eq_of_mem_replicate hc]
    exact SaturatingCnt.cnt_new_WF scnt_width h1 h8

theorem GlobalHistoryPredictor.updateCnt_fst (takenActually : Bool) (c : SaturatingCnt)
    (g : ShiftReg) :
    (GlobalHistoryPredictor.updateCnt takenActually c g).1 =
      BHTPredictor.updateCnt takenActually c := by
  by_cases hw : c.m_wid = 2 ∨ c.m_wid = 3
  · rw [GlobalHistoryPredictor.updateCnt_eq _ _ _ hw]
  · have h2 : ¬ c.getWidth = 2 := fun h => hw (Or.inl h)
    have h3 : ¬ c.getWidth = 3 := fun h => hw (Or.inr h)
    unfold GlobalHistoryPredictor.updateCnt BHTPredictor.updateCnt
    rw [if_neg h2, if_neg h3, if_neg h2, if_neg h3]

theorem GlobalHistoryPredictor.updateCnt_snd_wid (takenActually : Bool) (c : SaturatingCnt)
    (g : ShiftReg) : (GlobalHistoryPredictor.updateCnt takenActually c g).2.m_wid = g.m_wid := by
  by_cases hw : c.m_wid = 2 ∨ c.m_wid = 3
  · rw [GlobalHistoryPredictor.updateCnt_eq _ _ _ hw]
    rfl
  · have h2 : ¬ c.getWidth = 2 := fun h => hw (Or.inl h)
    have h3 : ¬ c.getWidth = 3 := fun h => hw (Or.inr h)
    unfold GlobalHistoryPredictor.updateCnt
    rw [if_neg h2, if_neg h3]

theorem GlobalHistoryPredictor.update_shape (hash : Nat → Nat → Nat) (p : GlobalHistoryPredictor)
    (takenActually takenPredicted : Bool) (addr : Nat) :
    (p.update hash takenActually takenPredicted addr).m_entries_log = p.m_entries_log ∧
    (p.update hash takenActually takenPredicted addr).m_scnt.length = p.m_scnt.length ∧
    (p.update hash takenActually takenPredicted addr).m_ghr.m_wid = p.m_ghr.m_wid ∧
    ∀ c ∈ (p.update hash takenActually takenPredicted addr).m_scnt,
      c ∈ p.m_scnt ∨ ∃ c0 ∈ p.m_scnt, c = BHTPredictor.updateCnt takenActually c0 := by
  unfold GlobalHistoryPredictor.update
  simp only
  split
  · rename_i c0 hc0
    refine ⟨rfl, by simp, ?_, fun c hc => ?_⟩
    · exact GlobalHistoryPredictor.updateCnt_snd_wid takenActually c0 p.m_ghr
    · rcases mem_set_cases _ _ _ _ hc with h | h
      · exact Or.inl h
      · exact Or.inr ⟨c0, List.getElem?_mem hc0, by
          rw [h, GlobalHistoryPredictor.updateCnt_fst]⟩
  · exact ⟨rfl, rfl, rfl, fun c hc => Or.inl hc⟩

theorem GlobalHistoryPredictor.ghp_update_WF (hash : Nat → Nat → Nat) (w : Nat)
    (p : GlobalHistoryPredictor) (takenActually takenPredicted : Bool) (addr : Nat)
    (h : p.WF w) : (p.update hash takenActually takenPredicted addr).WF w := by
  obtain ⟨he, hl, hc⟩ := h
  obtain ⟨h1, h2, _, h4⟩ :=
    GlobalHistoryPredictor.update_shape hash p takenActually takenPredicted addr
  refine ⟨by rw [h1]; exact he, by rw [h1, h2, hl], fun c hmem => ?_⟩
  rcases h4 c hmem with h | ⟨c0, h0, rfl⟩
  · exact hc c h
  · exact BHTPredictor.updateCnt_WF w takenActually c0 (hc c0 h0)

theorem modifyAt_tail {α : Type} (l : List α) (i : Nat) (f : α → α) :
    (modifyAt l i f).tail = if i = 0 then l.tail else modifyAt l.tail (i - 1) f := by
  cases l with
  | nil => cases i <;> simp [modifyAt]
  | cons a as =>
    cases i with
    | zero => simp [modifyAt]
    | succ k =>
      simp only [modifyAt, List.getElem?_cons_succ, List.tail_cons, Nat.add_sub_cancel,
        Nat.succ_ne_zero, if_false]
      cases as[k]? <;> simp

theorem forall_mem_tail_modifyAt {α : Type} (P : α → Prop) (l : List α) (i : Nat) (f : α → α)
    (hl : ∀ a ∈ l.tail, P a) (hf : ∀ a, P a → P (f a)) : ∀ a ∈ (modifyAt l i f).tail, P a := by
  intro a ha
  rw [modifyAt_tail] at ha
  split at ha
  · exact hl a ha
  · rcases mem_modifyAt _ _ _ _ ha with h | ⟨c, hc, rfl⟩
    · exact hl a h
    · exact hf c (hl c hc)

theorem foldl_preserves {σ ι : Type} (P : σ → Prop) (f : σ → ι → σ)
    (h : ∀ x i, P x → P (f x i)) (l : List ι) : ∀ x, P x → P (l.foldl f x) := by
  induction l with
  | nil => intro x hx; exact hx
  | cons i l ih => intro x hx; exact ih _ (h x i hx)

theorem forall_mem_modifyAt {α : Type} (P : α → Prop) (l : List α) (i : Nat) (f : α → α)
    (hl : ∀ a ∈ l, P a) (hf : ∀ a, P a → P (f a)) : ∀ a ∈ modifyAt l i f, P a := by
  intro a ha
  rcases mem_modifyAt _ _ _ _ ha with h | ⟨c, hc, rfl⟩
  · exact hl a h
  · exact hf c (hl c hc)

theorem TAGEPredictor.tage_new_WF (T0_entry_num_log : Nat) (ghr_sizes : List Nat)
    (Tn_entry_num_log scnt_width rst_period : Nat) (he : Tn_entry_num_log < 31) :
    (TAGEPredictor.new T0_entry_num_log ghr_sizes Tn_entry_num_log scnt_width rst_period).WF := by
  refine ⟨Nat.succ_le_succ (Nat.zero_le _), he, by simp [TAGEPredictor.new],
    by simp [TAGEPredictor.new], by simp [TAGEPredictor.new], ?_, ?_⟩
  · intro T hT
    simp only [TAGEPredictor.new, List.tail_cons, List.mem_map] at hT
    obtain ⟨g, _, rfl⟩ := hT
    simp [TAGEPredictor.tableOk, GlobalHistoryPredictor.new, TAGEPredictor.new,
      shl1_toNat _ he]
  · intro row hrow
    simp only [TAGEPredictor.new, List.tail_cons, List.mem_map] at hrow
    obtain ⟨g, _, rfl⟩ := hrow
    refine ⟨by simp [TAGEPredictor.new, shl1_toNat _ he], fun u hu => ?_⟩
    rw [List.eq_of_mem_replicate hu]
    norm_num

theorem TAGEPredictor.predictStep_WF (hash1 hash2 : Nat → Nat → Nat) (addr : Nat)
    (x : TAGEPredictor) (i : Nat) (h : x.WF) :
    (TAGEPredictor.predictStep hash1 hash2 addr x i).WF := by
  obtain ⟨h1, h2, h3, h4, h5, h6, h7⟩ := h
  unfold TAGEPredictor.predictStep
  split
  · simp only
    split
    · exact ⟨h1, h2, h3, by simpa using h4, h5, h6, h7⟩
    · exact ⟨h1, h2, h3, by simpa using h4, h5, h6, h7⟩
  · exact ⟨h1, h2, h3, h4, h5, h6, h7⟩

theorem TAGEPredictor.predict_WF (hash1 hash2 : Nat → Nat → Nat) (s : TAGEPredictor)
    (addr : Nat) (h : s.WF) : (s.predict hash1 hash2 addr).2.WF := by
  unfold TAGEPredictor.predict
  simp only
  apply foldl_preserves TAGEPredictor.WF _
    (fun x i hx => TAGEPredictor.predictStep_WF hash1 hash2 addr x i hx)
  obtain ⟨h1, h2, h3, h4, h5, h6, h7⟩ := h
  split
  · exact ⟨h1, h2, h3, by simpa using h4, h5, h6, h7⟩
  · exact ⟨h1, h2, h3, h4, h5, h6, h7⟩

theorem TAGEPredictor.tableOk_update (hash1 : Nat → Nat → Nat) (s : TAGEPredictor)
    (a b : Bool) (addr : Nat) (T : SubPredictor) (h : s.tableOk T = true) :
    s.tableOk (T.update hash1 a b addr) = true := by
  cases T with
  | bht p => simp [TAGEPredictor.tableOk] at h
  | ghp g =>
    obtain ⟨h1, h2, _, _⟩ := GlobalHistoryPredictor.update_shape hash1 g a b addr
    simp only [TAGEPredictor.tableOk, SubPredictor.update, h1, h2] at h ⊢
    exact h

theorem TAGEPredictor.tableOk_reset_ctr (hash1 : Nat → Nat → Nat) (s : TAGEPredictor)
    (addr : Nat) (T : SubPredictor) (h : s.tableOk T = true) :
    s.tableOk (T.reset_ctr hash1 addr) = true := by
  cases T with
  | bht p => simp [TAGEPredictor.tableOk] at h
  | ghp g =>
    simp only [TAGEPredictor.tableOk, SubPredictor.reset_ctr,
      GlobalHistoryPredictor.reset_ctr, modifyAt_length] at h ⊢
    exact h

theorem TAGEPredictor.updateProvider_WF (hash1 : Nat → Nat → Nat) (s : TAGEPredictor)
    (a b : Bool) (addr : Nat) (h : s.WF) : (s.updateProvider hash1 a b addr).WF := by
  obtain ⟨h1, h2, h3, h4, h5, h6, h7⟩ := h
  refine ⟨h1, h2, ?_, h4, h5, ?_, h7⟩
  · show (modifyAt _ _ _).length = _
    rw [modifyAt_length]; exact h3
  · exact forall_mem_tail_modifyAt (fun T => s.tableOk T = true) _ _ _ h6
      (fun T hT => TAGEPredictor.tableOk_update hash1 s a b addr T hT)

theorem TAGEPredictor.modUseful_WF (s : TAGEPredictor) (i tag : Nat) (f : Nat → Nat)
    (hf : ∀ u, f u < 256) (h : s.WF) :
    TAGEPredictor.WF
      { s with m_useful := (modifyAt s.m_useful i (fun row => modifyAt row tag f)) } := by
  obtain ⟨h1, h2, h3, h4, h5, h6, h7⟩ := h
  refine ⟨h1, h2, h3, h4, ?_, h6, ?_⟩
  · show (modifyAt _ _ _).length = _
    rw [modifyAt_length]; exact h5
  · exact forall_mem_tail_modifyAt
      (fun row => row.length = 2 ^ s.m_entries_log ∧ ∀ u ∈ row, u < 256) _ _ _ h7
      (fun row hrow => ⟨by rw [modifyAt_length]; exact hrow.1,
        forall_mem_modifyAt (fun u => u < 256) _ _ _ hrow.2 (fun u _ => hf u)⟩)

theorem TAGEPredictor.incUseful_WF (s : TAGEPredictor) (i tag : Nat) (h : s.WF) :
    (s.incUseful i tag).WF :=
  TAGEPredictor.modUseful_WF s i tag (fun u => (u + 1) % 256)
    (fun _ => Nat.mod_lt _ (by norm_num)) h

theorem TAGEPredictor.decUseful_WF (s : TAGEPredictor) (i tag : Nat) (h : s.WF) :
    (s.decUseful i tag).WF :=
  TAGEPredictor.modUseful_WF s i tag (fun u => (u + 255) % 256)
    (fun _ => Nat.mod_lt _ (by norm_num)) h

theorem TAGEPredictor.updateUseful_WF (hash1 : Nat → Nat → Nat) (s : TAGEPredictor)
    (a b : Bool) (addr : Nat) (h : s.WF) : (s.updateUseful hash1 a b addr).WF := by
  unfold TAGEPredictor.updateUseful
  split
  · split
    · rename_i T alt _ _
      cases a <;> cases b <;> cases alt
      · exact h
      · exact TAGEPredictor.incUseful_WF s _ _ h
      · exact TAGEPredictor.decUseful_WF s _ _ h
      · exact h
      · exact h
      · exact TAGEPredictor.decUseful_WF s _ _ h
      · exact TAGEPredictor.incUseful_WF s _ _ h
      · exact h
    · exact h
  · exact h

theorem clearRow_spec (n : Nat) (row : List Nat) :
    (TAGEPredictor.clearRow n row).length = row.length ∧
    ∀ j, (TAGEPredictor.clearRow n row)[j]? = if j < n then (row[j]?).map (fun _ => 0) else row[j]? := by
  induction n with
  | zero => exact ⟨rfl, fun j => by simp [TAGEPredictor.clearRow]⟩
  | succ n ih =>
    have e : TAGEPredictor.clearRow (n + 1) row = (TAGEPredictor.clearRow n row).set n 0 := by
      unfold TAGEPredictor.clearRow
      rw [List.range_succ, List.foldl_append]
      rfl
    rw [e]
    refine ⟨by rw [List.length_set]; exact ih.1, fun j => ?_⟩
    rw [List.getElem?_set, ih.1]
    by_cases hj : n = j
    · subst hj
      by_cases hl : n < row.length
      · simp [hl, List.getElem?_eq_getElem hl]
      · simp [hl, List.getElem?_eq_none (Nat.le_of_not_lt hl)]
    · rw [if_neg hj, ih.2 j]
      by_cases hjn : j < n
      · rw [if_pos hjn, if_pos (by omega)]
      · rw [if_neg hjn, if_neg (by omega)]

theorem TAGEPredictor.periodicReset_WF (s : TAGEPredictor) (h : s.WF) : s.periodicReset.WF := by
  unfold TAGEPredictor.periodicReset
  split
  · obtain ⟨h1, h2, h3, h4, h5, h6, h7⟩ := h
    have key := foldl_preserves
      (fun u : List (List Nat) => u.length = s.m_tnum ∧
        ∀ row ∈ u.tail, row.length = 2 ^ s.m_entries_log ∧ ∀ x ∈ row, x < 256)
      (fun u i => modifyAt u i (TAGEPredictor.clearRow (shl1 s.m_entries_log).toNat))
      (fun u i hu => ⟨by rw [modifyAt_length]; exact hu.1,
        forall_mem_tail_modifyAt _ _ _ _ hu.2 (fun row hrow => by
          obtain ⟨hlen, hget⟩ := clearRow_spec (shl1 s.m_entries_log).toNat row
          refine ⟨by rw [hlen]; exact hrow.1, fun x hx => ?_⟩
          obtain ⟨j, hj⟩ := List.getElem?_of_mem hx
          rw [hget j] at hj
          split at hj
          · cases hr : row[j]? with
            | none => rw [hr] at hj; cases hj
            | some y => rw [hr] at hj; cases hj; norm_num
          · exact hrow.2 x (List.getElem?_mem hj))⟩)
      (List.range' 1 (s.m_tnum - 1)) s.m_useful ⟨h5, h7⟩
    exact ⟨h1, h2, h3, h4, key.1, h6, key.2⟩
  · exact h

theorem TAGEPredictor.allocLoop_WF (hash1 : Nat → Nat → Nat) (addr : Nat) (s : TAGEPredictor)
    (h : s.WF) (n : Nat) : ∀ i, (TAGEPredictor.allocLoop hash1 addr s i n).1.WF := by
  induction n with
  | zero => intro i; exact h
  | succ n ih =>
    intro i
    unfold TAGEPredictor.allocLoop
    simp only
    split
    · obtain ⟨h1, h2, h3, h4, h5, h6, h7⟩ := h
      refine ⟨h1, h2, ?_, h4, h5, ?_, h7⟩
      · show (modifyAt _ _ _).length = _
        rw [modifyAt_length]; exact h3
      · exact forall_mem_tail_modifyAt (fun T => s.tableOk T = true) _ _ _ h6
          (fun T hT => TAGEPredictor.tableOk_reset_ctr hash1 s addr T hT)
    · exact ih (i + 1)

theorem TAGEPredictor.updateAlloc_WF (hash1 : Nat → Nat → Nat) (s : TAGEPredictor)
    (a b : Bool) (addr : Nat) (h : s.WF) : (s.updateAlloc hash1 a b addr).WF := by
  unfold TAGEPredictor.updateAlloc
  split
  · simp only
    split
    · exact foldl_preserves TAGEPredictor.WF _
        (fun x i hx => TAGEPredictor.decUseful_WF x _ _ hx) _ _
        (TAGEPredictor.allocLoop_WF hash1 addr s h _ _)
    · exact TAGEPredictor.allocLoop_WF hash1 addr s h _ _
  · exact h

/-- Every object reached from a constructed TAGE predictor by `predict` and `update`
calls is well formed: `update` keeps the shape the constructor builds. -/
theorem TAGEPredictor.tage_update_WF (hash1 : Nat → Nat → Nat) (s : TAGEPredictor)
    (a b : Bool) (addr : Nat) (h : s.WF) : (s.update hash1 a b addr).WF :=
  TAGEPredictor.updateAlloc_WF hash1 _ a b addr
    (TAGEPredictor.periodicReset_WF _
      (TAGEPredictor.updateUseful_WF hash1 _ a b addr
        (TAGEPredictor.updateProvider_WF hash1 s a b addr h)))

/-! ## Shift register -/

theorem ShiftReg.shiftIn_ret (r : ShiftReg) (b : Bool) (h1 : 1 ≤ r.m_wid) (h31 : r.m_wid ≤ 31) :
    (r.shiftIn b).1 = r.m_val.testBit (r.m_wid - 1) := by
  have hs : (r.m_wid + 2 ^ 64 - 1) % 2 ^ 64 = r.m_wid - 1 := by omega
  have hm : toUINT128 (shl1 ((r.m_wid + 2 ^ 64 - 1) % 2 ^ 64)) = 2 ^ (r.m_wid - 1) := by
    rw [hs, shl1_eq _ (by omega)]
    unfold toUINT128
    have h2 : (2 : Int) ^ (r.m_wid - 1) < ((2 ^ 128 : Nat) : Int) := by
      have : (2 : Int) ^ (r.m_wid - 1) < 2 ^ 128 := pow_lt_pow_right₀ (by norm_num) (by omega)
      exact_mod_cast this
    rw [Int.emod_eq_of_lt (by positivity) h2]
    exact_mod_cast Int.toNat_ofNat (2 ^ (r.m_wid - 1))
  simp only [ShiftReg.shiftIn, hm, Nat.and_two_pow]
  cases r.m_val.testBit (r.m_wid - 1) <;> simp

/-- For a register of width `1..31`, where the `int` masks of `shiftIn` are wide
enough, `shiftIn(b)` returns bit `w - 1` of the value and leaves `(2 * v + b) mod 2 ^ w`. -/
theorem ShiftReg.shiftIn_upto31 (r : ShiftReg) (b : Bool) (h1 : 1 ≤ r.m_wid)
    (h31 : r.m_wid ≤ 31) :
    (r.shiftIn b).1 = r.m_val.testBit (r.m_wid - 1) ∧
    (r.shiftIn b).2.getVal = (2 * r.getVal + (if b then 1 else 0)) % 2 ^ r.m_wid := by
  refine ⟨ShiftReg.shiftIn_ret r b h1 h31, ?_⟩
  have e : r.m_wid % 32 = r.m_wid := Nat.mod_eq_of_lt (by omega)
  show (r.shiftIn b).2.m_val = _
  rw [ShiftReg.shiftIn_val, e]
  rfl

/-- Claim C11, at width 32: the mask `(1 << m_wid) - 1` of `shiftIn` is the `int`
`(1 << 32) - 1 = 0`, so `shiftIn(true)` on the fresh register (value `0`) leaves
`0`, while `(2 * 0 + 1) mod 2 ^ 32 = 1`. -/
theorem ShiftReg.shiftIn_width32 :
    (ShiftReg.new 32).getVal = 0 ∧
    ((ShiftReg.new 32).shiftIn true).2.getVal = 0 ∧
    (2 * (ShiftReg.new 32).getVal + 1) % 2 ^ 32 = 1 := by
  decide

theorem ShiftReg.run_wid (bs : List Bool) : ∀ r : ShiftReg, (r.run bs).m_wid = r.m_wid := by
  induction bs with
  | nil => intro r; rfl
  | cons b bs ih =>
    intro r
    show (((r.shiftIn b).2).run bs).m_wid = _
    rw [ih]
    rfl

theorem ShiftReg.shiftIn_lt (r : ShiftReg) (b : Bool) :
    (r.shiftIn b).2.m_val < 2 ^ r.m_wid := by
  rw [ShiftReg.shiftIn_val]
  have h1 : (2 * r.m_val + (if b then 1 else 0)) % 2 ^ (r.m_wid % 32) < 2 ^ (r.m_wid % 32) :=
    Nat.mod_lt _ (by positivity)
  have h2 : 2 ^ (r.m_wid % 32) ≤ 2 ^ r.m_wid :=
    Nat.pow_le_pow_right (by norm_num) (Nat.mod_le _ _)
  omega

theorem ShiftReg.run_lt (bs : List Bool) :
    ∀ r : ShiftReg, r.m_val < 2 ^ r.m_wid → (r.run bs).m_val < 2 ^ r.m_wid := by
  induction bs with
  | nil => intro r h; exact h
  | cons b bs ih =>
    intro r _
    show (((r.shiftIn b).2).run bs).m_val < _
    have := ih (r.shiftIn b).2 (ShiftReg.shiftIn_lt r b)
    exact this

/-- Claim C12: for every width `w` in `1..127` and every finite sequence of
`shiftIn` calls on the freshly constructed register, the value is below `2 ^ w`;
every prefix of a sequence is a sequence, so this is the bound after every call. -/
theorem ShiftReg.run_val_lt_pow (w : Nat) (_h1 : 1 ≤ w) (_h127 : w ≤ 127) (bs : List Bool) :
    ((ShiftReg.new w).run bs).getVal < 2 ^ w := by
  have h := ShiftReg.run_lt bs (ShiftReg.new w) (by show 0 < 2 ^ w; positivity)
  exact h

theorem ShiftReg.run_val_lt_pow_witness :
    ((ShiftReg.new 3).run [true, true, false, true, true]).getVal < 2 ^ 3 :=
  ShiftReg.run_val_lt_pow 3 (by decide) (by decide) _

/-! ## The harness on an alternating branch -/

theorem BHTPredictor.predict_eq (w : Nat) (p : BHTPredictor) (pc : Nat) (c : SaturatingCnt)
    (hwf : p.WF w) (hc : p.m_scnt[pc % 2 ^ p.m_entries_log]? = some c) :
    p.predict pc = c.isTaken := by
  unfold BHTPredictor.predict
  rw [truncate_eq_mod _ _ (by have := hwf.1; omega), hc]

theorem BHTPredictor.update_weak_taken (p : BHTPredictor) (pc : Nat) (b1 b2 : Bool)
    (hwf : p.WF 2)
    (hc : p.m_scnt[pc % 2 ^ p.m_entries_log]? = some { m_wid := 2, m_val := 2, m_init_val := 2 }) :
    (p.update true b1 pc).WF 2 ∧
    (p.update true b1 pc).m_scnt[pc % 2 ^ (p.update true b1 pc).m_entries_log]? =
      some { m_wid := 2, m_val := 3, m_init_val := 2 } ∧
    ((p.update true b1 pc).update false b2 pc) = p := by
  have hwf1 := BHTPredictor.bht_update_WF 2 p true b1 pc hwf
  obtain ⟨he1, _, ho1, c, _, hget, hset⟩ := BHTPredictor.update_at 2 p true b1 pc hwf
  rw [hc] at hget
  cases hget
  have h3 : (p.update true b1 pc).m_scnt[pc % 2 ^ (p.update true b1 pc).m_entries_log]? =
      some { m_wid := 2, m_val := 3, m_init_val := 2 } := by
    rw [he1, hset]; rfl
  refine ⟨hwf1, h3, ?_⟩
  obtain ⟨he2, _, ho2, c', _, hget2, hset2⟩ :=
    BHTPredictor.update_at 2 (p.update true b1 pc) false b2 pc hwf1
  rw [h3] at hget2
  cases hget2
  have hl : ((p.update true b1 pc).update false b2 pc).m_scnt = p.m_scnt := by
    apply List.ext_getElem?
    intro j
    by_cases hj : j = pc % 2 ^ p.m_entries_log
    · subst hj
      rw [he1] at hset2
      rw [hset2, hc]
      rfl
    · rw [ho2 j (by rw [he1]; exact hj), ho1 j hj]
  have he : ((p.update true b1 pc).update false b2 pc).m_entries_log = p.m_entries_log := by
    rw [he2, he1]
  generalize (p.update true b1 pc).update false b2 pc = q at hl he
  cases q
  cases p
  simp only at hl he
  subst hl he
  rfl

theorem predictBranch_pair (h : Harness BHTPredictor) (pc : Nat) (hwf : h.BP.WF 2)
    (hc : h.BP.m_scnt[pc % 2 ^ h.BP.m_entries_log]? =
      some { m_wid := 2, m_val := 2, m_init_val := 2 })
    (h1 : h.takenCorrect + 1 < 2 ^ 64) (h2 : h.takenIncorrect + 1 < 2 ^ 64) :
    ((predictBranch BHTPredictor.asBP h pc true).BP.predict pc = true ∧
      h.BP.predict pc = true) ∧
    predictBranch BHTPredictor.asBP (predictBranch BHTPredictor.asBP h pc true) pc false =
      { h with takenCorrect := h.takenCorrect + 1, takenIncorrect := h.takenIncorrect + 1 } := by
  have hp0 : h.BP.predict pc = true := by
    rw [BHTPredictor.predict_eq 2 h.BP pc _ hwf hc]; decide
  obtain ⟨hwf1, hc1, hback⟩ := BHTPredictor.update_weak_taken h.BP pc true true hwf hc
  have hp1 : (h.BP.update true true pc).predict pc = true := by
    rw [BHTPredictor.predict_eq 2 _ pc _ hwf1 hc1]; decide
  have hs1 : predictBranch BHTPredictor.asBP h pc true =
      { h with BP := h.BP.update true true pc, takenCorrect := h.takenCorrect + 1 } := by
    simp only [predictBranch, BHTPredictor.asBP, hp0, if_true, Nat.mod_eq_of_lt h1]
  rw [hs1]
  refine ⟨⟨hp1, hp0⟩, ?_⟩
  simp only [predictBranch, BHTPredictor.asBP, hp1, if_true, Bool.false_eq_true, if_false,
    Nat.mod_eq_of_lt h2, hback]

theorem alternating_succ_succ (k pc : Nat) :
    alternating (2 * (k + 1)) pc = alternating (2 * k) pc ++ [(pc, true), (pc, false)] := by
  unfold alternating
  have e : 2 * (k + 1) = 2 * k + 1 + 1 := by ring
  rw [e, List.range_succ, List.range_succ]
  simp [Nat.add_mod]

theorem alternating_odd (k pc : Nat) :
    alternating (2 * k + 1) pc = alternating (2 * k) pc ++ [(pc, true)] := by
  unfold alternating
  rw [List.range_succ]
  simp

theorem Harness.run_append {σ : Type} (B : BranchPredictor σ) (h : Harness σ)
    (l1 l2 : List (Nat × Bool)) : Harness.run B h (l1 ++ l2) = Harness.run B (Harness.run B h l1) l2 :=
  List.foldl_append _ _ _ _

theorem alternating_run_even (p : BHTPredictor) (pc : Nat) (hwf : p.WF 2)
    (hc : p.m_scnt[pc % 2 ^ p.m_entries_log]? = some { m_wid := 2, m_val := 2, m_init_val := 2 })
    (k : Nat) (hk : k < 2 ^ 63) :
    Harness.run BHTPredictor.asBP (Harness.new p) (alternating (2 * k) pc) =
      { Harness.new p with takenCorrect := k, takenIncorrect := k } := by
  induction k with
  | zero => rfl
  | succ k ih =>
    rw [alternating_succ_succ, Harness.run_append, ih (by omega)]
    have := (predictBranch_pair { Harness.new p with takenCorrect := k, takenIncorrect := k } pc
      hwf hc (by show k + 1 < 2 ^ 64; omega) (by show k + 1 < 2 ^ 64; omega)).2
    exact this

theorem alternating_predictions (p : BHTPredictor) (pc : Nat) (hwf : p.WF 2)
    (hc : p.m_scnt[pc % 2 ^ p.m_entries_log]? = some { m_wid := 2, m_val := 2, m_init_val := 2 })
    (n : Nat) (hn : n < 2 ^ 63) :
    (Harness.run BHTPredictor.asBP (Harness.new p) (alternating n pc)).BP.predict pc = true := by
  obtain ⟨k, rfl | rfl⟩ := Nat.even_or_odd' n
  · rw [alternating_run_even p pc hwf hc k (by omega)]
    exact (predictBranch_pair { Harness.new p with takenCorrect := k, takenIncorrect := k } pc
      hwf hc (by show k + 1 < 2 ^ 64; omega) (by show k + 1 < 2 ^ 64; omega)).1.2
  · rw [alternating_odd, Harness.run_append, alternating_run_even p pc hwf hc k (by omega)]
    exact (predictBranch_pair { Harness.new p with takenCorrect := k, takenIncorrect := k } pc
      hwf hc (by show k + 1 < 2 ^ 64; omega) (by show k + 1 < 2 ^ 64; omega)).1.1

theorem BHTPredictor.new_4_2_entry (pc : Nat) :
    (BHTPredictor.new 4 2).WF 2 ∧
    (BHTPredictor.new 4 2).m_scnt[pc % 2 ^ (BHTPredictor.new 4 2).m_entries_log]? =
      some { m_wid := 2, m_val := 2, m_init_val := 2 } := by
  refine ⟨by decide, ?_⟩
  have h : pc % 2 ^ (BHTPredictor.new 4 2).m_entries_log < 16 := Nat.mod_lt _ (by decide)
  generalize pc % 2 ^ (BHTPredictor.new 4 2).m_entries_log = i at h
  interval_cases i <;> decide

/-- Claim C13, at address 0: after the 1000 alternating events the harness has
counted 500 right predictions, so `takenCorrect + notTakenCorrect <= 2` is false,
and the prediction for the third event (made after two events) is `taken`, which is
that event's outcome. -/
theorem alternating_half_right :
    (Harness.run BHTPredictor.asBP (Harness.new (BHTPredictor.new 4 2))
        (alternating 1000 0)).takenCorrect +
      (Harness.run BHTPredictor.asBP (Harness.new (BHTPredictor.new 4 2))
        (alternating 1000 0)).notTakenCorrect = 500 ∧
    ¬ ((Harness.run BHTPredictor.asBP (Harness.new (BHTPredictor.new 4 2))
        (alternating 1000 0)).takenCorrect +
      (Harness.run BHTPredictor.asBP (Harness.new (BHTPredictor.new 4 2))
        (alternating 1000 0)).notTakenCorrect ≤ 2) ∧
    (Harness.run BHTPredictor.asBP (Harness.new (BHTPredictor.new 4 2))
        (alternating 2 0)).BP.predict 0 = true ∧
    (alternating 1000 0)[2]? = some (0, true) := by
  have h := alternating_run_even (BHTPredictor.new 4 2) 0 (BHTPredictor.new_4_2_entry 0).1
    (BHTPredictor.new_4_2_entry 0).2 500 (by norm_num)
  have e : 2 * 500 = 1000 := rfl
  rw [e] at h
  rw [h]
  refine ⟨rfl, by decide, by decide, ?_⟩
  simp [alternating, List.getElem?_range]

/-- Claim C13, amended: a fresh `BHTPredictor(4, 2)` driven through `predictBranch`
with 1000 events at one address whose outcomes alternate taken, not taken, ...
predicts `taken` for every event (the counter moves between 2 and 3), so the 500
taken events are predicted right and the 500 not-taken events wrong:
`takenCorrect = 500`, `takenIncorrect = 500`, `notTakenCorrect = 0`,
`notTakenIncorrect = 0`, and the precision `100 * 500 / 1000` is 50. -/
theorem alternating_counts (pc : Nat) :
    (∀ n, n < 1000 →
      (Harness.run BHTPredictor.asBP (Harness.new (BHTPredictor.new 4 2))
        (alternating n pc)).BP.predict pc = true) ∧
    (Harness.run BHTPredictor.asBP (Harness.new (BHTPredictor.new 4 2))
      (alternating 1000 pc)).takenCorrect = 500 ∧
    (Harness.run BHTPredictor.asBP (Harness.new (BHTPredictor.new 4 2))
      (alternating 1000 pc)).takenIncorrect = 500 ∧
    (Harness.run BHTPredictor.asBP (Harness.new (BHTPredictor.new 4 2))
      (alternating 1000 pc)).notTakenCorrect = 0 ∧
    (Harness.run BHTPredictor.asBP (Harness.new (BHTPredictor.new 4 2))
      (alternating 1000 pc)).notTakenIncorrect = 0 ∧
    100 * ((Harness.run BHTPredictor.asBP (Harness.new (BHTPredictor.new 4 2))
        (alternating 1000 pc)).takenCorrect +
      (Harness.run BHTPredictor.asBP (Harness.new (BHTPredictor.new 4 2))
        (alternating 1000 pc)).notTakenCorrect) = 50 * 1000 := by
  obtain ⟨hwf, hc⟩ := BHTPredictor.new_4_2_entry pc
  have h := alternating_run_even (BHTPredictor.new 4 2) pc hwf hc 500 (by norm_num)
  have e : 2 * 500 = 1000 := rfl
  rw [e] at h
  rw [h]
  exact ⟨fun n hn => alternating_predictions _ pc hwf hc n (by omega), rfl, rfl, rfl, rfl, rfl⟩

/-! ## BHT predictor: the width-3 entry `011` -/

/-- Claim C14, on a reachable object: in a fresh `BHTPredictor(2, 3)` the updates
not taken, taken, taken, taken at address 1 bring the counter to `0b011`; one more
taken update leaves it at `0b110`, not `0b101`. -/
theorem BHTPredictor.update_011_taken_is_110 :
    (((((BHTPredictor.new 2 3).update false true 1).update true false 1).update true false
        1).update true false 1).m_scnt[1]? =
      some { m_wid := 3, m_val := 0b011, m_init_val := 4 } ∧
    ((((((BHTPredictor.new 2 3).update false true 1).update true false 1).update true false
        1).update true false 1).update true false 1).m_scnt[1]? =
      some { m_wid := 3, m_val := 0b110, m_init_val := 4 } ∧
    (0b110 : Nat) ≠ 0b101 := by
  decide

/-- Claim C14, amended: for a BHT with counter width 3 whose indexed counter holds
`0b011`, one update with `takenActually = true` leaves that counter at `0b110`
(reset to the initial value 4, then two increments). -/
theorem BHTPredictor.update_011_taken (p : BHTPredictor) (takenPredicted : Bool) (addr : Nat)
    (c : SaturatingCnt) (hwf : p.WF 3) (hc : p.m_scnt[addr % 2 ^ p.m_entries_log]? = some c)
    (hv : c.getVal = 0b011) :
    (p.update true takenPredicted addr).m_scnt[addr % 2 ^ p.m_entries_log]? =
      some { c with m_val := 0b110 } := by
  obtain ⟨_, _, _, c0, hc0, hget, hupd⟩ := BHTPredictor.update_at 3 p true takenPredicted addr hwf
  rw [hc] at hget
  cases hget
  rw [hupd, BHTPredictor.updateCnt_width3 true c hc0]
  have hv3 : c.m_val = 3 := hv
  rw [hv3]
  rfl

theorem BHTPredictor.update_011_taken_witness :
    (((((BHTPredictor.new 2 3).update false true 1).update true false 1).update true false
        1).update true false 1).WF 3 ∧
    ((((((BHTPredictor.new 2 3).update false true 1).update true false 1).update true false
        1).update true false 1).update true true 1).m_scnt[
          1 % 2 ^ (((((BHTPredictor.new 2 3).update false true 1).update true false 1).update
            true false 1).update true false 1).m_entries_log]? =
      some { ({ m_wid := 3, m_val := 3, m_init_val := 4 } : SaturatingCnt) with m_val := 0b110 } :=
  ⟨by decide,
    BHTPredictor.update_011_taken _ true 1 { m_wid := 3, m_val := 3, m_init_val := 4 }
      (by decide) (by decide) (by decide)⟩

/-! ## Hash functions and tags -/

theorem not128_lt (a : Nat) : not128 a < 2 ^ 128 := by
  unfold not128
  omega

theorem not128_testBit (a : Nat) (h : a < 2 ^ 128) (i : Nat) :
    (not128 a).testBit i = (decide (i < 128) && !a.testBit i) := by
  have e : not128 a = 2 ^ 128 - (a + 1) := by unfold not128; omega
  rw [e, Nat.testBit_two_pow_sub_succ h]

theorem testBit_high (a : Nat) (h : a < 2 ^ 128) (i : Nat) (hi : 128 ≤ i) :
    a.testBit i = false :=
  Nat.testBit_lt_two_pow (lt_of_lt_of_le h (Nat.pow_le_pow_right (by norm_num) hi))

theorem f_xor1_eq_xor (a b : Nat) (ha : a < 2 ^ 128) (hb : b < 2 ^ 128) :
    f_xor1 a b = a ^^^ b := by
  apply Nat.eq_of_testBit_eq
  intro i
  unfold f_xor1
  rw [Nat.testBit_xor, Nat.testBit_xor, not128_testBit a ha, not128_testBit b hb]
  by_cases hi : i < 128
  · simp [hi]
  · simp [hi, testBit_high a ha i (by omega), testBit_high b hb i (by omega)]

theorem f_xnor_eq_xor (a b : Nat) (ha : a < 2 ^ 128) (hb : b < 2 ^ 128) :
    f_xnor a b = a ^^^ b := by
  apply Nat.eq_of_testBit_eq
  intro i
  unfold f_xnor
  rw [not128_testBit _ (Nat.xor_lt_two_pow ha (not128_lt b)), Nat.testBit_xor, Nat.testBit_xor,
    not128_testBit b hb]
  by_cases hi : i < 128
  · simp [hi]
  · simp [hi, testBit_high a ha i (by omega), testBit_high b hb i (by omega)]

theorem hash_eq_xor (hash : Nat → Nat → Nat) (hh : hash = f_xor ∨ hash = f_xor1 ∨ hash = f_xnor)
    (a b : Nat) (ha : a < 2 ^ 128) (hb : b < 2 ^ 128) : hash a b = a ^^^ b := by
  rcases hh with h | h | h
  · rw [h]; rfl
  · rw [h]; exact f_xor1_eq_xor a b ha hb
  · rw [h]; exact f_xnor_eq_xor a b ha hb

/-- Claim C15, for a predictor indexed by `f_xor` and a second hash `a & b`: the
tag of address 1 in the fresh `GlobalHistoryPredictor<f_xor>(4, 2, 2)` is 1, the
index `predict` reads, and not the second hash of `(1, history)` truncated, which
is 0. -/
theorem GlobalHistoryPredictor.get_tag_not_second_hash :
    (GlobalHistoryPredictor.new 4 2 2).get_tag f_xor 1 = 1 ∧
    truncate (f_xor 1 (GlobalHistoryPredictor.new 4 2 2).get_ghr)
      (GlobalHistoryPredictor.new 4 2 2).m_entries_log = 1 ∧
    truncate ((fun a b : Nat => a &&& b) 1 (GlobalHistoryPredictor.new 4 2 2).get_ghr)
      (GlobalHistoryPredictor.new 4 2 2).m_entries_log = 0 := by
  decide

/-- Claim C15, amended: for every state and address, `getTag(addr)` equals
`hash(addr, history)` truncated to `entriesLog` bits, where `hash` is the one hash
function of the predictor, the same that indexes the counter table: `predict` reads
the counter at index `getTag(addr)` and `update` writes no counter at another index. -/
theorem GlobalHistoryPredictor.get_tag_is_index (hash : Nat → Nat → Nat)
    (p : GlobalHistoryPredictor) (takenActually takenPredicted : Bool) (addr : Nat) :
    p.get_tag hash addr = truncate (hash addr p.get_ghr) p.m_entries_log ∧
    (∀ c, p.m_scnt[p.get_tag hash addr]? = some c → p.predict hash addr = c.isTaken) ∧
    (∀ j, j ≠ p.get_tag hash addr →
      (p.update hash takenActually takenPredicted addr).m_scnt[j]? = p.m_scnt[j]?) := by
  refine ⟨rfl, fun c hc => ?_, fun j hj => ?_⟩
  · unfold GlobalHistoryPredictor.predict
    unfold GlobalHistoryPredictor.get_tag at hc
    rw [hc]
  · unfold GlobalHistoryPredictor.update
    simp only [GlobalHistoryPredictor.ghp_tag_eq hash p addr]
    split
    · exact List.getElem?_set_ne (Ne.symm hj)
    · rfl

/-- Claim C16, for `hash1 = f_xor` and `hash2 = a & b`: in the fresh TAGE predictor
with three tables the tag-hit check of table 1 fails at address 1. -/
theorem TAGEPredictor.hit_fails_for_other_hash :
    1 < (TAGEPredictor.new 2 [2, 4] 2 2 4).m_tnum ∧
    (TAGEPredictor.new 2 [2, 4] 2 2 4).hit f_xor (fun a b : Nat => a &&& b) 1 1 = false := by
  decide

/-- Claim C16, amended: for every well-formed state, address and table `i` in
`1..tnum-1` the tag-hit check succeeds exactly when `hash2` and `hash1` agree on
`(addr, T[i].getGhr())` after truncation to `entriesLog` bits, because
`T[i].getTag(addr)` is computed with `hash1`; it therefore always succeeds when both
hash functions are among `f_xor`, `f_xor1` and `f_xnor` (128-bit arguments). -/
theorem TAGEPredictor.hit_iff (hash1 hash2 : Nat → Nat → Nat) (s : TAGEPredictor)
    (addr i : Nat) (hwf : s.WF) (h1 : 1 ≤ i) (hi : i < s.m_tnum) :
    (s.hit hash1 hash2 addr i = true ↔
      truncate (hash2 addr (s.ghrAt i)) s.m_entries_log =
        truncate (hash1 addr (s.ghrAt i)) s.m_entries_log) ∧
    ((hash1 = f_xor ∨ hash1 = f_xor1 ∨ hash1 = f_xnor) →
      (hash2 = f_xor ∨ hash2 = f_xor1 ∨ hash2 = f_xnor) →
      addr < 2 ^ 128 → s.ghrAt i < 2 ^ 128 → s.hit hash1 hash2 addr i = true) := by
  obtain ⟨g, hg, hge, _⟩ := TAGEPredictor.WF.table s hwf i h1 hi
  have hghr : s.ghrAt i = g.get_ghr := by
    unfold TAGEPredictor.ghrAt
    rw [hg]
    rfl
  have hiff : s.hit hash1 hash2 addr i = true ↔
      truncate (hash2 addr (s.ghrAt i)) s.m_entries_log =
        truncate (hash1 addr (s.ghrAt i)) s.m_entries_log := by
    unfold TAGEPredictor.hit
    rw [hg, hghr]
    simp only [SubPredictor.get_ghr, SubPredictor.get_tag, GlobalHistoryPredictor.get_tag,
      decide_eq_true_eq, hge]
    rfl
  refine ⟨hiff, fun hh1 hh2 ha hgh => hiff.2 ?_⟩
  rw [hash_eq_xor hash1 hh1 addr _ ha hgh, hash_eq_xor hash2 hh2 addr _ ha hgh]

theorem TAGEPredictor.hit_iff_witness :
    (TAGEPredictor.new 2 [2, 4] 2 2 4).WF ∧
    (TAGEPredictor.new 2 [2, 4] 2 2 4).hit f_xor f_xor1 5 1 = true :=
  ⟨by decide,
    (TAGEPredictor.hit_iff f_xor f_xor1 (TAGEPredictor.new 2 [2, 4] 2 2 4) 5 1 (by decide)
      (by decide) (by decide)).2 (Or.inl rfl) (Or.inr (Or.inl rfl)) (by norm_num) (by decide)⟩

/-! ## Tournament predictor: the sub-predictors in `update` -/

/-- Claim C17, with a TAGE predictor as sub-predictor 0 and the base class as
sub-predictor 1: after two not-taken updates at address 1, the update at address 2
leaves sub-predictor 0 in a state that differs from its own `update` applied to its
state before the call, because `update` first calls its `predict(2)`, which renews
the cached predictions. -/
theorem TournamentPredictor.update_requeries_predict :
    (TournamentPredictor.update (TAGEPredictor.asBP f_xor f_xor1) BranchPredictor.base
      (TournamentPredictor.runUpdates (TAGEPredictor.asBP f_xor f_xor1) BranchPredictor.base
        (TournamentPredictor.new (TAGEPredictor.new 2 [2, 4] 2 2 4) () 2)
        [(false, false, 1), (false, false, 1)]) false false 2).m_BPs0.m_T_pred =
      [true, true, true] ∧
    ((TAGEPredictor.asBP f_xor f_xor1).update
      (TournamentPredictor.runUpdates (TAGEPredictor.asBP f_xor f_xor1) BranchPredictor.base
        (TournamentPredictor.new (TAGEPredictor.new 2 [2, 4] 2 2 4) () 2)
        [(false, false, 1), (false, false, 1)]).m_BPs0 false false 2).m_T_pred =
      [true, true, false] ∧
    (TournamentPredictor.update (TAGEPredictor.asBP f_xor f_xor1) BranchPredictor.base
      (TournamentPredictor.runUpdates (TAGEPredictor.asBP f_xor f_xor1) BranchPredictor.base
        (TournamentPredictor.new (TAGEPredictor.new 2 [2, 4] 2 2 4) () 2)
        [(false, false, 1), (false, false, 1)]) false false 2).m_BPs0 ≠
    (TAGEPredictor.asBP f_xor f_xor1).update
      (TournamentPredictor.runUpdates (TAGEPredictor.asBP f_xor f_xor1) BranchPredictor.base
        (TournamentPredictor.new (TAGEPredictor.new 2 [2, 4] 2 2 4) () 2)
        [(false, false, 1), (false, false, 1)]).m_BPs0 false false 2 := by
  have h1 : (TournamentPredictor.update (TAGEPredictor.asBP f_xor f_xor1) BranchPredictor.base
      (TournamentPredictor.runUpdates (TAGEPredictor.asBP f_xor f_xor1) BranchPredictor.base
        (TournamentPredictor.new (TAGEPredictor.new 2 [2, 4] 2 2 4) () 2)
        [(false, false, 1), (false, false, 1)]) false false 2).m_BPs0.m_T_pred =
      [true, true, true] := by decide
  have h2 : ((TAGEPredictor.asBP f_xor f_xor1).update
      (TournamentPredictor.runUpdates (TAGEPredictor.asBP f_xor f_xor1) BranchPredictor.base
        (TournamentPredictor.new (TAGEPredictor.new 2 [2, 4] 2 2 4) () 2)
        [(false, false, 1), (false, false, 1)]).m_BPs0 false false 2).m_T_pred =
      [true, true, false] := by decide
  refine ⟨h1, h2, fun h => ?_⟩
  have h3 := congrArg TAGEPredictor.m_T_pred h
  rw [h1, h2] at h3
  exact absurd h3 (by decide)

/-- Claim C17, amended: for every state and all arguments, after `update` the state
of each sub-predictor is its own `update(takenActually, takenPredicted, addr)` applied
to its state after its own `predict(addr)`, which `update` calls first; for a
sub-predictor whose `predict` leaves its state unchanged, as the base class, the BHT
and the global-history predictor do, this is `update` applied to its state before
the call. -/
theorem TournamentPredictor.update_subs {σ0 σ1 : Type} (B0 : BranchPredictor σ0)
    (B1 : BranchPredictor σ1) (t : TournamentPredictor σ0 σ1)
    (takenActually takenPredicted : Bool) (addr : Nat) :
    (TournamentPredictor.update B0 B1 t takenActually takenPredicted addr).m_BPs0 =
      B0.update (B0.predict t.m_BPs0 addr).2 takenActually takenPredicted addr ∧
    (TournamentPredictor.update B0 B1 t takenActually takenPredicted addr).m_BPs1 =
      B1.update (B1.predict t.m_BPs1 addr).2 takenActually takenPredicted addr ∧
    ((B0.predict t.m_BPs0 addr).2 = t.m_BPs0 →
      (TournamentPredictor.update B0 B1 t takenActually takenPredicted addr).m_BPs0 =
        B0.update t.m_BPs0 takenActually takenPredicted addr) ∧
    ((B1.predict t.m_BPs1 addr).2 = t.m_BPs1 →
      (TournamentPredictor.update B0 B1 t takenActually takenPredicted addr).m_BPs1 =
        B1.update t.m_BPs1 takenActually takenPredicted addr) ∧
    (∀ u, (BranchPredictor.base.predict u addr).2 = u) ∧
    (∀ p, (BHTPredictor.asBP.predict p addr).2 = p) ∧
    (∀ hash p, ((GlobalHistoryPredictor.asBP hash).predict p addr).2 = p) := by
  refine ⟨rfl, rfl, fun h => ?_, fun h => ?_, fun _ => rfl, fun _ => rfl, fun _ _ => rfl⟩
  · show B0.update (B0.predict t.m_BPs0 addr).2 takenActually takenPredicted addr = _
    rw [h]
  · show B1.update (B1.predict t.m_BPs1 addr).2 takenActually takenPredicted addr = _
    rw [h]

/-! ## TAGE predictor: which tables `update` changes -/

theorem TAGEPredictor.updateUseful_frame (hash1 : Nat → Nat → Nat) (s : TAGEPredictor)
    (a b : Bool) (addr : Nat) :
    (s.updateUseful hash1 a b addr).m_T = s.m_T ∧
    (s.updateUseful hash1 a b addr).m_tnum = s.m_tnum ∧
    (s.updateUseful hash1 a b addr).m_entries_log = s.m_entries_log ∧
    (s.updateUseful hash1 a b addr).provider_indx = s.provider_indx ∧
    (s.updateUseful hash1 a b addr).m_rst_cnt = s.m_rst_cnt ∧
    (s.updateUseful hash1 a b addr).m_rst_period = s.m_rst_period := by
  unfold TAGEPredictor.updateUseful
  split
  · split
    · rename_i T alt _ _
      cases a <;> cases b <;> cases alt <;> exact ⟨rfl, rfl, rfl, rfl, rfl, rfl⟩
    · exact ⟨rfl, rfl, rfl, rfl, rfl, rfl⟩
  · exact ⟨rfl, rfl, rfl, rfl, rfl, rfl⟩

theorem TAGEPredictor.periodicReset_frame (s : TAGEPredictor) :
    s.periodicReset.m_T = s.m_T ∧ s.periodicReset.m_tnum = s.m_tnum ∧
    s.periodicReset.m_entries_log = s.m_entries_log ∧
    s.periodicReset.provider_indx = s.provider_indx := by
  unfold TAGEPredictor.periodicReset
  split <;> exact ⟨rfl, rfl, rfl, rfl⟩

theorem TAGEPredictor.allocLoop_shape (hash1 : Nat → Nat → Nat) (addr : Nat) (s : TAGEPredictor)
    (n : Nat) : ∀ i,
      TAGEPredictor.allocLoop hash1 addr s i n = (s, false) ∨
      ∃ i0, i ≤ i0 ∧ i0 < i + n ∧ TAGEPredictor.allocLoop hash1 addr s i n =
        ({ s with m_T := (modifyAt s.m_T i0 (fun T => T.reset_ctr hash1 addr)) }, true) := by
  induction n with
  | zero => intro i; exact Or.inl rfl
  | succ n ih =>
    intro i
    unfold TAGEPredictor.allocLoop
    simp only
    split
    · exact Or.inr ⟨i, le_refl _, by omega, rfl⟩
    · rcases ih (i + 1) with h | ⟨i0, h1, h2, h3⟩
      · exact Or.inl h
      · exact Or.inr ⟨i0, by omega, by omega, h3⟩

theorem TAGEPredictor.updateAlloc_tables (hash1 : Nat → Nat → Nat) (s : TAGEPredictor)
    (a b : Bool) (addr : Nat) :
    (s.updateAlloc hash1 a b addr).m_T = s.m_T ∨
    ∃ i0, s.provider_indx < i0 ∧
      (s.updateAlloc hash1 a b addr).m_T =
        modifyAt s.m_T i0 (fun T => T.reset_ctr hash1 addr) := by
  unfold TAGEPredictor.updateAlloc
  split
  · rcases TAGEPredictor.allocLoop_shape hash1 addr s (s.m_tnum - (s.provider_indx + 1))
      (s.provider_indx + 1) with h | ⟨i0, h1, _, h3⟩
    · rw [h]
      exact Or.inl (TAGEPredictor.age_loop hash1 addr s s.provider_indx _).1
    · rw [h3]
      exact Or.inr ⟨i0, by omega, rfl⟩
  · exact Or.inl rfl

theorem SubPredictor.reset_ctr_shape (hash1 : Nat → Nat → Nat) (T : SubPredictor) (addr : Nat) :
    (T.reset_ctr hash1 addr).get_ghr = T.get_ghr ∧
    (T.reset_ctr hash1 addr = T ∨
      ∃ g k c, T = .ghp g ∧ g.m_scnt[k]? = some c ∧
        T.reset_ctr hash1 addr =
          .ghp { g with m_scnt := (g.m_scnt.set k { c with m_val := c.m_init_val }) }) := by
  cases T with
  | bht p => exact ⟨rfl, Or.inl rfl⟩
  | ghp g =>
    refine ⟨rfl, ?_⟩
    cases hc : g.m_scnt[g.get_tag hash1 addr]? with
    | none =>
      left
      simp only [SubPredictor.reset_ctr, GlobalHistoryPredictor.reset_ctr, modifyAt, hc]
    | some c =>
      right
      refine ⟨g, g.get_tag hash1 addr, c, rfl, hc, ?_⟩
      simp only [SubPredictor.reset_ctr, GlobalHistoryPredictor.reset_ctr, modifyAt, hc]
      rfl

/-- Claim C18: for every TAGE state and all arguments, `update` forwards the
learning update to `T[provider_indx]` only: that table becomes its own `update`, and
every other table keeps its history register and all its counters, except that one
table above the provider may have a single counter set to its initial value by the
allocation of the misprediction part. -/
theorem TAGEPredictor.update_tables (hash1 : Nat → Nat → Nat) (s : TAGEPredictor)
    (takenActually takenPredicted : Bool) (addr : Nat) :
    (s.update hash1 takenActually takenPredicted addr).m_T[s.provider_indx]? =
      (s.m_T[s.provider_indx]?).map (fun T => T.update hash1 takenActually takenPredicted addr) ∧
    (∀ j T, j ≠ s.provider_indx → s.m_T[j]? = some T →
      ∃ T1, (s.update hash1 takenActually takenPredicted addr).m_T[j]? = some T1 ∧
        T1.get_ghr = T.get_ghr ∧
        (T1 = T ∨
          ∃ g k c, T = .ghp g ∧ g.m_scnt[k]? = some c ∧
            T1 = .ghp { g with m_scnt := (g.m_scnt.set k { c with m_val := c.m_init_val }) })) ∧
    (∃ i0, s.provider_indx < i0 ∧ ∀ j, j ≠ s.provider_indx → j ≠ i0 →
      (s.update hash1 takenActually takenPredicted addr).m_T[j]? = s.m_T[j]?) := by
  have hU := TAGEPredictor.updateUseful_frame hash1
    (s.updateProvider hash1 takenActually takenPredicted addr) takenActually takenPredicted addr
  have hR := TAGEPredictor.periodicReset_frame
    ((s.updateProvider hash1 takenActually takenPredicted addr).updateUseful hash1
      takenActually takenPredicted addr)
  have hA := TAGEPredictor.updateAlloc_tables hash1
    ((s.updateProvider hash1 takenActually takenPredicted addr).updateUseful hash1
      takenActually takenPredicted addr).periodicReset takenActually takenPredicted addr
  have h3T : (((s.updateProvider hash1 takenActually takenPredicted addr).updateUseful hash1
      takenActually takenPredicted addr).periodicReset).m_T =
      modifyAt s.m_T s.provider_indx
        (fun T => T.update hash1 takenActually takenPredicted addr) := by
    rw [hR.1, hU.1]
    rfl
  have h3p : (((s.updateProvider hash1 takenActually takenPredicted addr).updateUseful hash1
      takenActually takenPredicted addr).periodicReset).provider_indx = s.provider_indx := by
    rw [hR.2.2.2, hU.2.2.2.1]
    rfl
  have hupd : s.update hash1 takenActually takenPredicted addr =
      (((s.updateProvider hash1 takenActually takenPredicted addr).updateUseful hash1
        takenActually takenPredicted addr).periodicReset).updateAlloc hash1
        takenActually takenPredicted addr := rfl
  rw [hupd]
  generalize ((s.updateProvider hash1 takenActually takenPredicted addr).updateUseful hash1
    takenActually takenPredicted addr).periodicReset = s3 at hA h3T h3p
  rw [h3p] at hA
  rcases hA with hA | ⟨i0, hi0, hA⟩
  · rw [hA, h3T]
    refine ⟨?_, fun j T hj hT => ?_, ⟨s.provider_indx + 1, by omega, fun j hj _ => ?_⟩⟩
    · rw [modifyAt_getElem?, if_pos rfl]
    · exact ⟨T, by rw [modifyAt_getElem?_ne _ _ _ _ hj]; exact hT, rfl, Or.inl rfl⟩
    · exact modifyAt_getElem?_ne _ _ _ _ hj
  · rw [hA, h3T]
    refine ⟨?_, fun j T hj hT => ?_, ⟨i0, hi0, fun j hj hj0 => ?_⟩⟩
    · rw [modifyAt_getElem?_ne _ _ _ _ (by omega), modifyAt_getElem?, if_pos rfl]
    · by_cases hj0 : j = i0
      · subst hj0
        obtain ⟨hg, hshape⟩ := SubPredictor.reset_ctr_shape hash1 T addr
        refine ⟨T.reset_ctr hash1 addr, ?_, hg, hshape⟩
        rw [modifyAt_getElem?, if_pos rfl, modifyAt_getElem?_ne _ _ _ _ hj, hT]
        rfl
      · exact ⟨T, by
          rw [modifyAt_getElem?_ne _ _ _ _ hj0, modifyAt_getElem?_ne _ _ _ _ hj]
          exact hT, rfl, Or.inl rfl⟩
    · rw [modifyAt_getElem?_ne _ _ _ _ hj0, modifyAt_getElem?_ne _ _ _ _ hj]

/-! ## TAGE predictor: the periodic clearing of the usefulness rows -/

theorem fold_modifyAt_getElem? {α : Type} (f : α → α) (u : List α) (m i : Nat) :
    ((List.range' 1 m).foldl (fun u i => modifyAt u i f) u)[i]? =
      if 1 ≤ i ∧ i ≤ m then (u[i]?).map f else u[i]? := by
  induction m with
  | zero =>
    rw [if_neg (by omega)]
    rfl
  | succ m ih =>
    rw [List.range'_concat, List.foldl_append]
    simp only [List.foldl_cons, List.foldl_nil]
    have e : 1 + 1 * m = m + 1 := by omega
    rw [e, modifyAt_getElem?]
    by_cases hi : i = m + 1
    · rw [if_pos hi, if_pos (by omega), ← hi, ih, if_neg (by omega)]
    · rw [if_neg hi, ih]
      by_cases hr : 1 ≤ i ∧ i ≤ m
      · rw [if_pos hr, if_pos (by omega)]
      · rw [if_neg hr, if_neg (by omega)]

theorem clearRow_full (n : Nat) (row : List Nat) (h : row.length = n) :
    TAGEPredictor.clearRow n row = List.replicate n 0 := by
  obtain ⟨_, hget⟩ := clearRow_spec n row
  apply List.ext_getElem?
  intro j
  rw [hget, List.getElem?_replicate]
  by_cases hj : j < n
  · rw [if_pos hj, if_pos hj, List.getElem?_eq_getElem (by omega)]
    rfl
  · rw [if_neg hj, if_neg hj, List.getElem?_eq_none (by omega)]

theorem TAGEPredictor.ageStep_rst_cnt (hash1 : Nat → Nat → Nat) (addr : Nat) (c : Nat)
    (l : List Nat) : ∀ x : TAGEPredictor, x.m_rst_cnt = c →
      (l.foldl (TAGEPredictor.ageStep hash1 addr) x).m_rst_cnt = c :=
  foldl_preserves (fun x : TAGEPredictor => x.m_rst_cnt = c) (TAGEPredictor.ageStep hash1 addr)
    (fun _ _ hx => hx) l

theorem TAGEPredictor.updateAlloc_rst_cnt (hash1 : Nat → Nat → Nat) (s : TAGEPredictor)
    (a b : Bool) (addr : Nat) : (s.updateAlloc hash1 a b addr).m_rst_cnt = s.m_rst_cnt := by
  unfold TAGEPredictor.updateAlloc
  split
  · rcases TAGEPredictor.allocLoop_shape hash1 addr s (s.m_tnum - (s.provider_indx + 1))
      (s.provider_indx + 1) with h | ⟨i0, _, _, h3⟩
    · rw [h]
      exact TAGEPredictor.ageStep_rst_cnt hash1 addr _ _ s rfl
    · rw [h3]
      rfl
  · rfl

theorem TAGEPredictor.updateAlloc_cleared (hash1 : Nat → Nat → Nat) (s : TAGEPredictor)
    (a b : Bool) (addr : Nat)
    (hz : ∀ i, 1 ≤ i → i < s.m_tnum →
      s.m_useful[i]? = some (List.replicate (2 ^ s.m_entries_log) 0)) :
    (s.updateAlloc hash1 a b addr).m_useful = s.m_useful := by
  unfold TAGEPredictor.updateAlloc
  split
  · by_cases hn : s.provider_indx + 1 < s.m_tnum
    · have h0 : s.usefulAt (s.provider_indx + 1) (s.tagAt hash1 addr (s.provider_indx + 1)) = 0 := by
        unfold TAGEPredictor.usefulAt
        simp only [List.getD_eq_getElem?_getD, hz _ (by omega : 1 ≤ s.provider_indx + 1) hn,
          Option.getD_some, List.getElem?_replicate]
        split <;> rfl
      rw [TAGEPredictor.allocLoop_first hash1 addr s (s.provider_indx + 1) h0
        (s.m_tnum - (s.provider_indx + 1)) (s.provider_indx + 1) (le_refl _) (by omega)
        (fun j h1 h2 => by omega)]
      rfl
    · have e : s.m_tnum - (s.provider_indx + 1) = 0 := by omega
      rw [e]
      rfl
  · rfl

/-- Claim C19: for a TAGE predictor with reset period `P >= 1` (a `size_t`) and
reset counter `c < P` before the call: if `c + 1 = P` then after `update` the reset
counter is `0` and every usefulness row of a table `i >= 1` holds only zeros;
otherwise the reset counter is `c + 1` and the periodic step changes nothing. -/
theorem TAGEPredictor.update_periodic (hash1 : Nat → Nat → Nat) (s : TAGEPredictor)
    (takenActually takenPredicted : Bool) (addr : Nat) (hwf : s.WF)
    (_hP : 1 ≤ s.m_rst_period) (hc : s.m_rst_cnt < s.m_rst_period)
    (h64 : s.m_rst_period < 2 ^ 64) :
    (s.m_rst_cnt + 1 = s.m_rst_period →
      (s.update hash1 takenActually takenPredicted addr).m_rst_cnt = 0 ∧
      ∀ i, 1 ≤ i → i < s.m_tnum →
        (s.update hash1 takenActually takenPredicted addr).m_useful[i]? =
          some (List.replicate (2 ^ s.m_entries_log) 0)) ∧
    (s.m_rst_cnt + 1 ≠ s.m_rst_period →
      (s.update hash1 takenActually takenPredicted addr).m_rst_cnt = s.m_rst_cnt + 1 ∧
      ((s.updateProvider hash1 takenActually takenPredicted addr).updateUseful hash1
          takenActually takenPredicted addr).periodicReset =
        (s.updateProvider hash1 takenActually takenPredicted addr).updateUseful hash1
          takenActually takenPredicted addr) := by
  have hwf2 := TAGEPredictor.updateUseful_WF hash1 _ takenActually takenPredicted addr
    (TAGEPredictor.updateProvider_WF hash1 s takenActually takenPredicted addr hwf)
  obtain ⟨_, hn2, he2, _, hc2, hp2⟩ := TAGEPredictor.updateUseful_frame hash1
    (s.updateProvider hash1 takenActually takenPredicted addr) takenActually takenPredicted addr
  have hcnt : ((s.updateProvider hash1 takenActually takenPredicted addr).updateUseful hash1
      takenActually takenPredicted addr).m_rst_cnt = s.m_rst_cnt + 1 := by
    rw [hc2]
    show (s.m_rst_cnt + 1) % 2 ^ 64 = _
    exact Nat.mod_eq_of_lt (by omega)
  have hper : ((s.updateProvider hash1 takenActually takenPredicted addr).updateUseful hash1
      takenActually takenPredicted addr).m_rst_period = s.m_rst_period := by
    rw [hp2]; rfl
  have hn : ((s.updateProvider hash1 takenActually takenPredicted addr).updateUseful hash1
      takenActually takenPredicted addr).m_tnum = s.m_tnum := by
    rw [hn2]; rfl
  have he : ((s.updateProvider hash1 takenActually takenPredicted addr).updateUseful hash1
      takenActually takenPredicted addr).m_entries_log = s.m_entries_log := by
    rw [he2]; rfl
  have hupd : s.update hash1 takenActually takenPredicted addr =
      (((s.updateProvider hash1 takenActually takenPredicted addr).updateUseful hash1
        takenActually takenPredicted addr).periodicReset).updateAlloc hash1
        takenActually takenPredicted addr := rfl
  rw [hupd]
  generalize (s.updateProvider hash1 takenActually takenPredicted addr).updateUseful hash1
    takenActually takenPredicted addr = s2 at hwf2 hcnt hper hn he
  refine ⟨fun heq => ?_, fun hne => ?_⟩
  · have hres : s2.periodicReset =
        { s2 with
          m_useful := ((List.range' 1 (s2.m_tnum - 1)).foldl
            (fun u i => modifyAt u i (TAGEPredictor.clearRow (shl1 s2.m_entries_log).toNat))
            s2.m_useful)
          m_rst_cnt := 0 } := by
      unfold TAGEPredictor.periodicReset
      rw [if_pos (by rw [hcnt, hper]; exact heq)]
    have hz : ∀ i, 1 ≤ i → i < s2.periodicReset.m_tnum →
        s2.periodicReset.m_useful[i]? =
          some (List.replicate (2 ^ s2.periodicReset.m_entries_log) 0) := by
      intro i h1 hi
      rw [hres] at hi ⊢
      simp only at hi ⊢
      obtain ⟨row, hrow, hlen, _⟩ := TAGEPredictor.WF.row s2 hwf2 i h1 hi
      rw [fold_modifyAt_getElem?, if_pos ⟨h1, by omega⟩, hrow, shl1_toNat _ hwf2.2.1]
      show some (TAGEPredictor.clearRow _ row) = _
      rw [clearRow_full _ row hlen]
    refine ⟨?_, fun i h1 hi => ?_⟩
    · rw [TAGEPredictor.updateAlloc_rst_cnt, hres]
    · rw [TAGEPredictor.updateAlloc_cleared hash1 _ takenActually takenPredicted addr hz]
      have := hz i h1 (by rw [(TAGEPredictor.periodicReset_frame s2).2.1, hn]; exact hi)
      rw [this, (TAGEPredictor.periodicReset_frame s2).2.2.1, he]
  · have hres : s2.periodicReset = s2 := by
      unfold TAGEPredictor.periodicReset
      rw [if_neg (by rw [hcnt, hper]; exact hne)]
    refine ⟨?_, hres⟩
    rw [TAGEPredictor.updateAlloc_rst_cnt, hres, hcnt]

/-- A run of `TAGEPredictor<f_xor, f_xor1>` with reset period 3 on a branch at
address 0.  In the second event (taken, predicted not taken) the reset counter goes
from 1 to 2 and the usefulness entry that `update` sets to 255 is kept.  In the third
event (taken, predicted taken) the reset counter is 2 before `update` and 0 after it,
and the usefulness rows, which hold that 255 before, hold only zeros after. -/
theorem TAGEPredictor.update_periodic_witness :
    (((TAGEPredictor.drive f_xor f_xor1 (TAGEPredictor.new 2 [2, 4] 2 2 3)
      [(0, false), (0, true)]).2.predict f_xor f_xor1 0).2.WF ∧
      ((TAGEPredictor.drive f_xor f_xor1 (TAGEPredictor.new 2 [2, 4] 2 2 3)
      [(0, false), (0, true)]).2.predict f_xor f_xor1 0).2.m_rst_period = 3 ∧
      ((TAGEPredictor.drive f_xor f_xor1 (TAGEPredictor.new 2 [2, 4] 2 2 3)
      [(0, false), (0, true)]).2.predict f_xor f_xor1 0).2.m_rst_cnt = 2 ∧
      ((TAGEPredictor.drive f_xor f_xor1 (TAGEPredictor.new 2 [2, 4] 2 2 3)
      [(0, false), (0, true)]).2.predict f_xor f_xor1 0).2.m_useful = [[], [0, 0, 0, 0], [0, 255, 0, 0]] ∧
      (((TAGEPredictor.drive f_xor f_xor1 (TAGEPredictor.new 2 [2, 4] 2 2 3)
      [(0, false), (0, true)]).2.predict f_xor f_xor1 0).2.update f_xor true true 0).m_rst_cnt = 0 ∧
      (((TAGEPredictor.drive f_xor f_xor1 (TAGEPredictor.new 2 [2, 4] 2 2 3)
      [(0, false), (0, true)]).2.predict f_xor f_xor1 0).2.update f_xor true true 0).m_useful[1]? =
        some (List.replicate (2 ^ ((TAGEPredictor.drive f_xor f_xor1 (TAGEPredictor.new 2 [2, 4] 2 2 3)
      [(0, false), (0, true)]).2.predict f_xor f_xor1 0).2.m_entries_log) 0) ∧
      (((TAGEPredictor.drive f_xor f_xor1 (TAGEPredictor.new 2 [2, 4] 2 2 3)
      [(0, false), (0, true)]).2.predict f_xor f_xor1 0).2.update f_xor true true 0).m_useful[2]? =
        some (List.replicate (2 ^ ((TAGEPredictor.drive f_xor f_xor1 (TAGEPredictor.new 2 [2, 4] 2 2 3)
      [(0, false), (0, true)]).2.predict f_xor f_xor1 0).2.m_entries_log) 0) ∧
      (((TAGEPredictor.drive f_xor f_xor1 (TAGEPredictor.new 2 [2, 4] 2 2 3)
      [(0, false), (0, true)]).2.predict f_xor f_xor1 0).2.update f_xor true true 0).m_useful = [[], [0, 0, 0, 0], [0, 0, 0, 0]]) ∧
    (((TAGEPredictor.drive f_xor f_xor1 (TAGEPredictor.new 2 [2, 4] 2 2 3)
      [(0, false)]).2.predict f_xor f_xor1 0).2.WF ∧
      ((TAGEPredictor.drive f_xor f_xor1 (TAGEPredictor.new 2 [2, 4] 2 2 3)
      [(0, false)]).2.predict f_xor f_xor1 0).2.m_rst_cnt = 1 ∧
      ((TAGEPredictor.drive f_xor f_xor1 (TAGEPredictor.new 2 [2, 4] 2 2 3)
      [(0, false)]).2.predict f_xor f_xor1 0).2.m_useful = [[], [0, 0, 0, 0], [0, 0, 0, 0]] ∧
      (((TAGEPredictor.drive f_xor f_xor1 (TAGEPredictor.new 2 [2, 4] 2 2 3)
      [(0, false)]).2.predict f_xor f_xor1 0).2.update f_xor true false 0).m_rst_cnt =
        ((TAGEPredictor.drive f_xor f_xor1 (TAGEPredictor.new 2 [2, 4] 2 2 3)
      [(0, false)]).2.predict f_xor f_xor1 0).2.m_rst_cnt + 1 ∧
      (((TAGEPredictor.drive f_xor f_xor1 (TAGEPredictor.new 2 [2, 4] 2 2 3)
      [(0, false)]).2.predict f_xor f_xor1 0).2.update f_xor true false 0).m_useful = [[], [0, 0, 0, 0], [0, 255, 0, 0]]) := by
  have h3 := (TAGEPredictor.update_periodic f_xor
    ((TAGEPredictor.drive f_xor f_xor1 (TAGEPredictor.new 2 [2, 4] 2 2 3)
      [(0, false), (0, true)]).2.predict f_xor f_xor1 0).2 true true 0
    (by decide) (by decide) (by decide) (by decide)).1 (by decide)
  have h2 := (TAGEPredictor.update_periodic f_xor
    ((TAGEPredictor.drive f_xor f_xor1 (TAGEPredictor.new 2 [2, 4] 2 2 3)
      [(0, false)]).2.predict f_xor f_xor1 0).2 true false 0
    (by decide) (by decide) (by decide) (by decide)).2 (by decide)
  exact ⟨⟨by decide, by decide, by decide, by decide, h3.1, h3.2 1 (by decide) (by decide),
      h3.2 2 (by decide) (by decide), by decide⟩,
    ⟨by decide, by decide, by decide, h2.1, by decide⟩⟩

/-! ## Tournament predictor: convergence of the meta-counter -/

theorem TournamentPredictor.updateGshr_up (g : SaturatingCnt) (hwf : g.WF 2) :
    TournamentPredictor.updateGshr false true g = { g with m_val := specTable2 true g.m_val } ∧
    (TournamentPredictor.updateGshr false true g).WF 2 := by
  have hup := BHTPredictor.updateCnt_width2 true g hwf
  have hwf1 := BHTPredictor.updateCnt_WF 2 true g hwf
  have hw : g.getWidth = 2 := hwf.1
  have e : TournamentPredictor.updateGshr false true g = BHTPredictor.updateCnt true g := by
    simp [TournamentPredictor.updateGshr, BHTPredictor.updateCnt, hw]
  rw [e]
  exact ⟨hup, hwf1⟩

theorem TournamentPredictor.update_favoured {σ0 σ1 : Type} (B0 : BranchPredictor σ0)
    (B1 : BranchPredictor σ1) (t : TournamentPredictor σ0 σ1) (a b : Bool) (addr : Nat)
    (hwf : t.m_gshr.WF 2) (h1 : (B1.predict t.m_BPs1 addr).1 = a)
    (h0 : (B0.predict t.m_BPs0 addr).1 ≠ a) :
    (TournamentPredictor.update B0 B1 t a b addr).m_gshr.WF 2 ∧
    (TournamentPredictor.update B0 B1 t a b addr).m_gshr.m_val = specTable2 true t.m_gshr.m_val := by
  have e0 : ((B0.predict t.m_BPs0 addr).1 == a) = false := by simpa using h0
  have e1 : ((B1.predict t.m_BPs1 addr).1 == a) = true := by simpa using h1
  have e : (TournamentPredictor.update B0 B1 t a b addr).m_gshr =
      TournamentPredictor.updateGshr false true t.m_gshr := by
    show TournamentPredictor.updateGshr _ _ t.m_gshr = _
    rw [e0, e1]
  obtain ⟨hup, hwf1⟩ := TournamentPredictor.updateGshr_up t.m_gshr hwf
  rw [e]
  exact ⟨hwf1, by rw [hup]⟩

theorem TournamentPredictor.run_stays_3 {σ0 σ1 : Type} (B0 : BranchPredictor σ0)
    (B1 : BranchPredictor σ1) (evs : List (Bool × Bool × Nat)) :
    ∀ t : TournamentPredictor σ0 σ1, t.m_gshr.WF 2 → t.m_gshr.m_val = 3 →
      TournamentPredictor.Favours1 B0 B1 t evs →
      (TournamentPredictor.runUpdates B0 B1 t evs).m_gshr.m_val = 3 := by
  induction evs with
  | nil => intro t _ h3 _; exact h3
  | cons e es ih =>
    intro t hwf h3 hf
    obtain ⟨h1, h0, hrest⟩ := hf
    obtain ⟨hwf1, hval⟩ := TournamentPredictor.update_favoured B0 B1 t e.1 e.2.1 e.2.2 hwf h1 h0
    exact ih _ hwf1 (by rw [hval, h3]; rfl) hrest

/-- Claim C20: for a 2-bit meta-counter starting at any value, after two or more
consecutive updates in each of which the own prediction of sub-predictor 1 equals
the outcome and that of sub-predictor 0 does not, the meta-counter holds 3 and
`predict(addr)` returns the prediction of sub-predictor 1 for every address. -/
theorem TournamentPredictor.converges_to_1 {σ0 σ1 : Type} (B0 : BranchPredictor σ0)
    (B1 : BranchPredictor σ1) (t : TournamentPredictor σ0 σ1) (evs : List (Bool × Bool × Nat))
    (hwf : t.m_gshr.WF 2) (hlen : 2 ≤ evs.length)
    (hf : TournamentPredictor.Favours1 B0 B1 t evs) :
    (TournamentPredictor.runUpdates B0 B1 t evs).m_gshr.getVal = 3 ∧
    ∀ addr, (TournamentPredictor.predict B0 B1 (TournamentPredictor.runUpdates B0 B1 t evs) addr).1 =
      (B1.predict (TournamentPredictor.runUpdates B0 B1 t evs).m_BPs1 addr).1 := by
  have h3 : (TournamentPredictor.runUpdates B0 B1 t evs).m_gshr.m_val = 3 := by
    match evs, hlen, hf with
    | e1 :: e2 :: es, _, ⟨h1, h0, h1', h0', hrest⟩ =>
      obtain ⟨hwf1, hv1⟩ :=
        TournamentPredictor.update_favoured B0 B1 t e1.1 e1.2.1 e1.2.2 hwf h1 h0
      obtain ⟨hwf2, hv2⟩ :=
        TournamentPredictor.update_favoured B0 B1 _ e2.1 e2.2.1 e2.2.2 hwf1 h1' h0'
      refine TournamentPredictor.run_stays_3 B0 B1 es _ hwf2 ?_ hrest
      rw [hv2, hv1]
      have hv : t.m_gshr.m_val < 4 := hwf.2.2
      generalize t.m_gshr.m_val = v at hv
      interval_cases v <;> rfl
  refine ⟨h3, fun addr => ?_⟩
  unfold TournamentPredictor.predict
  rw [if_pos (by rw [SaturatingCnt.getVal, h3]; decide)]

theorem TournamentPredictor.converges_to_1_witness :
    (TournamentPredictor.new () (BHTPredictor.new 2 2) 2).m_gshr.WF 2 ∧
    (TournamentPredictor.runUpdates BranchPredictor.base BHTPredictor.asBP
      (TournamentPredictor.new () (BHTPredictor.new 2 2) 2)
      [(true, true, 1), (true, true, 1)]).m_gshr.getVal = 3 :=
  ⟨by decide,
    (TournamentPredictor.converges_to_1 BranchPredictor.base BHTPredictor.asBP
      (TournamentPredictor.new () (BHTPredictor.new 2 2) 2) [(true, true, 1), (true, true, 1)]
      (by decide) (by decide)
      ⟨by decide, by decide, by decide, by decide, trivial⟩).1⟩

/-! ## The three hash functions -/

/-- Claim C22: the three hash functions are one and the same function: for all
128-bit `a` and `b`, `f_xor1(a, b) = f_xnor(a, b) = f_xor(a, b) = a XOR b`. -/
theorem hashes_are_xor (a b : Nat) (ha : a < 2 ^ 128) (hb : b < 2 ^ 128) :
    f_xor1 a b = f_xnor a b ∧ f_xnor a b = f_xor a b ∧ f_xor a b = a ^^^ b :=
  ⟨by rw [f_xor1_eq_xor a b ha hb, f_xnor_eq_xor a b ha hb], f_xnor_eq_xor a b ha hb, rfl⟩

theorem hashes_are_xor_witness :
    f_xor1 12 10 = f_xnor 12 10 ∧ f_xnor 12 10 = f_xor 12 10 ∧ f_xor 12 10 = 12 ^^^ 10 :=
  hashes_are_xor 12 10 (by norm_num) (by norm_num)

/-! ## Counter widths other than 2 and 3 -/

theorem BHTPredictor.bht_updateCnt_other (takenActually : Bool) (c : SaturatingCnt)
    (h2 : c.m_wid ≠ 2) (h3 : c.m_wid ≠ 3) : BHTPredictor.updateCnt takenActually c = c := by
  have h2' : ¬ c.getWidth = 2 := h2
  have h3' : ¬ c.getWidth = 3 := h3
  unfold BHTPredictor.updateCnt
  rw [if_neg h2', if_neg h3']

theorem GlobalHistoryPredictor.ghp_updateCnt_other (takenActually : Bool) (c : SaturatingCnt)
    (g : ShiftReg) (h2 : c.m_wid ≠ 2) (h3 : c.m_wid ≠ 3) :
    GlobalHistoryPredictor.updateCnt takenActually c g = (c, g) := by
  have h2' : ¬ c.getWidth = 2 := h2
  have h3' : ¬ c.getWidth = 3 := h3
  unfold GlobalHistoryPredictor.updateCnt
  rw [if_neg h2', if_neg h3']

theorem set_getElem?_self {α : Type} (l : List α) (i : Nat) (c : α) (h : l[i]? = some c) :
    l.set i c = l := by
  apply List.ext_getElem?
  intro j
  rw [List.getElem?_set]
  by_cases hj : i = j
  · subst hj
    have hi : i < l.length := by
      by_contra hn
      rw [List.getElem?_eq_none (by omega)] at h
      cases h
    rw [if_pos rfl, if_pos hi, h]
  · rw [if_neg hj]

/-- Claim C23: for every counter width other than 2 and 3, `BHTPredictor::update`
and `GlobalHistoryPredictor::update` leave the whole predictor unchanged for every
argument: no counter moves, and the global-history predictor does not shift the
outcome into its history register. -/
theorem update_other_width_noop (w : Nat) (h2 : w ≠ 2) (h3 : w ≠ 3)
    (takenActually takenPredicted : Bool) (addr : Nat) :
    (∀ p : BHTPredictor, (∀ c ∈ p.m_scnt, c.getWidth = w) →
      p.update takenActually takenPredicted addr = p) ∧
    (∀ (hash : Nat → Nat → Nat) (p : GlobalHistoryPredictor), (∀ c ∈ p.m_scnt, c.getWidth = w) →
      p.update hash takenActually takenPredicted addr = p ∧
      (p.update hash takenActually takenPredicted addr).get_ghr = p.get_ghr) := by
  refine ⟨fun p hp => ?_, fun hash p hp => ?_⟩
  · unfold BHTPredictor.update modifyAt
    simp only
    split
    · rename_i c hc
      have hw := hp c (List.getElem?_mem hc)
      rw [BHTPredictor.bht_updateCnt_other takenActually c (by rw [← hw] at h2; exact h2)
        (by rw [← hw] at h3; exact h3), set_getElem?_self _ _ _ hc]
    · rfl
  · have e : p.update hash takenActually takenPredicted addr = p := by
      unfold GlobalHistoryPredictor.update
      simp only
      split
      · rename_i c hc
        have hw := hp c (List.getElem?_mem hc)
        rw [GlobalHistoryPredictor.ghp_updateCnt_other takenActually c p.m_ghr
          (by rw [← hw] at h2; exact h2) (by rw [← hw] at h3; exact h3)]
        simp only [set_getElem?_self _ _ _ hc]
      · rfl
    exact ⟨e, by rw [e]⟩

theorem update_other_width_noop_witness :
    (∀ c ∈ (GlobalHistoryPredictor.new 4 2 4).m_scnt, c.getWidth = 4) ∧
    (GlobalHistoryPredictor.new 4 2 4).update f_xor true true 1 =
      GlobalHistoryPredictor.new 4 2 4 :=
  ⟨by decide,
    ((update_other_width_noop 4 (by decide) (by decide) true true 1).2 f_xor
      (GlobalHistoryPredictor.new 4 2 4) (by decide)).1⟩

/-! ## TAGE predictor: usefulness entries are `UINT8` values -/

theorem TAGEPredictor.updateUseful_eq (hash1 : Nat → Nat → Nat) (s : TAGEPredictor)
    (a b : Bool) (addr : Nat) (T : SubPredictor) (alt : Bool) (hp0 : s.provider_indx ≠ 0)
    (hT : s.m_T[s.provider_indx]? = some T) (halt : s.m_T_pred[s.altpred_indx]? = some alt) :
    s.updateUseful hash1 a b addr =
      if alt = b then s
      else if a = b then s.incUseful s.provider_indx (T.get_tag hash1 addr % 2 ^ 64)
      else s.decUseful s.provider_indx (T.get_tag hash1 addr % 2 ^ 64) := by
  unfold TAGEPredictor.updateUseful
  simp only [if_pos hp0, hT, halt]
  cases a <;> cases b <;> cases alt <;> simp

theorem TAGEPredictor.usefulAt_lt (s : TAGEPredictor) (h : s.WF) (i k : Nat) (h1 : 1 ≤ i)
    (hi : i < s.m_tnum) : s.usefulAt i k < 256 := by
  obtain ⟨row, hrow, _, hb⟩ := TAGEPredictor.WF.row s h i h1 hi
  unfold TAGEPredictor.usefulAt
  simp only [List.getD_eq_getElem?_getD, hrow, Option.getD_some]
  cases hk : row[k]? with
  | none => simp
  | some u => simpa using hb u (List.getElem?_mem hk)

theorem TAGEPredictor.updateAlloc_useful_change (hash1 : Nat → Nat → Nat) (s : TAGEPredictor)
    (a b : Bool) (addr : Nat) (hwf : s.WF) (i k : Nat)
    (hch : (s.updateAlloc hash1 a b addr).usefulAt i k ≠ s.usefulAt i k) :
    s.usefulAt i k ≠ 0 ∧ (s.updateAlloc hash1 a b addr).usefulAt i k = s.usefulAt i k - 1 := by
  by_cases hm : ((a && !b) || (!a && b)) = true
  · by_cases hz : ∃ j, s.provider_indx < j ∧ j < s.m_tnum ∧ s.usefulAt j (s.tagAt hash1 addr j) = 0
    · exfalso
      apply hch
      have hspec := Nat.find_spec hz
      have hmin := fun j (hj : j < Nat.find hz) => Nat.find_min hz hj
      have hloop := TAGEPredictor.allocLoop_first hash1 addr s (Nat.find hz) hspec.2.2
        (s.m_tnum - (s.provider_indx + 1)) (s.provider_indx + 1) (by omega) (by omega)
        (fun j h1 h2 h0 => hmin j h2 ⟨by omega, by omega, h0⟩)
      have hres : (s.updateAlloc hash1 a b addr).m_useful = s.m_useful := by
        unfold TAGEPredictor.updateAlloc
        rw [if_pos hm, hloop]
        rfl
      unfold TAGEPredictor.usefulAt
      rw [hres]
    · have hall : ∀ j, s.provider_indx < j → j < s.m_tnum →
          s.usefulAt j (s.tagAt hash1 addr j) ≠ 0 :=
        fun j h1 h2 h0 => hz ⟨j, h1, h2, h0⟩
      have hloop := TAGEPredictor.allocLoop_none hash1 addr s
        (s.m_tnum - (s.provider_indx + 1)) (s.provider_indx + 1)
        (fun j h1 h2 => hall j (by omega) (by omega))
      have hres : s.updateAlloc hash1 a b addr =
          (List.range' (s.provider_indx + 1) (s.m_tnum - (s.provider_indx + 1))).foldl
            (TAGEPredictor.ageStep hash1 addr) s := by
        unfold TAGEPredictor.updateAlloc
        rw [if_pos hm, hloop]
        rfl
      rw [hres] at hch ⊢
      obtain ⟨_, _, hU⟩ := TAGEPredictor.age_loop hash1 addr s s.provider_indx
        (s.m_tnum - (s.provider_indx + 1))
      generalize (List.range' (s.provider_indx + 1) (s.m_tnum - (s.provider_indx + 1))).foldl
        (TAGEPredictor.ageStep hash1 addr) s = x at hU hch
      by_cases hr : s.provider_indx < i ∧ i ≤ s.provider_indx + (s.m_tnum - (s.provider_indx + 1))
      · obtain ⟨row, hrow, hlen, hbound⟩ := TAGEPredictor.WF.row s hwf i (by omega) (by omega)
        have hlt : s.tagAt hash1 addr i < row.length := by
          rw [hlen]; exact TAGEPredictor.tagAt_lt hash1 s addr i hwf.2.1
        by_cases hk : k = s.tagAt hash1 addr i
        · subst hk
          have hnz := hall i hr.1 (by omega)
          have hu := hbound _ (List.getElem_mem hlt)
          unfold TAGEPredictor.usefulAt at hnz ⊢
          simp only [List.getD_eq_getElem?_getD, hU i, hrow, if_pos hr,
            Option.map_some', Option.getD_some, modifyAt_getElem?,
            List.getElem?_eq_getElem hlt, if_true] at hnz ⊢
          exact ⟨hnz, by omega⟩
        · exfalso
          apply hch
          unfold TAGEPredictor.usefulAt
          simp only [List.getD_eq_getElem?_getD, hU i, hrow, if_pos hr,
            Option.map_some', Option.getD_some, modifyAt_getElem?, if_neg hk]
      · exfalso
        apply hch
        unfold TAGEPredictor.usefulAt
        simp only [List.getD_eq_getElem?_getD, hU i, if_neg hr]
  · exfalso
    apply hch
    unfold TAGEPredictor.updateAlloc
    rw [if_neg hm]

/-- Claim C25: usefulness entries are 8-bit values updated modulo 256, not clamped.
In the provider-usefulness part of `update` (provider not 0, alternate prediction
different from the prediction) a decrement of an entry holding 0 leaves 255 and an
increment of an entry holding 255 leaves 0; in the misprediction part every entry
that changes was non-zero and is lowered by exactly one, so the ageing never wraps;
and after `update` every entry of a table `i >= 1` is below 256. -/
theorem TAGEPredictor.useful_mod_256 (hash1 : Nat → Nat → Nat) (s : TAGEPredictor)
    (takenActually takenPredicted : Bool) (addr : Nat) (alt : Bool) (hwf : s.WF)
    (hp0 : s.provider_indx ≠ 0) (hp : s.provider_indx < s.m_tnum)
    (halt : s.m_T_pred[s.altpred_indx]? = some alt) (hne : alt ≠ takenPredicted) :
    (∃ T, s.m_T[s.provider_indx]? = some T ∧
      (takenPredicted ≠ takenActually →
        s.usefulAt s.provider_indx (T.get_tag hash1 addr) = 0 →
        (s.updateUseful hash1 takenActually takenPredicted addr).usefulAt s.provider_indx
          (T.get_tag hash1 addr) = 255) ∧
      (takenPredicted = takenActually →
        s.usefulAt s.provider_indx (T.get_tag hash1 addr) = 255 →
        (s.updateUseful hash1 takenActually takenPredicted addr).usefulAt s.provider_indx
          (T.get_tag hash1 addr) = 0)) ∧
    (∀ i k, (s.updateAlloc hash1 takenActually takenPredicted addr).usefulAt i k ≠ s.usefulAt i k →
      s.usefulAt i k ≠ 0 ∧
      (s.updateAlloc hash1 takenActually takenPredicted addr).usefulAt i k = s.usefulAt i k - 1) ∧
    (∀ i k, 1 ≤ i → i < s.m_tnum →
      (s.update hash1 takenActually takenPredicted addr).usefulAt i k < 256) := by
  refine ⟨?_, fun i k h => TAGEPredictor.updateAlloc_useful_change hash1 s _ _ addr hwf i k h,
    fun i k h1 hi => ?_⟩
  · obtain ⟨g, hg, hge, _⟩ := TAGEPredictor.WF.table s hwf s.provider_indx (by omega) hp
    obtain ⟨row, hrow, hlen, _⟩ := TAGEPredictor.WF.row s hwf s.provider_indx (by omega) hp
    have htag : SubPredictor.get_tag hash1 (.ghp g) addr < row.length := by
      rw [hlen]
      show truncate _ g.m_entries_log < _
      rw [hge]
      exact truncate_lt _ _ (by have := hwf.2.1; omega)
    have hmod : SubPredictor.get_tag hash1 (.ghp g) addr % 2 ^ 64 =
        SubPredictor.get_tag hash1 (.ghp g) addr :=
      Nat.mod_eq_of_lt (truncate_lt_u64 _ _)
    have heq := TAGEPredictor.updateUseful_eq hash1 s takenActually takenPredicted addr
      (.ghp g) alt hp0 hg halt
    rw [if_neg hne, hmod] at heq
    refine ⟨.ghp g, hg, fun hpa h0 => ?_, fun hpa h255 => ?_⟩
    · rw [heq, if_neg (fun h => hpa h.symm)]
      have := TAGEPredictor.usefulAt_modify s s.provider_indx _ (fun u => (u + 255) % 256)
        row hrow htag s.provider_indx (SubPredictor.get_tag hash1 (.ghp g) addr)
      rw [if_pos ⟨rfl, rfl⟩, h0] at this
      exact this
    · rw [heq, if_pos hpa.symm]
      have := TAGEPredictor.usefulAt_modify s s.provider_indx _ (fun u => (u + 1) % 256)
        row hrow htag s.provider_indx (SubPredictor.get_tag hash1 (.ghp g) addr)
      rw [if_pos ⟨rfl, rfl⟩, h255] at this
      exact this
  · have hwf' := TAGEPredictor.tage_update_WF hash1 s takenActually takenPredicted addr hwf
    have hn : (s.update hash1 takenActually takenPredicted addr).m_tnum = s.m_tnum := by
      have h1 := hwf'.2.2.1
      have h2 := hwf.2.2.1
      have hR := TAGEPredictor.periodicReset_frame
        ((s.updateProvider hash1 takenActually takenPredicted addr).updateUseful hash1
          takenActually takenPredicted addr)
      have hU := TAGEPredictor.updateUseful_frame hash1
        (s.updateProvider hash1 takenActually takenPredicted addr) takenActually takenPredicted addr
      have hA : ∀ x : TAGEPredictor, (x.updateAlloc hash1 takenActually takenPredicted addr).m_tnum =
          x.m_tnum := by
        intro x
        unfold TAGEPredictor.updateAlloc
        split
        · rcases TAGEPredictor.allocLoop_shape hash1 addr x (x.m_tnum - (x.provider_indx + 1))
            (x.provider_indx + 1) with h | ⟨i0, _, _, h3⟩
          · rw [h]
            exact foldl_preserves (fun y : TAGEPredictor => y.m_tnum = x.m_tnum)
              (TAGEPredictor.ageStep hash1 addr) (fun _ _ hy => hy) _ x rfl
          · rw [h3]; rfl
        · rfl
      show (TAGEPredictor.updateAlloc hash1 _ takenActually takenPredicted addr).m_tnum = _
      rw [hA, hR.2.1, hU.2.1]
      rfl
    exact TAGEPredictor.usefulAt_lt _ hwf' i k h1 (by rw [hn]; exact hi)

theorem TAGEPredictor.useful_mod_256_witness :
    ((TAGEPredictor.drive f_xor f_xor1 (TAGEPredictor.new 2 [2, 4] 2 2 1000)
        [(0, false)]).2.predict f_xor f_xor1 0).2.WF ∧
    ∃ T, ((TAGEPredictor.drive f_xor f_xor1 (TAGEPredictor.new 2 [2, 4] 2 2 1000)
        [(0, false)]).2.predict f_xor f_xor1 0).2.m_T[2]? = some T ∧
      (((TAGEPredictor.drive f_xor f_xor1 (TAGEPredictor.new 2 [2, 4] 2 2 1000)
        [(0, false)]).2.predict f_xor f_xor1 0).2.updateUseful f_xor true false 0).usefulAt 2
          (T.get_tag f_xor 0) = 255 := by
  refine ⟨by decide, ?_⟩
  obtain ⟨T, hT, hdec, _⟩ :=
    (TAGEPredictor.useful_mod_256 f_xor
      ((TAGEPredictor.drive f_xor f_xor1 (TAGEPredictor.new 2 [2, 4] 2 2 1000)
        [(0, false)]).2.predict f_xor f_xor1 0).2 true false 0 true
      (by decide) (by decide) (by decide) (by decide) (by decide)).1
  have hX : ((TAGEPredictor.drive f_xor f_xor1 (TAGEPredictor.new 2 [2, 4] 2 2 1000)
      [(0, false)]).2.predict f_xor f_xor1 0).2.m_T[
        ((TAGEPredictor.drive f_xor f_xor1 (TAGEPredictor.new 2 [2, 4] 2 2 1000)
          [(0, false)]).2.predict f_xor f_xor1 0).2.provider_indx]? =
      some (SubPredictor.ghp
        { m_ghr := { m_wid := 4, m_val := 0 }
          m_scnt := [{ m_wid := 2, m_val := 0, m_init_val := 2 },
            { m_wid := 2, m_val := 2, m_init_val := 2 },
            { m_wid := 2, m_val := 2, m_init_val := 2 },
            { m_wid := 2, m_val := 2, m_init_val := 2 }]
          m_entries_log := 2 }) := by decide
  rw [hX] at hT
  cases hT
  exact ⟨_, hX, hdec (by decide) (by decide)⟩

/-! ## TAGE predictor: the index of the adjusted usefulness entry -/

theorem GlobalHistoryPredictor.update_ghr (hash : Nat → Nat → Nat) (g : GlobalHistoryPredictor)
    (a b : Bool) (addr : Nat) (c : SaturatingCnt)
    (hc : g.m_scnt[truncate (hash addr g.get_ghr) g.m_entries_log]? = some c)
    (hw : c.m_wid = 2 ∨ c.m_wid = 3) :
    (g.update hash a b addr).m_ghr = (g.m_ghr.shiftIn a).2 ∧
    (g.update hash a b addr).m_entries_log = g.m_entries_log := by
  unfold GlobalHistoryPredictor.update
  simp only [GlobalHistoryPredictor.ghp_tag_eq hash g addr, hc]
  rw [GlobalHistoryPredictor.updateCnt_eq _ _ _ hw]
  exact ⟨rfl, trivial⟩

/-- For a provider other than the base whose indexed counter has width 2 or 3,
the usefulness part of `update` runs on the provider after its own `update`: the
tag it uses is `trunc(hash1(addr, h'), entriesLog)` with `h'` the history after
`shiftIn(takenActually)`, which for a history register of at most 31 bits is
`(2 * h + takenActually) mod 2 ^ ghrWidth`. -/
theorem TAGEPredictor.useful_tag_after_update (hash1 : Nat → Nat → Nat) (s : TAGEPredictor)
    (a b : Bool) (addr : Nat) (g : GlobalHistoryPredictor) (c : SaturatingCnt) (hwf : s.WF)
    (hp0 : s.provider_indx ≠ 0) (hp : s.provider_indx < s.m_tnum)
    (hg : s.m_T[s.provider_indx]? = some (.ghp g))
    (hc : g.m_scnt[truncate (hash1 addr g.get_ghr) g.m_entries_log]? = some c)
    (hw : c.m_wid = 2 ∨ c.m_wid = 3) :
    ∃ T, (s.updateProvider hash1 a b addr).m_T[s.provider_indx]? = some T ∧
      T.get_ghr = (g.m_ghr.shiftIn a).2.getVal ∧
      T.get_tag hash1 addr =
        truncate (hash1 addr (g.m_ghr.shiftIn a).2.getVal) s.m_entries_log ∧
      (g.m_ghr.m_wid < 32 →
        T.get_tag hash1 addr =
          truncate (hash1 addr ((2 * g.get_ghr + (if a then 1 else 0)) % 2 ^ g.m_ghr.m_wid))
            s.m_entries_log) := by
  obtain ⟨g0, hg0, hge, _⟩ := TAGEPredictor.WF.table s hwf s.provider_indx (by omega) hp
  rw [hg] at hg0
  cases hg0
  obtain ⟨hghr, hel⟩ := GlobalHistoryPredictor.update_ghr hash1 g a b addr c hc hw
  have hT : (s.updateProvider hash1 a b addr).m_T[s.provider_indx]? =
      some (.ghp (g.update hash1 a b addr)) := by
    show (modifyAt s.m_T _ _)[s.provider_indx]? = _
    rw [modifyAt_getElem?_eq _ _ _ _ hg]
    rfl
  have htag : SubPredictor.get_tag hash1 (.ghp (g.update hash1 a b addr)) addr =
      truncate (hash1 addr (g.m_ghr.shiftIn a).2.getVal) s.m_entries_log := by
    show truncate (hash1 addr (g.update hash1 a b addr).m_ghr.getVal)
      (g.update hash1 a b addr).m_entries_log = _
    rw [hghr, hel, hge]
  refine ⟨_, hT, by show (g.update hash1 a b addr).m_ghr.getVal = _; rw [hghr], htag,
    fun h32 => ?_⟩
  rw [htag]
  have e : (g.m_ghr.shiftIn a).2.getVal =
      (2 * g.get_ghr + (if a then 1 else 0)) % 2 ^ g.m_ghr.m_wid := by
    show (g.m_ghr.shiftIn a).2.m_val = _
    rw [ShiftReg.shiftIn_val, Nat.mod_eq_of_lt h32]
    rfl
  rw [e]

/-- Claim C24, at a 32-bit provider history: in `TAGEPredictor<f_xor, f_xor1>` with
history widths 2 and 32, after one not-taken event at address 0 and the next
`predict(0)` the provider is table 2 with history `h = 0`; `update(true, false, 0)`
adjusts the usefulness entry of index 0 (it becomes 255), which is
`trunc(hash1(0, h), entriesLog)`, and not the entry of index
`trunc(hash1(0, (2 * h + 1) mod 2 ^ 32), entriesLog) = 1`. -/
theorem TAGEPredictor.useful_index_width32 :
    ((TAGEPredictor.drive f_xor f_xor1 (TAGEPredictor.new 2 [2, 32] 2 2 1000)
        [(0, false)]).2.predict f_xor f_xor1 0).2.provider_indx = 2 ∧
    ((TAGEPredictor.drive f_xor f_xor1 (TAGEPredictor.new 2 [2, 32] 2 2 1000)
        [(0, false)]).2.predict f_xor f_xor1 0).2.ghrAt 2 = 0 ∧
    ((TAGEPredictor.drive f_xor f_xor1 (TAGEPredictor.new 2 [2, 32] 2 2 1000)
        [(0, false)]).2.predict f_xor f_xor1 0).2.m_useful = [[], [0, 0, 0, 0], [0, 0, 0, 0]] ∧
    (((TAGEPredictor.drive f_xor f_xor1 (TAGEPredictor.new 2 [2, 32] 2 2 1000)
        [(0, false)]).2.predict f_xor f_xor1 0).2.update f_xor true false 0).m_useful =
      [[], [0, 0, 0, 0], [255, 0, 0, 0]] ∧
    truncate (f_xor 0 0) 2 = 0 ∧
    truncate (f_xor 0 ((2 * 0 + 1) % 2 ^ 32)) 2 = 1 := by
  decide

/-! ## TAGE predictor with two xor hashes: only the last table is used -/

theorem TAGEPredictor.predict_scan (hash1 hash2 : Nat → Nat → Nat) (s : TAGEPredictor)
    (addr : Nat) (hT : s.m_T.length = s.m_tnum) (hP : s.m_T_pred.length = s.m_tnum)
    (h1 : 1 ≤ s.m_tnum) :
    TAGEPredictor.ScanInv hash1 hash2 s addr (s.m_tnum - 1) (s.predict hash1 hash2 addr).2 ∧
    (s.predict hash1 hash2 addr).1 =
      (s.predict hash1 hash2 addr).2.m_T_pred.getD
        (s.predict hash1 hash2 addr).2.provider_indx false := by
  have h0len : 0 < s.m_T.length := by omega
  have hget0 : s.m_T[0]? = some s.m_T[0] := List.getElem?_eq_getElem h0len
  have hinv0 : TAGEPredictor.ScanInv hash1 hash2 s addr 0
      { s with provider_indx := 0, m_T_pred := s.m_T_pred.set 0 (s.m_T[0].predict hash1 addr) } := by
    refine ⟨rfl, rfl, rfl, by simp, ?_, Or.inl ⟨rfl, fun i h1 h2 => by omega⟩⟩
    intro j T hj hjT
    have hj0 : j = 0 := by omega
    subst hj0
    rw [hget0] at hjT
    cases hjT
    have hne : s.m_tnum ≠ 0 := by omega
    simp [List.getElem?_set, hP, hne]
  have hinv := TAGEPredictor.scan_loop hash1 hash2 s addr _ (by omega) hinv0 (s.m_tnum - 1)
    (by omega)
  have hpred : s.predict hash1 hash2 addr =
      (((List.range' 1 (s.m_tnum - 1)).foldl (TAGEPredictor.predictStep hash1 hash2 addr)
          { s with provider_indx := 0,
                   m_T_pred := s.m_T_pred.set 0 (s.m_T[0].predict hash1 addr) }).m_T_pred.getD
        ((List.range' 1 (s.m_tnum - 1)).foldl (TAGEPredictor.predictStep hash1 hash2 addr)
          { s with provider_indx := 0,
                   m_T_pred := s.m_T_pred.set 0 (s.m_T[0].predict hash1 addr) }).provider_indx false,
        (List.range' 1 (s.m_tnum - 1)).foldl (TAGEPredictor.predictStep hash1 hash2 addr)
          { s with provider_indx := 0,
                   m_T_pred := s.m_T_pred.set 0 (s.m_T[0].predict hash1 addr) }) := by
    unfold TAGEPredictor.predict
    simp only [hget0]
  rw [hpred]
  exact ⟨hinv, rfl⟩

theorem TAGEPredictor.ghrAt_lt (s : TAGEPredictor) (h : s.GhrOK) (i : Nat) :
    s.ghrAt i < 2 ^ 128 := by
  unfold TAGEPredictor.ghrAt
  cases hT : s.m_T[i]? with
  | none => simp
  | some T => exact h T (List.getElem?_mem hT)

theorem TAGEPredictor.hit_of_xor (hash1 hash2 : Nat → Nat → Nat) (s : TAGEPredictor)
    (addr i : Nat) (hwf : s.WF) (hok : s.GhrOK) (h1 : 1 ≤ i) (hi : i < s.m_tnum)
    (hh1 : hash1 = f_xor ∨ hash1 = f_xor1 ∨ hash1 = f_xnor)
    (hh2 : hash2 = f_xor ∨ hash2 = f_xor1 ∨ hash2 = f_xnor) (ha : addr < 2 ^ 128) :
    s.hit hash1 hash2 addr i = true := by
  obtain ⟨g, hg, hge, _⟩ := TAGEPredictor.WF.table s hwf i h1 hi
  have hgh : g.get_ghr < 2 ^ 128 := hok _ (List.getElem?_mem hg)
  unfold TAGEPredictor.hit
  rw [hg]
  simp only [SubPredictor.get_ghr, SubPredictor.get_tag, GlobalHistoryPredictor.get_tag,
    decide_eq_true_eq, hge]
  show truncate (hash2 addr g.get_ghr) _ = truncate (hash1 addr g.get_ghr) _
  rw [hash_eq_xor hash1 hh1 addr _ ha hgh, hash_eq_xor hash2 hh2 addr _ ha hgh]

theorem TAGEPredictor.predict_last (hash1 hash2 : Nat → Nat → Nat) (s : TAGEPredictor)
    (addr : Nat) (g : GlobalHistoryPredictor) (hwf : s.WF) (hok : s.GhrOK) (h2 : 2 ≤ s.m_tnum)
    (hg : s.m_T[s.m_tnum - 1]? = some (.ghp g))
    (hh1 : hash1 = f_xor ∨ hash1 = f_xor1 ∨ hash1 = f_xnor)
    (hh2 : hash2 = f_xor ∨ hash2 = f_xor1 ∨ hash2 = f_xnor) (ha : addr < 2 ^ 128) :
    (s.predict hash1 hash2 addr).2.provider_indx = s.m_tnum - 1 ∧
    (s.predict hash1 hash2 addr).1 = g.predict hash1 addr ∧
    (s.predict hash1 hash2 addr).2.m_T = s.m_T ∧
    (s.predict hash1 hash2 addr).2.m_tnum = s.m_tnum := by
  obtain ⟨hinv, hret⟩ := TAGEPredictor.predict_scan hash1 hash2 s addr hwf.2.2.1 hwf.2.2.2.1
    (by omega)
  obtain ⟨hxT, _, hxN, _, hxC, hPA⟩ := hinv
  have hlast := TAGEPredictor.hit_of_xor hash1 hash2 s addr (s.m_tnum - 1) hwf hok (by omega)
    (by omega) hh1 hh2 ha
  have hp : (s.predict hash1 hash2 addr).2.provider_indx = s.m_tnum - 1 := by
    rcases hPA with ⟨_, hno⟩ | ⟨_, hpn, _, habove, _⟩
    · have := hno (s.m_tnum - 1) (by omega) (le_refl _)
      rw [hlast] at this
      cases this
    · by_contra hne
      have := habove (s.m_tnum - 1) (by omega) (le_refl _)
      rw [hlast] at this
      cases this
  refine ⟨hp, ?_, hxT, hxN⟩
  rw [hret, hp]
  have hc := hxC (s.m_tnum - 1) _ (le_refl _) hg
  simp only [List.getD_eq_getElem?_getD, hc, Option.getD_some]
  rfl

theorem modifyAt_of_length_le {α : Type} (l : List α) (i : Nat) (f : α → α)
    (h : l.length ≤ i) : modifyAt l i f = l := by
  unfold modifyAt
  rw [List.getElem?_eq_none h]

theorem TAGEPredictor.update_last (hash1 : Nat → Nat → Nat) (x : TAGEPredictor)
    (a b : Bool) (addr : Nat) (hwf : x.WF) (hp : x.provider_indx = x.m_tnum - 1) :
    (x.update hash1 a b addr).m_T =
      modifyAt x.m_T (x.m_tnum - 1) (fun T => T.update hash1 a b addr) ∧
    (x.update hash1 a b addr).m_tnum = x.m_tnum := by
  have hU := TAGEPredictor.updateUseful_frame hash1 (x.updateProvider hash1 a b addr) a b addr
  have hR := TAGEPredictor.periodicReset_frame
    ((x.updateProvider hash1 a b addr).updateUseful hash1 a b addr)
  have h3T : (((x.updateProvider hash1 a b addr).updateUseful hash1 a b addr).periodicReset).m_T =
      modifyAt x.m_T (x.m_tnum - 1) (fun T => T.update hash1 a b addr) := by
    rw [hR.1, hU.1, ← hp]
    rfl
  have h3p : (((x.updateProvider hash1 a b addr).updateUseful hash1 a b
      addr).periodicReset).provider_indx = x.m_tnum - 1 := by
    rw [hR.2.2.2, hU.2.2.2.1, ← hp]
    rfl
  have h3n : (((x.updateProvider hash1 a b addr).updateUseful hash1 a b
      addr).periodicReset).m_tnum = x.m_tnum := by
    rw [hR.2.1, hU.2.1]
    rfl
  have hupd : x.update hash1 a b addr =
      (((x.updateProvider hash1 a b addr).updateUseful hash1 a b addr).periodicReset).updateAlloc
        hash1 a b addr := rfl
  rw [hupd]
  generalize ((x.updateProvider hash1 a b addr).updateUseful hash1 a b addr).periodicReset = s3
    at h3T h3p h3n
  have hres : s3.updateAlloc hash1 a b addr = s3 := by
    have e : s3.m_tnum - (s3.provider_indx + 1) = 0 := by
      rw [h3p, h3n]
      have := hwf.1
      omega
    unfold TAGEPredictor.updateAlloc
    rw [e]
    split
    · rfl
    · rfl
  rw [hres]
  exact ⟨h3T, h3n⟩

theorem GlobalHistoryPredictor.ghp_update_ghr_lt (hash : Nat → Nat → Nat) (g : GlobalHistoryPredictor)
    (a b : Bool) (addr : Nat) (h : g.get_ghr < 2 ^ 128) :
    (g.update hash a b addr).get_ghr < 2 ^ 128 := by
  unfold GlobalHistoryPredictor.update
  simp only
  split
  · rename_i c _
    show (GlobalHistoryPredictor.updateCnt a c g.m_ghr).2.m_val < _
    by_cases hw : c.m_wid = 2 ∨ c.m_wid = 3
    · rw [GlobalHistoryPredictor.updateCnt_eq _ _ _ hw]
      show (g.m_ghr.shiftIn a).2.m_val < _
      rw [ShiftReg.shiftIn_val]
      have h1 : (2 * g.m_ghr.m_val + (if a then 1 else 0)) % 2 ^ (g.m_ghr.m_wid % 32) <
          2 ^ (g.m_ghr.m_wid % 32) := Nat.mod_lt _ (by positivity)
      have h2 : 2 ^ (g.m_ghr.m_wid % 32) ≤ 2 ^ 128 :=
        Nat.pow_le_pow_right (by norm_num)
          (by have := Nat.mod_lt g.m_ghr.m_wid (by norm_num : 32 > 0); omega)
      omega
    · rw [GlobalHistoryPredictor.ghp_updateCnt_other a c g.m_ghr (fun h => hw (Or.inl h))
        (fun h => hw (Or.inr h))]
      exact h
  · exact h

theorem SubPredictor.sub_update_ghr_lt (hash1 : Nat → Nat → Nat) (T : SubPredictor) (a b : Bool)
    (addr : Nat) (h : T.get_ghr < 2 ^ 128) : (T.update hash1 a b addr).get_ghr < 2 ^ 128 := by
  cases T with
  | bht p => exact h
  | ghp g => exact GlobalHistoryPredictor.ghp_update_ghr_lt hash1 g a b addr h

theorem TAGEPredictor.drive_last (hash1 hash2 : Nat → Nat → Nat)
    (hh1 : hash1 = f_xor ∨ hash1 = f_xor1 ∨ hash1 = f_xnor)
    (hh2 : hash2 = f_xor ∨ hash2 = f_xor1 ∨ hash2 = f_xnor) (evs : List (Nat × Bool)) :
    ∀ (s : TAGEPredictor) (g : GlobalHistoryPredictor), s.WF → s.GhrOK → 2 ≤ s.m_tnum →
      s.m_T[s.m_tnum - 1]? = some (.ghp g) → (∀ e ∈ evs, e.1 < 2 ^ 128) →
      (TAGEPredictor.drive hash1 hash2 s evs).1 = (GlobalHistoryPredictor.drive hash1 g evs).1 ∧
      (TAGEPredictor.drive hash1 hash2 s evs).2.WF ∧
      (TAGEPredictor.drive hash1 hash2 s evs).2.GhrOK ∧
      (TAGEPredictor.drive hash1 hash2 s evs).2.m_tnum = s.m_tnum ∧
      (TAGEPredictor.drive hash1 hash2 s evs).2.m_T[s.m_tnum - 1]? =
        some (.ghp (GlobalHistoryPredictor.drive hash1 g evs).2) ∧
      ∀ j, j ≠ s.m_tnum - 1 →
        (TAGEPredictor.drive hash1 hash2 s evs).2.m_T[j]? = s.m_T[j]? := by
  induction evs with
  | nil =>
    intro s g hwf hok h2 hg _
    exact ⟨rfl, hwf, hok, rfl, hg, fun _ _ => rfl⟩
  | cons e es ih =>
    intro s g hwf hok h2 hg haddr
    obtain ⟨hp, hret, hxT, hxN⟩ := TAGEPredictor.predict_last hash1 hash2 s e.1 g hwf hok h2 hg
      hh1 hh2 (haddr e (List.mem_cons_self _ _))
    have hxwf := TAGEPredictor.predict_WF hash1 hash2 s e.1 hwf
    obtain ⟨huT, huN⟩ := TAGEPredictor.update_last hash1 (s.predict hash1 hash2 e.1).2 e.2
      (s.predict hash1 hash2 e.1).1 e.1 hxwf (by rw [hp, hxN])
    have huwf := TAGEPredictor.tage_update_WF hash1 (s.predict hash1 hash2 e.1).2 e.2
      (s.predict hash1 hash2 e.1).1 e.1 hxwf
    rw [hxT, hxN] at huT
    rw [hxN] at huN
    have huok : ((s.predict hash1 hash2 e.1).2.update hash1 e.2
        (s.predict hash1 hash2 e.1).1 e.1).GhrOK := by
      intro T hT
      rw [huT] at hT
      rcases mem_modifyAt _ _ _ _ hT with h | ⟨T0, h0, rfl⟩
      · exact hok T h
      · exact SubPredictor.sub_update_ghr_lt hash1 T0 _ _ _ (hok T0 h0)
    have hug : ((s.predict hash1 hash2 e.1).2.update hash1 e.2
        (s.predict hash1 hash2 e.1).1 e.1).m_T[s.m_tnum - 1]? =
        some (.ghp (g.update hash1 e.2 (g.predict hash1 e.1) e.1)) := by
      rw [huT, modifyAt_getElem?_eq _ _ _ _ hg, hret]
      rfl
    have hrec := ih ((s.predict hash1 hash2 e.1).2.update hash1 e.2
      (s.predict hash1 hash2 e.1).1 e.1) (g.update hash1 e.2 (g.predict hash1 e.1) e.1)
      huwf huok (by rw [huN]; exact h2) (by rw [huN]; exact hug)
      (fun e' he' => haddr e' (List.mem_cons_of_mem _ he'))
    rw [huN] at hrec
    obtain ⟨r1, r2, r3, r4, r5, r6⟩ := hrec
    have hd : TAGEPredictor.drive hash1 hash2 s (e :: es) =
        ((s.predict hash1 hash2 e.1).1 ::
          (TAGEPredictor.drive hash1 hash2 ((s.predict hash1 hash2 e.1).2.update hash1 e.2
            (s.predict hash1 hash2 e.1).1 e.1) es).1,
         (TAGEPredictor.drive hash1 hash2 ((s.predict hash1 hash2 e.1).2.update hash1 e.2
            (s.predict hash1 hash2 e.1).1 e.1) es).2) := rfl
    have hgd : GlobalHistoryPredictor.drive hash1 g (e :: es) =
        (g.predict hash1 e.1 ::
          (GlobalHistoryPredictor.drive hash1 (g.update hash1 e.2 (g.predict hash1 e.1) e.1) es).1,
         (GlobalHistoryPredictor.drive hash1 (g.update hash1 e.2 (g.predict hash1 e.1) e.1)
            es).2) := rfl
    rw [hd, hgd]
    refine ⟨by rw [r1, hret], r2, r3, r4, r5, fun j hj => ?_⟩
    show (TAGEPredictor.drive hash1 hash2 _ es).2.m_T[j]? = _
    rw [r6 j hj, huT, modifyAt_getElem?_ne _ _ _ _ hj]

theorem TAGEPredictor.tage_new_last (T0_entry_num_log : Nat) (ghr_sizes : List Nat)
    (Tn_entry_num_log scnt_width rst_period : Nat) (hne : ghr_sizes ≠ []) :
    (TAGEPredictor.new T0_entry_num_log ghr_sizes Tn_entry_num_log scnt_width rst_period).GhrOK ∧
    2 ≤ (TAGEPredictor.new T0_entry_num_log ghr_sizes Tn_entry_num_log scnt_width
      rst_period).m_tnum ∧
    (TAGEPredictor.new T0_entry_num_log ghr_sizes Tn_entry_num_log scnt_width rst_period).m_T[
      (TAGEPredictor.new T0_entry_num_log ghr_sizes Tn_entry_num_log scnt_width
        rst_period).m_tnum - 1]? =
      some (.ghp (GlobalHistoryPredictor.new (ghr_sizes.getLast hne) Tn_entry_num_log
        scnt_width)) := by
  have hlen : 0 < ghr_sizes.length := List.length_pos.2 hne
  refine ⟨?_, ?_, ?_⟩
  · intro T hT
    simp only [TAGEPredictor.new, List.mem_cons, List.mem_map] at hT
    rcases hT with rfl | ⟨g, _, rfl⟩
    · show (0 : Nat) < _
      positivity
    · show (0 : Nat) < _
      positivity
  · show 2 ≤ ghr_sizes.length + 1
    omega
  · show (SubPredictor.bht _ :: ghr_sizes.map _)[ghr_sizes.length + 1 - 1]? = _
    obtain ⟨k, hk⟩ : ∃ k, ghr_sizes.length = k + 1 := ⟨ghr_sizes.length - 1, by omega⟩
    rw [hk, Nat.add_sub_cancel, List.getElem?_cons_succ, List.getElem?_map,
      List.getLast_eq_getElem, List.getElem?_eq_getElem (by omega)]
    simp only [Option.map_some', hk, Nat.add_sub_cancel]

/-- Claim C21: a `TAGEPredictor<f_xor, f_xor1>` with `tnum >= 2`, driven from
construction by `predict(addr)` then `update(actual, thatPrediction, addr)` over any
event sequence (64-bit addresses), makes the predictions of a single
`GlobalHistoryPredictor<f_xor>` with the history width, `entriesLog` and counter
width of `T[tnum-1]` on the same events; its last table is that predictor's state,
every other table is as constructed, and the next `predict` has `provider_indx =
tnum - 1`.  Every prefix of a sequence is a sequence, so this holds after every event. -/
theorem TAGEPredictor.equiv_last_table (T0_entry_num_log : Nat) (ghr_sizes : List Nat)
    (Tn_entry_num_log scnt_width rst_period : Nat) (evs : List (Nat × Bool))
    (hne : ghr_sizes ≠ []) (he : Tn_entry_num_log < 31) (haddr : ∀ e ∈ evs, e.1 < 2 ^ 64) :
    (TAGEPredictor.drive f_xor f_xor1
        (TAGEPredictor.new T0_entry_num_log ghr_sizes Tn_entry_num_log scnt_width rst_period)
        evs).1 =
      (GlobalHistoryPredictor.drive f_xor
        (GlobalHistoryPredictor.new (ghr_sizes.getLast hne) Tn_entry_num_log scnt_width) evs).1 ∧
    (TAGEPredictor.drive f_xor f_xor1
        (TAGEPredictor.new T0_entry_num_log ghr_sizes Tn_entry_num_log scnt_width rst_period)
        evs).2.m_T[ghr_sizes.length]? =
      some (.ghp (GlobalHistoryPredictor.drive f_xor
        (GlobalHistoryPredictor.new (ghr_sizes.getLast hne) Tn_entry_num_log scnt_width) evs).2) ∧
    (∀ j, j < ghr_sizes.length →
      (TAGEPredictor.drive f_xor f_xor1
        (TAGEPredictor.new T0_entry_num_log ghr_sizes Tn_entry_num_log scnt_width rst_period)
        evs).2.m_T[j]? =
      (TAGEPredictor.new T0_entry_num_log ghr_sizes Tn_entry_num_log scnt_width
        rst_period).m_T[j]?) ∧
    (∀ addr, addr < 2 ^ 64 →
      ((TAGEPredictor.drive f_xor f_xor1
        (TAGEPredictor.new T0_entry_num_log ghr_sizes Tn_entry_num_log scnt_width rst_period)
        evs).2.predict f_xor f_xor1 addr).2.provider_indx = ghr_sizes.length) := by
  obtain ⟨hok, h2, hg⟩ := TAGEPredictor.tage_new_last T0_entry_num_log ghr_sizes
    Tn_entry_num_log scnt_width rst_period hne
  have hwf := TAGEPredictor.tage_new_WF T0_entry_num_log ghr_sizes Tn_entry_num_log scnt_width
    rst_period he
  have hn : (TAGEPredictor.new T0_entry_num_log ghr_sizes Tn_entry_num_log scnt_width
      rst_period).m_tnum - 1 = ghr_sizes.length := rfl
  have h64 : (2 : Nat) ^ 64 ≤ 2 ^ 128 := by norm_num
  obtain ⟨r1, r2, r3, r4, r5, r6⟩ := TAGEPredictor.drive_last f_xor f_xor1 (Or.inl rfl)
    (Or.inr (Or.inl rfl)) evs _ _ hwf hok h2 hg
    (fun e hmem => lt_of_lt_of_le (haddr e hmem) h64)
  rw [hn] at r5 r6
  refine ⟨r1, r5, fun j hj => r6 j (by omega), fun addr ha => ?_⟩
  have hp := (TAGEPredictor.predict_last f_xor f_xor1 _ addr _ r2 r3 (by rw [r4]; exact h2)
    (by rw [r4, hn]; exact r5) (Or.inl rfl) (Or.inr (Or.inl rfl))
    (lt_of_lt_of_le ha h64)).1
  rw [hp, r4, hn]

theorem TAGEPredictor.equiv_last_table_witness :
    (TAGEPredictor.drive f_xor f_xor1 (TAGEPredictor.new 2 [2, 4] 2 2 1000)
        [(5, true), (5, false), (6, true)]).1 =
      (GlobalHistoryPredictor.drive f_xor
        (GlobalHistoryPredictor.new ([2, 4].getLast (by decide)) 2 2)
        [(5, true), (5, false), (6, true)]).1 :=
  (TAGEPredictor.equiv_last_table 2 [2, 4] 2 2 1000 [(5, true), (5, false), (6, true)]
    (by decide) (by decide) (by decide)).1

end BrchPredict
